import Mathlib

/-!
# Verification of the resume-roaster core (analyzer / roaster / improver)

A shallow embedding of the feature-extraction and scoring/selection engine of
the resume-roaster repository (`server/lib/analyzer.ts`, `server/lib/roaster.ts`,
`server/lib/improver.ts`), together with proofs settling the frozen claims
about its specification.

Modeling conventions:
* JS strings are modeled as `List Char` (`Str`), one entry per UTF-16 code
  unit; the dictionaries and inputs of interest are ASCII/BMP, where code
  units and code points agree.
* JS number arithmetic on scores is modeled with `ℚ`/`ℤ` (the score rules use
  small decimal constants); the seeded LCG models IEEE-754 double rounding of
  `s * 1103515245 + 12345` exactly via 53-significant-bit rounding (`round53`),
  and `& 0x7fffffff` as `% 2^31`.
* Regex scanning (`String.match` with the `g` flag) is modeled by a small
  backtracking matcher: a pattern maps a text and a start position to the
  list of candidate end positions in the engine's preference order (greedy
  quantifiers first, alternatives in source order); global counting walks
  leftmost matches exactly as `RegExp.exec` does.
* JS whitespace (`\s`, `trim`) is modeled by the four ASCII whitespace
  characters that occur in resume text (space, tab, LF, CR), and
  `toLowerCase` by ASCII lowercasing.
-/

namespace Roaster

set_option maxRecDepth 1000000

abbrev Str := List Char

def str (s : String) : Str := s.toList

/-- ASCII `toLowerCase`, the case mapping relevant to the dictionaries. -/
def asciiLowerChar (c : Char) : Char :=
  if 'A' ≤ c ∧ c ≤ 'Z' then Char.ofNat (c.toNat + 32) else c

def lowerS (s : Str) : Str := s.map asciiLowerChar

def isWSChar (c : Char) : Bool :=
  c = ' ' || c = '\t' || c = '\n' || c = '\r'

def isDigitChar (c : Char) : Bool := '0' ≤ c && c ≤ '9'

/-- regex `\w` = `[A-Za-z0-9_]`. -/
def isWordChar (c : Char) : Bool :=
  ('a' ≤ c && c ≤ 'z') || ('A' ≤ c && c ≤ 'Z') || isDigitChar c || c = '_'

/-! ## `cleanText` — the text normalizer

`text.replace(/\r\n/g,"\n").replace(/\t/g," ").replace(/ {3,}/g,"  ")
     .replace(/\n{4,}/g,"\n\n\n").trim()` -/

/-- Global replace of `\r\n` by `\n` (leftmost, non-overlapping). -/
def replCRLF : Str → Str
  | '\r' :: '\n' :: r => '\n' :: replCRLF r
  | c :: r => c :: replCRLF r
  | [] => []

/-- Global replace of `\t` by a single space (the source's `.replace(/\t/g, " ")`). -/
def replTab (l : Str) : Str := l.map (fun c => if c = '\t' then ' ' else c)

/-- What a maximal run of `n` spaces becomes under `.replace(/ {3,}/g, "  ")`. -/
def emitSp (n : Nat) : Str := if 3 ≤ n then [' ', ' '] else List.replicate n ' '

def collapseSpAux : Nat → Str → Str
  | n, [] => emitSp n
  | n, ' ' :: r => collapseSpAux (n + 1) r
  | n, c :: r => emitSp n ++ c :: collapseSpAux 0 r

/-- Global replace of runs of three or more spaces by exactly two. -/
def collapseSpaces (l : Str) : Str := collapseSpAux 0 l

/-- What a maximal run of `n` newlines becomes under `.replace(/\n{4,}/g, "\n\n\n")`. -/
def emitNL (n : Nat) : Str := if 4 ≤ n then ['\n', '\n', '\n'] else List.replicate n '\n'

def collapseNLAux : Nat → Str → Str
  | n, [] => emitNL n
  | n, '\n' :: r => collapseNLAux (n + 1) r
  | n, c :: r => emitNL n ++ c :: collapseNLAux 0 r

/-- Global replace of runs of four or more newlines by exactly three. -/
def collapseNewlines (l : Str) : Str := collapseNLAux 0 l

def trimL (l : Str) : Str := l.dropWhile isWSChar

/-- Drop trailing whitespace: a character survives when something after it
survives or it is itself non-whitespace. -/
def trimR : Str → Str
  | [] => []
  | c :: r =>
    let r' := trimR r
    if r'.isEmpty && isWSChar c then [] else c :: r'

/-- JS `String.prototype.trim` over the modeled whitespace set. -/
def jsTrim (l : Str) : Str := trimR (trimL l)

/-- `cleanText` from `analyzer.ts`. -/
def cleanText (l : Str) : Str :=
  jsTrim (collapseNewlines (collapseSpaces (replTab (replCRLF l))))

/-! ## Splitting and joining lines, substring search -/

/-- JS `text.split("\n")`. -/
def splitNL : Str → List Str
  | [] => [[]]
  | '\n' :: r => [] :: splitNL r
  | c :: r =>
    match splitNL r with
    | h :: t => (c :: h) :: t
    | [] => [[c]]

/-- JS `lines.join("\n")`. -/
def joinNL : List Str → Str
  | [] => []
  | [x] => x
  | x :: r => x ++ '\n' :: joinNL r

/-- `hasPfx p l`: `p` is a leading segment of `l`. -/
def hasPfx : Str → Str → Bool
  | [], _ => true
  | _ :: _, [] => false
  | p :: ps, c :: cs => p = c && hasPfx ps cs

/-- JS `l.includes(p)` (plain substring containment). -/
def hasSub (p : Str) : Str → Bool
  | [] => hasPfx p []
  | c :: r => hasPfx p (c :: r) || hasSub p r

def hasSubCI (p l : Str) : Bool := hasSub (lowerS p) (lowerS l)

/-! ## Word-boundary matching (`\b pat \b` with the `i` flag) -/

def wordAtB (t : Str) (i : Nat) : Bool :=
  match t.get? i with
  | some c => isWordChar c
  | none => false

/-- regex `\b` holds between positions `i-1` and `i` (string edges are non-word). -/
def wbBoundary (t : Str) (i : Nat) : Bool :=
  (if i = 0 then false else wordAtB t (i - 1)) != wordAtB t i

/-- The literal pattern `p` matches at position `i` with `\b` on both sides. -/
def wbAt (p t : Str) (i : Nat) : Bool :=
  hasPfx p (t.drop i) && wbBoundary t i && wbBoundary t (i + p.length)

/-- `new RegExp("\\b" + p + "\\b").test t` for a literal (escaped) pattern. -/
def wbContains (p t : Str) : Bool :=
  (List.range (t.length + 1)).any (wbAt p t)

def wbContainsCI (p t : Str) : Bool := wbContains (lowerS p) (lowerS t)

/-! ## A tiny backtracking regex core

A matcher takes the whole text and a start position and returns the candidate
end positions in backtracking preference order; `[]` means no match here. -/

abbrev M := Str → Nat → List Nat

def listJoin : List (List α) → List α
  | [] => []
  | x :: r => x ++ listJoin r

/-- Literal characters. -/
def mLit (p : Str) : M := fun t i =>
  if hasPfx p (t.drop i) then [i + p.length] else []

/-- Case-insensitive literal. -/
def mLitCI (p : Str) : M := fun t i =>
  if hasPfx (lowerS p) (lowerS (t.drop i)) then [i + p.length] else []

/-- Concatenation. -/
def mSeq (a b : M) : M := fun t i => listJoin ((a t i).map (fun j => b t j))

/-- Alternation in source order. -/
def mAlts (ms : List M) : M := fun t i => listJoin (ms.map (fun m => m t i))

/-- Greedy `?`. -/
def mOpt (a : M) : M := fun t i => a t i ++ [i]

/-- Zero-width `\b`. -/
def mWB : M := fun t i => if wbBoundary t i then [i] else []

/-- Greedy `[class]*`: longest first. -/
def mClsStar (f : Char → Bool) : M := fun t i =>
  let n := ((t.drop i).takeWhile f).length
  (List.range (n + 1)).reverse.map (i + ·)

/-- Greedy `[class]+`: longest first, at least one. -/
def mClsPlus (f : Char → Bool) : M := fun t i =>
  let n := ((t.drop i).takeWhile f).length
  (List.range n).reverse.map (fun k => i + k + 1)

/-- A single `[class]` character. -/
def mClsOne (f : Char → Bool) : M := fun t i =>
  match t.get? i with
  | some c => if f c then [i + 1] else []
  | none => []

/-- Exactly `k` class characters (`[class]{k}`). -/
def mClsExact (f : Char → Bool) (k : Nat) : M := fun t i =>
  let s := (t.drop i).take k
  if s.length = k ∧ s.all f then [i + k] else []

def firstEnd (m : M) (t : Str) (i : Nat) : Option Nat := (m t i).head?

/-- Count global (`g` flag) matches: leftmost match, resume at its end
(advancing at least one position, as `RegExp.exec` does). -/
def countMAux (m : M) (t : Str) : Nat → Nat → Nat
  | 0, _ => 0
  | fuel + 1, i =>
    if t.length < i then 0
    else
      match firstEnd m t i with
      | some e => 1 + countMAux m t fuel (max e (i + 1))
      | none => countMAux m t fuel (i + 1)

def countM (m : M) (t : Str) : Nat := countMAux m t (t.length + 2) 0

/-- `regex.test t`: a match exists somewhere. -/
def hasM (m : M) (t : Str) : Bool :=
  (List.range (t.length + 1)).any (fun i => !(m t i).isEmpty)

/-! ## The metric / link regexes of `countMetrics` and `countLinks` -/

def digitsM : M := mClsPlus isDigitChar

/-- `/\d+%/g` -/
def pctPattern : M := mSeq digitsM (mLit (str "%"))

/-- `/\$[\d,]+/g` -/
def dollarPattern : M :=
  mSeq (mLit (str "$")) (mClsPlus (fun c => isDigitChar c || c = ','))

/-- `/\d+(?:ms|s|sec|mins?|hours?|days?)\b/g` (`s?` expanded greedily in place). -/
def durationPattern : M :=
  mSeq digitsM (mSeq
    (mAlts (["ms", "s", "sec", "mins", "min", "hours", "hour", "days", "day"].map
      (fun w => mLit (str w)))) mWB)

/-- `/\d+(?:k|m|b)\b/gi` -/
def kmbPattern : M :=
  mSeq digitsM (mSeq
    (mClsOne (fun c => asciiLowerChar c = 'k' || asciiLowerChar c = 'm' ||
      asciiLowerChar c = 'b')) mWB)

/-- `/\d+x\b/gi` -/
def xPattern : M :=
  mSeq digitsM (mSeq (mClsOne (fun c => asciiLowerChar c = 'x')) mWB)

/-- `/\d[\d,]*\+?\s*(?:users?|customers?|clients?|transactions?|requests?|downloads?)/gi` -/
def entityPattern : M :=
  mSeq (mClsOne isDigitChar) (mSeq
    (mClsStar (fun c => isDigitChar c || c = ',')) (mSeq
    (mOpt (mLit (str "+"))) (mSeq
    (mClsStar isWSChar)
    (mAlts (["users", "user", "customers", "customer", "clients", "client",
             "transactions", "transaction", "requests", "request",
             "downloads", "download"].map (fun w => mLitCI (str w)))))))

/-- `/(?:reduced|increased|improved|boosted|grew|saved|generated|optimized)\s+\w+\s+(?:by\s+)?\d/gi` -/
def impactPhrasePattern : M :=
  mSeq (mAlts (["reduced", "increased", "improved", "boosted", "grew", "saved",
                "generated", "optimized"].map (fun w => mLitCI (str w)))) (mSeq
    (mClsPlus isWSChar) (mSeq
    (mClsPlus isWordChar) (mSeq
    (mClsPlus isWSChar) (mSeq
    (mOpt (mSeq (mLitCI (str "by")) (mClsPlus isWSChar)))
    (mClsOne isDigitChar)))))

/-- `countMetrics` from `analyzer.ts`: sum of the six pattern counts plus the
impact-verb-plus-number phrase count, with no deduplication across patterns. -/
def countMetrics (t : Str) : Nat :=
  countM pctPattern t + countM dollarPattern t + countM durationPattern t +
  countM kmbPattern t + countM xPattern t + countM entityPattern t +
  countM impactPhrasePattern t

/-- `/https?:\/\/[^\s)]+/gi` -/
def linkPattern : M :=
  mSeq (mLitCI (str "http")) (mSeq
    (mOpt (mLitCI (str "s"))) (mSeq
    (mLit (str "://"))
    (mClsPlus (fun c => !isWSChar c && c ≠ ')'))))

/-- `countLinks` from `analyzer.ts`. -/
def countLinks (t : Str) : Nat := countM linkPattern t

/-! ## Dictionaries (verbatim from `analyzer.ts`) -/

def BUZZWORDS : List Str :=
  ["synergy", "passionate", "dynamic", "self-starter", "hardworking", "team player",
   "results-driven", "go-getter", "proactive", "detail-oriented", "innovative",
   "guru", "ninja", "rockstar", "visionary", "thought leader", "motivated",
   "dedicated", "enthusiastic", "strategic thinker", "fast learner", "people person",
   "outside the box", "value-added", "best of breed", "paradigm", "leverage",
   "synergize", "holistic", "bandwidth", "deep dive", "circle back", "low-hanging fruit",
   "move the needle", "game-changer", "disruptive", "bleeding edge", "mission-critical",
   "action-oriented", "bottom line", "core competency", "empower", "stakeholder",
   "scalable", "ecosystem", "pivot", "agile mindset", "wear many hats"].map str

def TECH_DICTIONARY : List Str :=
  ["react", "angular", "vue", "svelte", "next.js", "nuxt", "gatsby",
   "node.js", "express", "fastify", "django", "flask", "rails", "spring",
   "typescript", "javascript", "python", "java", "c#", "c++", "go", "rust", "kotlin", "swift",
   "aws", "gcp", "azure", "docker", "kubernetes", "terraform", "ansible",
   "postgresql", "mysql", "mongodb", "redis", "elasticsearch", "dynamodb", "cassandra",
   "kafka", "rabbitmq", "graphql", "rest", "grpc", "websocket",
   "ci/cd", "jenkins", "github actions", "gitlab ci", "circleci",
   "react native", "flutter", "ionic", ".net", "laravel", "symfony",
   "tailwind", "sass", "less", "webpack", "vite", "rollup",
   "figma", "sketch", "photoshop", "illustrator",
   "sql", "nosql", "linux", "nginx", "apache",
   "git", "jira", "confluence", "slack",
   "machine learning", "deep learning", "tensorflow", "pytorch", "scikit-learn",
   "pandas", "numpy", "spark", "hadoop", "airflow", "dbt",
   "tableau", "power bi", "looker", "snowflake", "bigquery", "redshift",
   "oauth", "jwt", "saml", "ldap", "openid",
   "microservices", "serverless", "lambda", "s3", "ec2", "cloudfront"].map str

def SCALE_WORDS : List Str :=
  ["million", "billion", "high-traffic", "distributed", "microservices",
   "latency", "throughput", "scalability", "concurrent", "petabyte",
   "terabyte", "real-time", "low-latency", "fault-tolerant", "load balancing",
   "horizontal scaling", "vertical scaling", "sharding", "replication"].map str

def IMPACT_VERBS : List Str :=
  ["reduced", "increased", "improved", "boosted", "grew", "saved",
   "generated", "delivered", "achieved", "optimized", "accelerated",
   "streamlined", "automated", "eliminated", "decreased", "doubled",
   "tripled", "launched", "shipped", "deployed", "migrated", "designed",
   "architected", "built", "developed", "implemented", "created",
   "established", "led", "managed", "mentored", "coached", "trained"].map str

def SHIPPING_VERBS : List Str :=
  ["built", "shipped", "launched", "deployed", "released", "published",
   "created", "developed"].map str

def VAGUE_PHRASES : List Str :=
  ["responsible for", "duties included", "helped with", "assisted in",
   "worked on", "involved in", "participated in", "tasked with",
   "in charge of", "various tasks", "day-to-day", "miscellaneous"].map str

def ROUTINE_ROLE_KEYWORDS : List Str :=
  ["data entry", "receptionist", "filing", "administrative assistant",
   "cashier", "clerk", "customer service representative", "operator"].map str

def OWNERSHIP_KEYWORDS : List Str :=
  ["led", "owned", "architected", "designed", "founded", "co-founded",
   "principal", "staff", "senior", "director", "vp", "head of",
   "chief", "manager", "tech lead", "team lead"].map str

def ADAPTABILITY_KEYWORDS : List Str :=
  ["learned", "migrated", "adopted", "transitioned", "pivoted",
   "cross-functional", "full-stack", "multi-stack", "polyglot",
   "led adoption", "introduced", "pioneered"].map str

/-! ## Feature detectors -/

/-- `detectBuzzwords`: case-insensitive substring containment, returning
`(hits, found)` with `found` in dictionary order. -/
def detectBuzzwords (t : Str) : Nat × List Str :=
  let found := BUZZWORDS.filter (fun bw => hasSub bw (lowerS t))
  (found.length, found)

def dedupeAux : List Str → List Str → List Str
  | _, [] => []
  | seen, x :: r =>
    if x ∈ seen then dedupeAux seen r else x :: dedupeAux (x :: seen) r

/-- `[...new Set(found)]`: first-occurrence deduplication. -/
def dedupeL (l : List Str) : List Str := dedupeAux [] l

/-- `detectTechStack`: word-boundary, case-insensitive, regex metacharacters in
entries escaped (so they match literally), deduplicated. -/
def detectTechStack (t : Str) : List Str :=
  dedupeL (TECH_DICTIONARY.filter (fun w => wbContains w (lowerS t)))

def detectScaleWords (t : Str) : List Str :=
  SCALE_WORDS.filter (fun w => hasSub w (lowerS t))

def detectVaguePhrases (t : Str) : List Str :=
  VAGUE_PHRASES.filter (fun w => hasSub w (lowerS t))

/-- `detectImpactVerbs`: word-boundary match against the lowercased text. -/
def detectImpactVerbs (t : Str) : List Str :=
  IMPACT_VERBS.filter (fun v => wbContains v (lowerS t))

/-! ## Bullet extraction -/

def bulletMarkChar (c : Char) : Bool :=
  c = '-' || c = '•' || c = '*' || c = '►' || c = '▪' || c = '▸' || c = '◦' || c = '‣'

/-- `/^[-•*►▪▸◦‣]\s+/` or `/^\d+[.)]\s+/` on the trimmed line. -/
def isBulletLine (tr : Str) : Bool :=
  (match tr with
   | c :: d :: _ => bulletMarkChar c && isWSChar d
   | _ => false) ||
  (let ds := tr.takeWhile isDigitChar
   match tr.drop ds.length with
   | p :: w :: _ => !ds.isEmpty && (p = '.' || p = ')') && isWSChar w
   | _ => false)

/-- The char class of `/^[-•*►▪▸◦‣\d.)\s]+/` used to strip the marker. -/
def bulletStripChar (c : Char) : Bool :=
  bulletMarkChar c || isDigitChar c || c = '.' || c = ')' || isWSChar c

/-- `extractBullets` from `analyzer.ts`: list-marker lines, marker stripped,
results of length ≤ 5 discarded, order preserved, no deduplication. -/
def extractBullets (t : Str) : List Str :=
  (splitNL t).filterMap (fun line =>
    let tr := jsTrim line
    if isBulletLine tr then
      let cleaned := jsTrim (tr.dropWhile bulletStripChar)
      if 5 < cleaned.length then some cleaned else none
    else none)

/-! ## Section segmentation -/

/-- The six heading alternation lists, in `Object.entries` order; `?` suffixes
of the certifications regex expanded into both forms. -/
def sectionHeaderKws : List (Str × List Str) :=
  [(str "experience",
    ["experience", "employment", "work history", "professional experience", "career"].map str),
   (str "projects",
    ["projects", "personal projects", "side projects", "portfolio"].map str),
   (str "skills",
    ["skills", "technical skills", "technologies", "competencies", "proficiencies",
     "tech stack"].map str),
   (str "education",
    ["education", "academic", "degree", "university", "college", "school"].map str),
   (str "summary",
    ["summary", "objective", "profile", "about", "about me", "professional summary",
     "career objective"].map str),
   (str "certifications",
    ["certifications", "certification", "licenses", "license", "credentials",
     "accreditations", "accreditation"].map str)]

/-- `regex.test trimmed` for one heading pattern `\b(kw|…)\b` with the `i` flag. -/
def isHeaderFor (kws : List Str) (tr : Str) : Bool :=
  kws.any (fun k => wbContains k (lowerS tr))

/-- The first heading label matching the trimmed line, provided it is shorter
than 60 characters. -/
def findHeader (tr : Str) : Option Str :=
  if tr.length < 60 then
    (sectionHeaderKws.find? (fun p => isHeaderFor p.2 tr)).map (fun p => p.1)
  else none

/-- JS object-property assignment: overwrite in place, else append. -/
def setKey : List (Str × Str) → Str → Str → List (Str × Str)
  | [], k, v => [(k, v)]
  | (k', v') :: r, k, v =>
    if k' = k then (k, v) :: r else (k', v') :: setKey r k v

def getKey (secs : List (Str × Str)) (k : Str) : Option Str :=
  (secs.find? (fun p => p.1 = k)).map (fun p => p.2)

/-- JS truthiness of `sections[k]` (missing key and empty string are falsy). -/
def secTruthy (secs : List (Str × Str)) (k : Str) : Bool :=
  match getKey secs k with
  | some v => !v.isEmpty
  | none => false

def extractSectionsAux : List Str → Str → List Str → List (Str × Str) → List (Str × Str)
  | [], cur, content, secs =>
    if content.length > 0 then setKey secs cur (jsTrim (joinNL content)) else secs
  | line :: rest, cur, content, secs =>
    match findHeader (jsTrim line) with
    | some name =>
      extractSectionsAux rest name []
        (if content.length > 0 then setKey secs cur (jsTrim (joinNL content)) else secs)
    | none => extractSectionsAux rest cur (content ++ [line]) secs

/-- `extractSections` from `analyzer.ts`. -/
def extractSections (t : Str) : List (Str × Str) :=
  extractSectionsAux (splitNL t) (str "preamble") [] []

/-! ## Word splitting -/

def wordsOfAux : Str → Str → List Str
  | [], w => if w.isEmpty then [] else [w]
  | c :: r, w =>
    if isWSChar c then (if w.isEmpty then wordsOfAux r [] else w :: wordsOfAux r [])
    else wordsOfAux r (w ++ [c])

/-- `text.split(/\s+/).filter(w => w.length > 0)`: the maximal non-whitespace runs. -/
def wordsOf (t : Str) : List Str := wordsOfAux t []

/-- `b.split(/\s+/).length` (no filtering): JS yields an empty fragment for an
empty string, a leading separator, or a trailing separator. -/
def jsSplitWSLen (b : Str) : Nat :=
  if b.isEmpty then 1
  else
    (wordsOf b).length + (if isWSChar (b.headD 'a') then 1 else 0) +
      (if isWSChar (b.getLastD 'a') then 1 else 0)

/-! ## `simpleHash` and the seeded LCG -/

/-- The loop of `simpleHash`, carried on the unsigned 32-bit residue:
`((hash << 5) - hash) + charCode` followed by `hash |= 0` acts on the residue
class of the int32 `hash` exactly as `hash * 31 + charCode (mod 2^32)`
(the shift is `· * 32 mod 2^32` and the double subtraction/addition is exact). -/
def simpleHashAux : Str → Nat → Nat
  | [], h => h
  | c :: r, h => simpleHashAux r ((h * 31 + c.toNat) % 4294967296)

/-- `simpleHash` from `analyzer.ts`: the rolling int32 hash, then `Math.abs`
(read off the unsigned residue: values `≥ 2^31` are negative as int32). -/
def simpleHash (t : Str) : Nat :=
  let m := simpleHashAux t 0
  if m < 2147483648 then m else 4294967296 - m

def log2fuel : Nat → Nat → Nat
  | 0, _ => 0
  | fuel + 1, n => if n < 2 then 0 else log2fuel fuel (n / 2) + 1

/-- Round a nonnegative integer below `2^64` to the nearest IEEE-754 double
(53 significant bits, ties to even): the value JS arithmetic produces. -/
def round53 (n : Nat) : Nat :=
  if n < 2 ^ 53 then n
  else
    let k := log2fuel 64 n
    let sh := k - 52
    let q := n / 2 ^ sh
    let r := n % 2 ^ sh
    let half := 2 ^ (sh - 1)
    let q2 :=
      if half < r then q + 1
      else if r < half then q
      else if q % 2 = 0 then q else q + 1
    q2 * 2 ^ sh

/-- One LCG draw: `(s * 1103515245 + 12345) & 0x7fffffff`, with each JS double
operation rounded, and the bitwise mask acting as `% 2^31`. -/
def lcgStep (s : Nat) : Nat :=
  (round53 (round53 (s * 1103515245) + 12345)) % 2 ^ 31

/-! ## Numeric helpers for the scoring rubric

The rational operations are spelled out through `Rat.divInt` on numerators
and denominators so that every concrete score evaluation reduces inside the
kernel; they are proved equal to the ambient `ℚ` operations in the lemma
section below and mean exactly `+`, `-`, `*`, `/`, `min`, `max`. -/

def qOfNat (n : Nat) : ℚ := Rat.divInt n 1

def qadd (a b : ℚ) : ℚ :=
  Rat.divInt (a.num * b.den + b.num * a.den) (a.den * b.den)

def qsub (a b : ℚ) : ℚ :=
  Rat.divInt (a.num * b.den - b.num * a.den) (a.den * b.den)

def qmul (a b : ℚ) : ℚ := Rat.divInt (a.num * b.num) (a.den * b.den)

def qdiv (a b : ℚ) : ℚ := Rat.divInt (a.num * b.den) (a.den * b.num)

def qmin (a b : ℚ) : ℚ := if a ≤ b then a else b

def qmax (a b : ℚ) : ℚ := if a ≤ b then b else a

def clampQ (lo hi v : ℚ) : ℚ := qmax lo (qmin hi v)

/-- JS `Math.round` (half away from zero is half-up for the nonnegative
scores that occur here). -/
def jsRound (q : ℚ) : ℤ := ⌊qadd q (Rat.divInt 1 2)⌋

def jsCeil (q : ℚ) : ℤ := ⌈q⌉

def qOfInt (i : ℤ) : ℚ := Rat.divInt i 1

def imin (a b : ℤ) : ℤ := if a ≤ b then a else b

def imax (a b : ℤ) : ℤ := if a ≤ b then b else a

def natStr (n : Nat) : Str := (toString n).toList

def joinSep (sep : Str) : List Str → Str
  | [] => []
  | [x] => x
  | x :: r => x ++ sep ++ joinSep sep r

/-! ## The six category scores (the additive blocks of `analyzeResume`,
applied to the cleaned text) -/

def hasShippingVerbsIn (cleaned : Str) : Bool :=
  SHIPPING_VERBS.any (fun v => wbContains v (lowerS cleaned))

def hasGitHubLinkIn (cleaned : Str) : Bool := hasSubCI (str "github.com") cleaned

/-- `/(?:portfolio|\.dev|\.io|\.com\/~|personal\s*website)/i` -/
def websitePattern : M :=
  mAlts [mLitCI (str "portfolio"), mLitCI (str ".dev"), mLitCI (str ".io"),
         mLitCI (str ".com/~"),
         mSeq (mLitCI (str "personal")) (mSeq (mClsStar isWSChar) (mLitCI (str "website")))]

def hasWebsiteLinkIn (cleaned : Str) : Bool := hasM websitePattern cleaned

def hasRoutineRoleSignalsIn (cleaned : Str) : Bool :=
  ROUTINE_ROLE_KEYWORDS.any (fun k => hasSub k (lowerS cleaned))

def hasOwnershipSignalsIn (cleaned : Str) : Bool :=
  OWNERSHIP_KEYWORDS.any (fun k => wbContains k (lowerS cleaned))

def hasAdaptabilitySignalsIn (cleaned : Str) : Bool :=
  ADAPTABILITY_KEYWORDS.any (fun k => wbContains k (lowerS cleaned))

def roleSusceptibilityScore (cleaned : Str) : ℚ :=
  let vaguePhrases := detectVaguePhrases cleaned
  let impactVerbs := detectImpactVerbs cleaned
  clampQ 0 100
    (qsub (qadd (qsub (qadd 50
      (if hasRoutineRoleSignalsIn cleaned then 20 else 0))
      (if hasOwnershipSignalsIn cleaned then 15 else 0))
      (if vaguePhrases.length > 3 then 10 else 0))
      (if impactVerbs.length > 5 then 10 else 0))

def proofOfImpactScore (cleaned : Str) : ℚ :=
  let bullets := extractBullets cleaned
  let metricCount := countMetrics cleaned
  let impactVerbs := detectImpactVerbs cleaned
  clampQ 0 100
    (qadd (qadd (qadd (qadd 20
      (if bullets.length > 0 then
        qmin 40 (qmul (qdiv (qOfNat metricCount) (qOfNat bullets.length)) 50)
      else 0))
      (if impactVerbs.length > 3 then 15 else 0))
      (if impactVerbs.length > 7 then 10 else 0))
      (if metricCount > 5 then 10 else 0))

def differentiationScore (cleaned : Str) : ℚ :=
  let techStack := detectTechStack cleaned
  let scaleWords := detectScaleWords cleaned
  let hasCertifications := secTruthy (extractSections cleaned) (str "certifications")
  clampQ 0 100
    (qadd (qadd (qadd (qadd (qadd 15
      (qmin 35 (qmul (qOfNat techStack.length) 3)))
      (if scaleWords.length > 0 then 15 else 0))
      (if scaleWords.length > 3 then 10 else 0))
      (if techStack.length > 10 then 10 else 0))
      (if hasCertifications then 5 else 0))

def portfolioSignalsScore (cleaned : Str) : ℚ :=
  let hasProjects := secTruthy (extractSections cleaned) (str "projects")
  clampQ 0 100
    (qadd (qadd (qadd (qadd (qadd 10
      (if hasGitHubLinkIn cleaned then 20 else 0))
      (if hasWebsiteLinkIn cleaned then 15 else 0))
      (if hasProjects then 20 else 0))
      (if hasShippingVerbsIn cleaned then 15 else 0))
      (if countLinks cleaned > 2 then 10 else 0))

def presentSectionsCount (cleaned : Str) : Nat :=
  let secs := extractSections cleaned
  [secTruthy secs (str "experience"), secTruthy secs (str "skills"),
   secTruthy secs (str "education"), secTruthy secs (str "summary")].count true

def buzzwordDensityOf (cleaned : Str) : ℚ :=
  let wordCount := (wordsOf cleaned).length
  if wordCount > 0 then qdiv (qOfNat (detectBuzzwords cleaned).1) (qOfNat wordCount)
  else 0

def clarityScore (cleaned : Str) : ℚ :=
  let bullets := extractBullets cleaned
  let vaguePhrases := detectVaguePhrases cleaned
  let longBullets := bullets.filter (fun b => jsSplitWSLen b > 35)
  let shortBullets := bullets.filter (fun b => jsSplitWSLen b < 6)
  clampQ 0 100
    (qadd (qsub (qsub (qsub (qsub (qsub (qadd 40
      (qmul (qOfNat (presentSectionsCount cleaned)) 8))
      (if Rat.divInt 2 100 < buzzwordDensityOf cleaned then 15 else 0))
      (if Rat.divInt 4 100 < buzzwordDensityOf cleaned then 10 else 0))
      (if longBullets.length > 3 then 10 else 0))
      (if qmul (qOfNat bullets.length) (Rat.divInt 5 10) < qOfNat shortBullets.length ∧
          bullets.length > 3 then 10 else 0))
      (if vaguePhrases.length > 2 then 10 else 0))
      (if vaguePhrases.length = 0 ∧ bullets.length > 3 then 10 else 0))

def adaptabilityScore (cleaned : Str) : ℚ :=
  let techStack := detectTechStack cleaned
  let scaleWords := detectScaleWords cleaned
  clampQ 0 100
    (qadd (qadd (qadd (qadd 20
      (if hasAdaptabilitySignalsIn cleaned then 25 else 0))
      (if techStack.length > 5 then 20 else 0))
      (if techStack.length > 10 then 10 else 0))
      (if scaleWords.length > 0 then 10 else 0))

/-! ## The analyzer response -/

structure BreakdownItem where
  name : Str
  score : ℚ
  note : Str

structure DetectedInfo where
  wordCount : Nat
  bulletCount : Nat
  metricCount : Nat
  linkCount : Nat
  hasProjects : Bool
  hasExperience : Bool
  hasSkills : Bool
  hasEducation : Bool

structure AnalyzeResponse where
  score : ℤ
  label : Str
  summary : Str
  breakdown : List BreakdownItem
  strengths : List Str
  redFlags : List Str
  detected : DetectedInfo
  disclaimers : List Str

/-- `redFlags[0].toLowerCase().replace(/^word\s+/, rep)`: anchored replace of a
leading word followed by at least one whitespace character. -/
def anchoredRep (word rep : Str) (t : Str) : Str :=
  if hasPfx word t then
    let rest := t.drop word.length
    let ws := rest.takeWhile isWSChar
    if ws.length > 0 then rep ++ rest.drop ws.length else t
  else t

/-- `analyzeResume` from `analyzer.ts`. -/
def analyzeResume (text : Str) : AnalyzeResponse :=
  let cleaned := cleanText text
  let sections := extractSections cleaned
  let bullets := extractBullets cleaned
  let wordCount := (wordsOf cleaned).length
  let metricCount := countMetrics cleaned
  let linkCount := countLinks cleaned
  let buzzwordResult := detectBuzzwords cleaned
  let techStack := detectTechStack cleaned
  let scaleWords := detectScaleWords cleaned
  let vaguePhrases := detectVaguePhrases cleaned
  let impactVerbs := detectImpactVerbs cleaned
  let hasExperience := secTruthy sections (str "experience")
  let hasProjects := secTruthy sections (str "projects")
  let hasSkills := secTruthy sections (str "skills")
  let hasEducation := secTruthy sections (str "education")
  let hasSummary := secTruthy sections (str "summary")
  let hasCertifications := secTruthy sections (str "certifications")
  let hasGitHubLink := hasGitHubLinkIn cleaned
  let hasWebsiteLink := hasWebsiteLinkIn cleaned
  let longBullets := bullets.filter (fun b => jsSplitWSLen b > 35)
  let shortBullets := bullets.filter (fun b => jsSplitWSLen b < 6)
  let roleSusceptibility := roleSusceptibilityScore cleaned
  let proofOfImpact := proofOfImpactScore cleaned
  let differentiation := differentiationScore cleaned
  let portfolioSignals := portfolioSignalsScore cleaned
  let clarity := clarityScore cleaned
  let adaptability := adaptabilityScore cleaned
  let presentSections := presentSectionsCount cleaned
  let breakdown : List BreakdownItem :=
    [⟨str "Role Susceptibility", roleSusceptibility,
      if roleSusceptibility > 60 then
        str "Your role description suggests tasks that could be automated"
      else if roleSusceptibility > 40 then
        str "Mixed signals - some unique ownership, some routine tasks"
      else str "Strong ownership and leadership signals detected"⟩,
     ⟨str "Proof of Impact", proofOfImpact,
      if proofOfImpact < 30 then
        str "Very few quantified achievements - add numbers!"
      else if proofOfImpact < 60 then
        str "Some metrics found, but more data-backed results would help"
      else str "Good use of quantified impact and action verbs"⟩,
     ⟨str "Differentiation", differentiation,
      if differentiation < 30 then
        str "Generic skill set - needs more specialized or advanced tech"
      else if differentiation < 60 then
        natStr techStack.length ++
          str " technologies detected - consider highlighting advanced skills"
      else
        str "Strong tech depth with " ++ natStr techStack.length ++
          str " technologies and scale indicators"⟩,
     ⟨str "Portfolio & Shipping Signals", portfolioSignals,
      if portfolioSignals < 30 then
        str "No links, projects, or evidence of shipping found"
      else if portfolioSignals < 60 then
        str "Some signals but missing GitHub/portfolio links or projects section"
      else str "Good evidence of building and shipping real work"⟩,
     ⟨str "Clarity & Structure", clarity,
      if clarity < 40 then
        str "Missing key sections, high buzzword density, or unclear formatting"
      else if clarity < 70 then
        str "Decent structure with room for improvement in conciseness"
      else str "Well-organized with clear, readable sections"⟩,
     ⟨str "Adaptability Signals", adaptability,
      if adaptability < 30 then
        str "No signals of learning new tech or cross-functional work"
      else if adaptability < 60 then
        str "Some adaptability signals detected"
      else str "Strong signals of continuous learning and adaptation"⟩]
  let weights : List ℚ :=
    [Rat.divInt 2 10, Rat.divInt 25 100, Rat.divInt 15 100,
     Rat.divInt 15 100, Rat.divInt 15 100, Rat.divInt 1 10]
  let weightedAvg :=
    ((breakdown.map (fun b => b.score)).zip weights).foldl
      (fun sum p => qadd sum (qmul p.1 p.2)) 0
  let riskScore : ℤ := imax 1 (imin 10 (jsCeil (qdiv weightedAvg (qOfNat 10))))
  let invertedRisk : ℤ := 11 - riskScore
  let label :=
    if invertedRisk ≤ 3 then str "High Risk"
    else if invertedRisk ≤ 6 then str "Medium Risk"
    else str "Low Risk"
  let strengths0 :=
    (if metricCount > 3 then [str "Quantified achievements with specific metrics"] else []) ++
    (if techStack.length > 8 then
      [str "Diverse tech stack (" ++ natStr techStack.length ++ str " technologies)"] else []) ++
    (if hasProjects then [str "Dedicated projects section showing initiative"] else []) ++
    (if hasGitHubLink || hasWebsiteLink then [str "Links to portfolio or code samples"] else []) ++
    (if impactVerbs.length > 5 then [str "Strong action verbs throughout"] else []) ++
    (if hasOwnershipSignalsIn cleaned then [str "Evidence of leadership and ownership"] else []) ++
    (if hasAdaptabilitySignalsIn cleaned then [str "Signals of adaptability and growth"] else []) ++
    (if presentSections ≥ 4 then [str "Complete resume structure with all key sections"] else []) ++
    (if hasCertifications then [str "Professional certifications listed"] else []) ++
    (if scaleWords.length > 0 then [str "Experience at scale mentioned"] else [])
  let strengths :=
    if strengths0.isEmpty then [str "Resume text was provided for analysis"] else strengths0
  let redFlags :=
    (if metricCount = 0 then
      [str "Zero quantified metrics - every bullet should have numbers"] else []) ++
    (if !hasProjects && !hasGitHubLink then
      [str "No projects or code portfolio visible"] else []) ++
    (if buzzwordResult.1 > 3 then
      [str "High buzzword density (" ++ joinSep (str ", ") (buzzwordResult.2.take 3) ++
        str "...)"] else []) ++
    (if vaguePhrases.length > 0 then
      [str "Vague phrases detected: \"" ++ vaguePhrases.headD [] ++ str "\""] else []) ++
    (if !hasExperience then [str "No experience section found"] else []) ++
    (if !hasSkills then [str "No dedicated skills section"] else []) ++
    (if !hasSummary then [str "Missing summary/profile section"] else []) ++
    (if longBullets.length > 2 then [str "Several overly long bullet points"] else []) ++
    (if shortBullets.length > 3 then
      [str "Too many short, unsubstantial bullet points"] else []) ++
    (if linkCount = 0 then [str "No URLs or links found anywhere"] else []) ++
    (if wordCount < 150 then [str "Resume seems very short - too few details"] else []) ++
    (if wordCount > 1200 then [str "Resume may be too long - consider trimming"] else [])
  let strengthA := strengths.headD (str "some content")
  let weakness := redFlags.headD (str "minor formatting issues")
  let topFix :=
    if redFlags.length > 0 then
      anchoredRep (str "missing") (str "adding a ")
        (anchoredRep (str "zero") (str "adding ")
          (anchoredRep (str "no") (str "adding ") (lowerS (redFlags.headD []))))
    else str "minor polishing"
  let summary :=
    str "Your resume shows " ++ lowerS strengthA ++
    (if strengths.length > 1 then str " and " ++ lowerS (strengths.getD 1 []) else []) ++
    str ", but it's held back by " ++ lowerS weakness ++
    str ". Fixing " ++ topFix ++ str " will immediately improve your score."
  { score := invertedRisk
    label := label
    summary := summary
    breakdown := breakdown.map (fun b =>
      { b with score := qOfInt (jsRound (qsub 100 b.score)) })
    strengths := strengths
    redFlags := redFlags
    detected :=
      { wordCount := wordCount
        bulletCount := bullets.length
        metricCount := metricCount
        linkCount := linkCount
        hasProjects := hasProjects
        hasExperience := hasExperience
        hasSkills := hasSkills
        hasEducation := hasEducation }
    disclaimers :=
      [str "This analysis is rule-based and does not use any AI/LLM.",
       str "Scores are computed from heuristic pattern matching and may not capture all nuances.",
       str "A high risk score does not mean you'll be replaced - it highlights areas to strengthen."] }

/-! ## The improver (`improver.ts`) -/

/-- The `metricPatterns` loop shared by `improver.ts` and `roaster.ts`:
only `/\d+%/g`, `/\$[\d,]+/g` and `/\d+x\b/gi` are counted. -/
def simpleMetricCount (t : Str) : Nat :=
  countM pctPattern t + countM dollarPattern t + countM xPattern t

/-- `/\b(summary|objective|profile|about)\b/i` on the raw text. -/
def improveHasSummary (t : Str) : Bool :=
  ["summary", "objective", "profile", "about"].any (fun k => wbContains (str k) (lowerS t))

/-- `/\b(projects|personal projects|side projects|portfolio)\b/i` on the raw text. -/
def improveHasProjects (t : Str) : Bool :=
  ["projects", "personal projects", "side projects", "portfolio"].any
    (fun k => wbContains (str k) (lowerS t))

/-- `/\b(skills|technical skills|technologies)\b/i` on the raw text. -/
def improveHasSkills (t : Str) : Bool :=
  ["skills", "technical skills", "technologies"].any
    (fun k => wbContains (str k) (lowerS t))

structure ImproveResponse where
  priorityFixes : List Str
  rewrittenBullets : List (Str × Str)
  improvedSummary : Str
  atsTips : List Str

/-- Anchored `^(alt1|…)\s*` replace-by-empty: first alternative (in source
order) that is a case-insensitive prefix wins; trailing whitespace eaten. -/
def anchoredAltRepStar (alts : List Str) (t : Str) : Str :=
  match alts.find? (fun a => hasPfx (lowerS a) (lowerS t)) with
  | some a => (t.drop a.length).dropWhile isWSChar
  | none => t

/-- Anchored `^(alt1|…)\s+` replace-by-empty: the chosen alternative must be
followed by at least one whitespace character (regex backtracking tries the
next alternative otherwise). -/
def anchoredAltRepPlus (alts : List Str) (t : Str) : Str :=
  match alts.find? (fun a => hasPfx (lowerS a) (lowerS t) &&
      (match (t.drop a.length).head? with
       | some c => isWSChar c
       | none => false)) with
  | some a => (t.drop a.length).dropWhile isWSChar
  | none => t

/-- `.replace(/\.$/, "")`. -/
def dropTrailingDot (t : Str) : Str :=
  if t.getLastD ' ' = '.' then t.dropLast else t

/-- `/\d+%|\$[\d,]+|\d+x\b/i.test b` — does the bullet carry any metric? -/
def bulletHasMetric (b : Str) : Bool :=
  hasM (mAlts [pctPattern, dollarPattern, xPattern]) b

def rewriteVaguePhrases : List Str :=
  ["responsible for", "helped with", "assisted in", "worked on", "involved in",
   "participated in", "tasked with", "various", "miscellaneous"].map str

def rewriteStripPhrases : List Str :=
  ["responsible for", "helped with", "assisted in", "worked on", "involved in",
   "participated in", "tasked with"].map str

def rewriteStripVerbs : List Str :=
  ["built", "created", "developed", "designed", "implemented", "managed", "led",
   "established", "launched", "deployed", "maintained", "wrote", "authored",
   "handled", "conducted", "performed", "executed", "coordinated", "organized",
   "facilitated", "supported", "contributed to"].map str

def rewriteVerbs : List Str :=
  ["Spearheaded", "Engineered", "Delivered", "Optimized", "Streamlined",
   "Architected"].map str

def mapIdxAux (f : Nat → α → β) : Nat → List α → List β
  | _, [] => []
  | i, x :: r => f i x :: mapIdxAux f (i + 1) r

def mapIdx (f : Nat → α → β) (l : List α) : List β := mapIdxAux f 0 l

/-- One rewrite of `generateBulletRewrites`'s loop body. -/
def rewriteOne (tech : List Str) (i : Nat) (before : Str) : Str × Str :=
  let verb := rewriteVerbs.getD (i % rewriteVerbs.length) []
  let core0 := jsTrim (dropTrailingDot
    (anchoredAltRepPlus rewriteStripVerbs (anchoredAltRepStar rewriteStripPhrases before)))
  let core := if core0.length > 100 then core0.take 97 ++ str "..." else core0
  let newTech := tech.filter (fun w => !hasSub (lowerS w) (lowerS before))
  let techMention :=
    if newTech.length > 0 then
      str " leveraging " ++ joinSep (str " and ") (newTech.take 2)
    else []
  let after := verb ++ str " " ++ (lowerS (core.take 1) ++ core.drop 1) ++ techMention ++
    str ", resulting in (~X%) improvement in [key metric]"
  (before, after)

/-- `generateBulletRewrites` from `improver.ts`. -/
def generateBulletRewrites (bullets : List Str) (tech : List Str) : List (Str × Str) :=
  let candidates := bullets.filter (fun b =>
    rewriteVaguePhrases.any (fun p => hasSub (lowerS p) (lowerS b)) || !bulletHasMetric b)
  let toRewrite :=
    if candidates.isEmpty ∧ !bullets.isEmpty then bullets.take (min 3 bullets.length)
    else candidates.take 3
  mapIdx (rewriteOne tech) toRewrite

/-- The ordered role patterns of `generateSummary` (first match wins);
`.?` is a single optional non-newline character, `\.?` an optional dot. -/
def rolePatterns : List (M × Str) :=
  [(mSeq mWB (mSeq
      (mAlts [mLitCI (str "senior"), mSeq (mLitCI (str "sr")) (mOpt (mLit (str ".")))]) (mSeq
      (mClsStar isWSChar) (mSeq
      (mAlts [mLitCI (str "software"), mLitCI (str "frontend"), mLitCI (str "backend"),
              mSeq (mLitCI (str "full")) (mSeq (mOpt (mClsOne (fun c => c ≠ '\n')))
                (mLitCI (str "stack")))]) (mSeq
      (mClsStar isWSChar) (mSeq
      (mAlts [mLitCI (str "engineer"), mLitCI (str "developer")]) mWB))))),
    str "Senior Software Engineer"),
   (mSeq mWB (mSeq
      (mAlts [mLitCI (str "software"), mLitCI (str "frontend"), mLitCI (str "backend"),
              mSeq (mLitCI (str "full")) (mSeq (mOpt (mClsOne (fun c => c ≠ '\n')))
                (mLitCI (str "stack")))]) (mSeq
      (mClsStar isWSChar) (mSeq
      (mAlts [mLitCI (str "engineer"), mLitCI (str "developer")]) mWB))),
    str "Software Engineer"),
   (mSeq mWB (mSeq (mLitCI (str "data")) (mSeq
      (mClsStar isWSChar) (mSeq
      (mAlts [mLitCI (str "scientist"), mLitCI (str "analyst"), mLitCI (str "engineer")])
      mWB))),
    str "Data Professional"),
   (mSeq mWB (mSeq
      (mAlts [mLitCI (str "product"), mLitCI (str "program"), mLitCI (str "project")]) (mSeq
      (mClsStar isWSChar) (mSeq (mLitCI (str "manager")) mWB))),
    str "Product/Program Manager"),
   (mSeq mWB (mSeq
      (mAlts [mLitCI (str "devops"), mLitCI (str "sre"), mLitCI (str "site reliability"),
              mLitCI (str "platform")]) (mSeq
      (mClsStar isWSChar) (mSeq (mOpt (mLitCI (str "engineer"))) mWB))),
    str "DevOps/Platform Engineer"),
   (mSeq mWB (mSeq
      (mAlts [mLitCI (str "designer"), mLitCI (str "ux"), mLitCI (str "ui")]) mWB),
    str "Designer"),
   (mSeq mWB (mSeq
      (mAlts [mLitCI (str "marketing"), mLitCI (str "growth"), mLitCI (str "content")]) (mSeq
      (mClsStar isWSChar) (mSeq
      (mOpt (mAlts [mLitCI (str "manager"), mLitCI (str "specialist"), mLitCI (str "lead")]))
      mWB))),
    str "Marketing Professional")]

/-- `/(\d+)\+?\s*years?\s*(?:of\s*)?(?:experience|exp)/i` minus the capture. -/
def yearsRest : M :=
  mSeq (mOpt (mLit (str "+"))) (mSeq
    (mClsStar isWSChar) (mSeq
    (mAlts [mLitCI (str "years"), mLitCI (str "year")]) (mSeq
    (mClsStar isWSChar) (mSeq
    (mOpt (mSeq (mLitCI (str "of")) (mClsStar isWSChar)))
    (mAlts [mLitCI (str "experience"), mLitCI (str "exp")])))))

/-- The `(\d+)` capture of the leftmost years-of-experience match. -/
def yearsCapAt (t : Str) (i : Nat) : Option Str :=
  let n := ((t.drop i).takeWhile isDigitChar).length
  ((List.range n).reverse.map (fun k => k + 1)).findSome? (fun d =>
    if (yearsRest t (i + d)).isEmpty then none else some ((t.drop i).take d))

def yearsCapture (t : Str) : Option Str :=
  (List.range (t.length + 1)).findSome? (yearsCapAt t)

/-- `generateSummary` from `improver.ts`. -/
def generateSummary (text : Str) (tech : List Str) : Str :=
  let lower := lowerS text
  let role :=
    match rolePatterns.find? (fun p => hasM p.1 lower) with
    | some p => p.2
    | none => str "software professional"
  let topTech := joinSep (str ", ") (tech.take 4)
  let techPhrase := if !topTech.isEmpty then str " specializing in " ++ topTech else []
  let yearsPhrase :=
    match yearsCapture text with
    | some d => str " with " ++ d ++ str "+ years of experience"
    | none => []
  str "Results-driven " ++ role ++ yearsPhrase ++ techPhrase ++
    str ". Proven track record of delivering scalable solutions and driving measurable business impact. Seeking to leverage technical expertise and leadership skills to [target goal/company mission]."

def monthLits : List Str :=
  ["jan", "feb", "mar", "apr", "may", "jun", "jul", "aug", "sep", "oct", "nov", "dec",
   "january", "february", "march", "april", "june", "july", "august", "september",
   "october", "november", "december"].map str

/-- `/\b(?:jan|…|december)\b\s*\d{4}/gi` -/
def datePattern : M :=
  mSeq mWB (mSeq (mAlts (monthLits.map mLitCI)) (mSeq mWB
    (mSeq (mClsStar isWSChar) (mClsExact isDigitChar 4))))

/-- `/\d{4}\s*[-â€“]\s*(?:\d{4}|present|current)/gi` (the source file carries
the en-dash as the mojibake characters `â`, `€`, `“` inside the class). -/
def dashDatePattern : M :=
  mSeq (mClsExact isDigitChar 4) (mSeq
    (mClsStar isWSChar) (mSeq
    (mClsOne (fun c => c = '-' || c = 'â' || c = '€' || c = '“')) (mSeq
    (mClsStar isWSChar)
    (mAlts [mClsExact isDigitChar 4, mLitCI (str "present"), mLitCI (str "current")]))))

/-- `generateImprovements` from `improver.ts` (operating on the raw text). -/
def generateImprovements (text : Str) : ImproveResponse :=
  let bullets := extractBullets text
  let buzzResult := detectBuzzwords text
  let vague := detectVaguePhrases text
  let tech := detectTechStack text
  let wordCount := (wordsOf text).length
  let metricCount := simpleMetricCount text
  let linkCount := countLinks text
  let priorityFixes0 :=
    (if metricCount = 0 then
      [str "Add quantified metrics to every bullet point. Use numbers like percentages, dollar amounts, time saved, users impacted. Even estimates with (~X%) are better than nothing."]
     else if metricCount < 3 then
      [str "You have a few metrics, but aim for at least one quantified result per role. Replace vague claims with specific numbers."]
     else []) ++
    (if vague.length > 0 then
      [str "Replace vague phrases like \"" ++ vague.headD [] ++
       str "\" with specific action verbs followed by measurable outcomes. Use verbs like \"Engineered,\" \"Delivered,\" or \"Optimized.\""]
     else []) ++
    (if !improveHasSummary text then
      [str "Add a professional summary section (2-3 sentences) at the top that positions you for your target role and highlights your strongest differentiators."]
     else []) ++
    (if !improveHasProjects text then
      [str "Add a Projects section showcasing 2-3 things you've built, with tech stack, what you did, and a link if possible. This proves you ship."]
     else []) ++
    (if linkCount = 0 then
      [str "Add links to your GitHub, portfolio, or LinkedIn profile. Recruiters want to see evidence of your work online."]
     else []) ++
    (if buzzResult.1 > 3 then
      [str "Cut the buzzwords (" ++ joinSep (str ", ") (buzzResult.2.take 3) ++
       str "). Replace each with a concrete example of what you actually did."]
     else []) ++
    (if wordCount > 1000 then
      [str "Your resume is too long. Cut it to one page by removing the weakest bullets and keeping only your top achievements per role."]
     else []) ++
    (if !improveHasSkills text then
      [str "Add a dedicated Skills/Technologies section grouped by category (Languages, Frameworks, Tools, Cloud, etc.)."]
     else []) ++
    (if tech.length < 3 then
      [str "Name specific technologies throughout your bullets instead of being vague. 'Built a REST API' becomes 'Built a REST API using Node.js, Express, and PostgreSQL.'"]
     else [])
  let priorityFixes := priorityFixes0 ++
    List.replicate (3 - priorityFixes0.length)
      (str "Review each bullet for the pattern: [Action Verb] + [What You Did] + [Technology Used] + [Measurable Result]. Rewrite any that don't match.")
  let atsTips :=
    [str "Use a single-column layout to ensure ATS can parse your resume correctly.",
     str "Avoid tables, text boxes, headers/footers, and multi-column formats.",
     str "Use standard section headings: Experience, Education, Skills, Projects.",
     str "Save as PDF to preserve formatting across devices."] ++
    (if wordCount < 200 then
      [str "Your resume seems very sparse - expand with more detail and achievements."]
     else []) ++
    (if !hasM datePattern text ∧ !hasM dashDatePattern text then
      [str "Use consistent date formats throughout (e.g., 'Jan 2022 - Present' or '2022 - Present')."]
     else [])
  { priorityFixes := priorityFixes.take 7
    rewrittenBullets := generateBulletRewrites bullets tech
    improvedSummary := generateSummary text tech
    atsTips := atsTips }

/-! ## The roaster (`roaster.ts`) -/

inductive RoastLevel where
  | light
  | medium
  | spicy
deriving DecidableEq

def levelOrder : RoastLevel → Nat
  | .light => 0
  | .medium => 1
  | .spicy => 2

structure RoastContext where
  text : Str
  wordCount : Nat
  bulletCount : Nat
  metricCount : Nat
  linkCount : Nat
  buzzwordCount : Nat
  buzzwords : List Str
  vaguePhrases : List Str
  techStack : List Str
  hasProjects : Bool
  hasExperience : Bool
  hasSkills : Bool
  hasSummary : Bool
  hasEducation : Bool

structure RoastTemplate where
  minLevel : RoastLevel
  trigger : RoastContext → Bool
  category : Str
  lines : List Str

/-- `buildContext` from `roaster.ts` (applied to the raw text). -/
def buildContext (text : Str) : RoastContext :=
  { text := text
    wordCount := (wordsOf text).length
    bulletCount := (extractBullets text).length
    metricCount := simpleMetricCount text
    linkCount := countLinks text
    buzzwordCount := (detectBuzzwords text).1
    buzzwords := (detectBuzzwords text).2
    vaguePhrases := detectVaguePhrases text
    techStack := detectTechStack text
    hasProjects := ["projects", "personal projects", "side projects", "portfolio"].any
      (fun k => wbContains (str k) (lowerS text))
    hasExperience := ["experience", "employment", "work history"].any
      (fun k => wbContains (str k) (lowerS text))
    hasSkills := ["skills", "technical skills", "technologies"].any
      (fun k => wbContains (str k) (lowerS text))
    hasSummary := ["summary", "objective", "profile", "about"].any
      (fun k => wbContains (str k) (lowerS text))
    hasEducation := ["education", "academic", "degree", "university"].any
      (fun k => wbContains (str k) (lowerS text)) }

/-- `TEMPLATES` from `roaster.ts`, in source order. -/
def TEMPLATES : List RoastTemplate :=
  [⟨.light, fun _ => true, str "overall",
    [str "I've seen better resumes on the back of napkins at a Denny's.",
     str "Your resume walked into the room and the ATS system literally threw up.",
     str "This resume has the energy of a participation trophy.",
     str "If resumes were movies, yours would go straight to DVD. In 2004.",
     str "Your resume reads like a Wikipedia article nobody bothered to cite.",
     str "This resume is the 'we have a candidate at home' of resumes."]⟩,
   ⟨.medium, fun _ => true, str "overall",
    [str "I've read tax forms more exciting than this resume. And I've read a LOT of tax forms.",
     str "Your resume is proof that spell check doesn't fix boring.",
     str "This resume needs less buzzwords and more 'I actually did something.'",
     str "If your resume were a meal, it'd be unseasoned chicken breast on a paper plate.",
     str "Your resume is like a horror movie - terrifying, but for all the wrong reasons.",
     str "I showed this resume to a recruiter and they asked for combat pay."]⟩,
   ⟨.spicy, fun _ => true, str "overall",
    [str "Holy hell, did you write this resume during a damn earthquake?",
     str "This resume is so bad, LinkedIn would reject it as spam. And LinkedIn accepts EVERYTHING.",
     str "Whoever told you this resume was good needs to be fired. Then rehired. Then fired again.",
     str "Your resume hits different. And by 'different' I mean 'like a truck full of red flags.'",
     str "This resume is the professional equivalent of showing up to a job interview in Crocs.",
     str "Jesus Christ, I've seen better-organized crime scenes than this resume."]⟩,
   ⟨.light, fun ctx => ctx.metricCount = 0, str "no_metrics",
    [str "Not a single number in sight. Did you think this was a poetry reading?",
     str "Your achievements section is just... vibes. Recruiters need numbers, not aura.",
     str "Zero metrics. You could have made some up and it would've been an improvement.",
     str "Show me the numbers! Where are the damn numbers?!"]⟩,
   ⟨.medium, fun ctx => ctx.metricCount = 0, str "no_metrics",
    [str "You managed to write an entire resume without a single measurable achievement. That's actually impressive in the worst way.",
     str "Not one percentage, not one dollar figure, not one 'increased by.' What the hell did you do all day?",
     str "The absence of metrics here is so complete, I'm almost in awe. It's like you're allergic to accountability."]⟩,
   ⟨.spicy, fun ctx => ctx.metricCount = 0, str "no_metrics",
    [str "Not a single goddamn metric. Did you just sit in a chair for three years and call it 'experience'?",
     str "Zero numbers. Your resume is basically a long-form excuse note from your career.",
     str "The sheer audacity of submitting a resume with zero metrics. I respect the delusion."]⟩,
   ⟨.light, fun ctx => ctx.buzzwordCount > 3, str "buzzwords",
    [str "\"{BW1}\" and \"{BW2}\" in the same resume? Corporate bingo is not a skill.",
     str "Your resume reads like someone ate a LinkedIn post and threw up on a Word doc.",
     str "If I had a dollar for every buzzword, I could afford to stop reading this."]⟩,
   ⟨.medium, fun ctx => ctx.buzzwordCount > 3, str "buzzwords",
    [str "You crammed so many buzzwords in here, I thought this was a Fortune 500 press release.",
     str "Somewhere, a recruiter just rolled their eyes so hard they saw their own brain.",
     str "Your buzzword-to-substance ratio is genuinely concerning."]⟩,
   ⟨.spicy, fun ctx => ctx.buzzwordCount > 3, str "buzzwords",
    [str "The buzzword density here could power a goddamn LinkedIn influencer for a month.",
     str "I swear you just fed a thesaurus into a blender and hit 'resume mode.'",
     str "Calling yourself a 'dynamic synergy-driven thought leader' isn't a personality. It's a cry for help."]⟩,
   ⟨.light, fun ctx => ctx.vaguePhrases.length > 0, str "vague",
    [str "\"Responsible for\" what, exactly? Existing? Showing up?",
     str "Your bullet points have all the specificity of a horoscope.",
     str "'Assisted in various tasks' - please, tell me less."]⟩,
   ⟨.medium, fun ctx => ctx.vaguePhrases.length > 0, str "vague",
    [str "'Responsible for' is doing a lot of heavy lifting here. Unfortunately, your resume isn't.",
     str "These bullets are so vague, a psychic couldn't tell what you actually did.",
     str "Your 'experience' section reads like a really boring mystery novel with no resolution."]⟩,
   ⟨.spicy, fun ctx => ctx.vaguePhrases.length > 0, str "vague",
    [str "'Responsible for various tasks.' That's literally the most useless sentence in the English language.",
     str "Your bullets are so vague, they'd fail a background check on THEMSELVES.",
     str "I've seen fortune cookies with more detail than your work history."]⟩,
   ⟨.light, fun ctx => ctx.bulletCount < 5, str "weak_bullets",
    [str "You have fewer bullet points than a grocery list for a college student.",
     str "Your resume is lighter than a rice cake and twice as bland."]⟩,
   ⟨.medium, fun ctx => ctx.bulletCount < 5, str "weak_bullets",
    [str "This resume has fewer bullet points than my morning to-do list, and mine just says 'coffee.'",
     str "Did you run out of things to say or did you just give up?"]⟩,
   ⟨.light, fun ctx => !ctx.hasProjects, str "no_projects",
    [str "No projects section? Do you even build things?",
     str "Where are your side projects? Your experiments? Your 'look what I made'?"]⟩,
   ⟨.medium, fun ctx => !ctx.hasProjects, str "no_projects",
    [str "No projects section at all. What do you do outside of work, just stare at the ceiling?",
     str "The absence of a projects section is deafening. It screams 'I only code when someone pays me.'"]⟩,
   ⟨.spicy, fun ctx => !ctx.hasProjects, str "no_projects",
    [str "No projects? No GitHub? No portfolio? What the hell have you been doing with your life?",
     str "Not a single side project. Your passion for this career could be measured with a damn microscope."]⟩,
   ⟨.light, fun ctx => ctx.techStack.length < 3, str "generic_skills",
    [str "Your skills section is so generic, it could belong to literally anyone.",
     str "Listing 'Microsoft Office' as a skill in 2024 is certainly a choice."]⟩,
   ⟨.medium, fun ctx => ctx.techStack.length < 3, str "generic_skills",
    [str "Your skill list reads like the default settings on a new laptop.",
     str "I've seen more specialized skill sets on a Swiss Army knife."]⟩,
   ⟨.light, fun ctx => !ctx.hasSummary && ctx.wordCount > 200, str "no_summary",
    [str "No summary? You just threw us in without even a 'hello'? Bold.",
     str "Starting a resume without a summary is like starting a conversation mid-sentence."]⟩,
   ⟨.medium, fun ctx => !ctx.hasSummary && ctx.wordCount > 200, str "no_summary",
    [str "You skipped the summary section like it was leg day at the gym.",
     str "No profile summary. The recruiter has to just... guess who you are? Cool cool cool."]⟩,
   ⟨.light, fun ctx => ctx.linkCount = 0, str "no_links",
    [str "Not a single link? No GitHub, no LinkedIn, no portfolio. Mystery candidate.",
     str "Zero URLs. In 2024. Are you in witness protection?"]⟩,
   ⟨.medium, fun ctx => ctx.linkCount = 0, str "no_links",
    [str "No links at all? Your online presence is as invisible as your resume is bland.",
     str "Zero links. Either you don't have an internet presence or you're actively hiding from it."]⟩,
   ⟨.light, fun ctx => ctx.wordCount > 1000, str "too_long",
    [str "This is a resume, not a novel. Brevity is the soul of getting hired.",
     str "You wrote a small book. Recruiters spend 6 seconds. SIX. SECONDS."]⟩,
   ⟨.medium, fun ctx => ctx.wordCount > 1000, str "too_long",
    [str "Your resume is so long, it needs a table of contents and an index.",
     str "I started reading this resume yesterday and I'm still not done."]⟩,
   ⟨.light, fun ctx => ctx.wordCount < 150 && ctx.wordCount > 30, str "too_short",
    [str "This resume is shorter than a tweet thread. Actually, that's an insult to tweets.",
     str "Is this your resume or your Tinder bio? Either way, swipe left."]⟩,
   ⟨.light, fun _ => true, str "finisher",
    [str "Look, I'm roasting because I care. Now go fix this thing.",
     str "On the bright side, the only direction from here is up. WAY up.",
     str "Your resume has potential. It's just buried under a mountain of mediocrity.",
     str "The good news? You can fix all of this. The bad news? You need to fix all of this."]⟩,
   ⟨.medium, fun _ => true, str "finisher",
    [str "I've seen worse resumes. But I had to really think about it.",
     str "This resume is fixable. But we're talking renovations, not a fresh coat of paint.",
     str "Take this roast, learn from it, and come back stronger. Your resume sure as hell can't come back weaker."]⟩,
   ⟨.spicy, fun _ => true, str "finisher",
    [str "Holy hell, what a ride. Go rewrite this entire damn thing and come back when you're serious.",
     str "If your career was a stock, your resume just triggered a sell-off. Time to rally.",
     str "I'm done. My eyes need therapy. Go fix this abomination."]⟩]

/-! ## Seeded shuffle and pick -/

/-- One Fisher–Yates swap `[arr[i], arr[j]] = [arr[j], arr[i]]`. -/
def lswap (l : List α) (i j : Nat) : List α :=
  match l.get? i, l.get? j with
  | some a, some b => (l.set i b).set j a
  | _, _ => l

def shuffleGo : List α → Nat → Nat → List α
  | l, _, 0 => l
  | l, s, i + 1 =>
    let s2 := lcgStep s
    shuffleGo (lswap l (i + 1) (s2 % (i + 2))) s2 i

/-- `seededShuffle` from `roaster.ts`. -/
def seededShuffle (l : List α) (seed : Nat) : List α := shuffleGo l seed (l.length - 1)

/-- `seededPick` from `roaster.ts` (call sites pass nonempty arrays; the
default models the out-of-domain `arr.length = 0` index). -/
def seededPick (l : List α) (seed : Nat) (d : α) : α :=
  l.getD (lcgStep seed % l.length) d

/-- JS `String.prototype.replace` with a string pattern: first occurrence only. -/
def replaceFirst (pat rep : Str) : Str → Str
  | [] => if hasPfx pat [] then rep else []
  | c :: r =>
    if hasPfx pat (c :: r) then rep ++ (c :: r).drop pat.length
    else c :: replaceFirst pat rep r

/-- `replacePlaceholders` from `roaster.ts` (the seed argument is unused in
the source as well). -/
def replacePlaceholders (line : Str) (ctx : RoastContext) (_seed : Nat) : Str :=
  if ctx.buzzwords.length ≥ 2 then
    replaceFirst (str "{BW2}") (ctx.buzzwords.getD 1 [])
      (replaceFirst (str "{BW1}") (ctx.buzzwords.getD 0 []) line)
  else if ctx.buzzwords.length = 1 then
    replaceFirst (str "{BW2}") (str "synergy")
      (replaceFirst (str "{BW1}") (ctx.buzzwords.getD 0 []) line)
  else
    replaceFirst (str "{BW2}") (str "synergy")
      (replaceFirst (str "{BW1}") (str "dynamic") line)

def defaultTemplate : RoastTemplate := ⟨.light, fun _ => true, str "overall", []⟩

/-- Phase 1: up to two seed-picked lines from the shuffled "overall" templates. -/
def phase1 (ctx : RoastContext) (seed : Nat) (shuffled : List RoastTemplate) : List Str :=
  mapIdx (fun i t =>
    replacePlaceholders (seededPick t.lines (seed + i * 7) []) ctx (seed + i))
    (shuffled.take 2)

/-- Phase 2: walk the shuffled triggered templates, one line per fresh
category, stopping at the 12-line cap. -/
def phase2 (ctx : RoastContext) (seed : Nat) :
    List RoastTemplate → List Str → List Str → List Str × List Str
  | [], lines, used => (lines, used)
  | t :: ts, lines, used =>
    if 12 ≤ lines.length then (lines, used)
    else if t.category ∈ used then phase2 ctx seed ts lines used
    else
      phase2 ctx seed ts
        (lines ++ [replacePlaceholders
          (seededPick t.lines (seed + lines.length * 13) []) ctx (seed + lines.length)])
        (t.category :: used)

/-- Phase 3: top up to ten lines by seed-picking templates, stopping early on
the first duplicate line (each iteration grows the list, so `10` steps of
fuel realize the `while` loop exactly). -/
def phase3 (ctx : RoastContext) (seed : Nat) (triggered : List RoastTemplate) :
    Nat → List Str → List Str
  | 0, lines => lines
  | fuel + 1, lines =>
    if lines.length < 10 ∧ 0 < triggered.length then
      let template := seededPick triggered (seed + lines.length * 19) defaultTemplate
      let line := seededPick template.lines (seed + lines.length * 23) []
      let replaced := replacePlaceholders line ctx (seed + lines.length)
      if replaced ∈ lines then lines
      else phase3 ctx seed triggered fuel (lines ++ [replaced])
    else lines

/-- Phase 4: up to two finisher lines, capped at 14 total. -/
def phase4 (ctx : RoastContext) (seed : Nat) :
    Nat → List RoastTemplate → List Str → List Str
  | _, [], lines => lines
  | i, t :: ts, lines =>
    if 14 ≤ lines.length then lines
    else
      phase4 ctx seed (i + 1) ts
        (lines ++ [replacePlaceholders
          (seededPick t.lines (seed + 300 + i) []) ctx (seed + 300 + i)])

def roastTitles : RoastLevel → List Str
  | .light => [str "A Gentle Flame", str "Lightly Toasted", str "The Warm-Up Act"]
  | .medium =>
    [str "Medium Rare Reality Check", str "The Heat Is On", str "No Mercy, Some Restraint"]
  | .spicy =>
    [str "Absolute Inferno", str "Career Cremation", str "The Full Scorched Earth"]

def ROAST_REDEMPTIONS : List Str :=
  [str "Add 3-5 quantified metrics to your strongest bullet points",
   str "Create a projects section with links to actual work you've shipped",
   str "Replace every 'responsible for' with a strong action verb + measurable result",
   str "Add your GitHub/portfolio link - show, don't just tell",
   str "Cut the buzzwords and replace with specific technologies and outcomes",
   str "Trim your resume to one page with only your strongest achievements",
   str "Write a 2-3 sentence summary that positions you clearly for your target role",
   str "Rewrite your weakest bullets using the format: Verb + What + Tech + Result"]

def ROAST_BOUNDARIES : List Str :=
  [str "This roast targets your resume's writing and content, not you as a person.",
   str "Strong language is used for comedic effect only.",
   str "No personal attacks, slurs, or discriminatory content."]

structure RoastResponse where
  title : Str
  roastLines : List Str
  bestLine : Str
  redemption : List Str
  boundaries : List Str

/-- `generateRoast` from `roaster.ts`. -/
def generateRoast (text : Str) (roastLevel : RoastLevel) : RoastResponse :=
  let ctx := buildContext text
  let seed := simpleHash text
  let levelNum := levelOrder roastLevel
  let eligible := TEMPLATES.filter (fun t =>
    levelOrder t.minLevel ≤ levelNum && t.trigger ctx)
  let overallTemplates := eligible.filter (fun t => t.category = str "overall")
  let triggeredTemplates := eligible.filter (fun t =>
    t.category ≠ str "overall" ∧ t.category ≠ str "finisher")
  let finisherTemplates := eligible.filter (fun t => t.category = str "finisher")
  let lines1 := phase1 ctx seed (seededShuffle overallTemplates seed)
  let lines2 := (phase2 ctx seed (seededShuffle triggeredTemplates (seed + 100)) lines1 []).1
  let lines3 := phase3 ctx seed triggeredTemplates 10 lines2
  let roastLines :=
    phase4 ctx seed 0 ((seededShuffle finisherTemplates (seed + 200)).take 2) lines3
  let bestIdx : ℤ := (seed : ℤ) % imax 1 (imin ((roastLines.length : ℤ) - 2) 8) + 1
  let cand := roastLines.getD bestIdx.toNat []
  let bestLine :=
    if !cand.isEmpty then cand
    else
      let f := roastLines.getD 0 []
      if !f.isEmpty then f else str "Your resume needs work."
  { title := seededPick (roastTitles roastLevel) seed []
    roastLines := roastLines
    bestLine := bestLine
    redemption := (seededShuffle ROAST_REDEMPTIONS (seed + 500)).take 3
    boundaries := ROAST_BOUNDARIES }

/-! ## Specification checkers and proof-side auxiliaries -/

/-- No tab character occurs. -/
def noTabs (l : Str) : Bool := l.all (fun c => c ≠ '\t')

/-- No carriage return occurs. -/
def noCR (l : Str) : Bool := l.all (fun c => c ≠ '\r')

/-- `noRunAux ch cap l k`: scanning `l` with `k` consecutive `ch`s already
seen, no run of `ch` ever reaches length `cap`. -/
def noRunAux (ch : Char) (cap : Nat) : Str → Nat → Bool
  | [], _ => true
  | c :: r, k =>
    if c = ch then k + 1 < cap && noRunAux ch cap r (k + 1)
    else noRunAux ch cap r 0

/-- No run of three or more consecutive spaces occurs. -/
def noTriSp (l : Str) : Bool := noRunAux ' ' 3 l 0

/-- No run of four or more consecutive newlines occurs. -/
def noQuadNL (l : Str) : Bool := noRunAux '\n' 4 l 0

/-- Every carriage return in the input is immediately followed by a line feed
(i.e. every CR belongs to a CRLF pair). -/
def crOnlyBeforeLF : Str → Bool
  | [] => true
  | [c] => decide (c ≠ '\r')
  | c :: d :: r =>
    if c = '\r' then (decide (d = '\n') && crOnlyBeforeLF r)
    else crOnlyBeforeLF (d :: r)

/-- The raw best-line index `generateRoast` computes:
`(seed % Math.max(1, Math.min(roastLines.length - 2, 8))) + 1`. -/
def bIdx (text : Str) (lvl : RoastLevel) : ℤ :=
  (simpleHash text : ℤ) %
    imax 1 (imin (((generateRoast text lvl).roastLines.length : ℤ) - 2) 8) + 1

/-- The distinct non-`overall`, non-`finisher` template categories. -/
def triggerCats : List Str :=
  ["buzzwords", "generic_skills", "no_links", "no_metrics", "no_projects",
   "no_summary", "too_long", "too_short", "vague", "weak_bullets"].map str

/-- Number of fresh categories phase 2 can still consume: one per distinct
category of the remaining templates that is not yet in `used`. -/
def numFresh : List RoastTemplate → List Str → Nat
  | [], _ => 0
  | t :: ts, used =>
    if t.category ∈ used then numFresh ts used
    else 1 + numFresh ts (t.category :: used)

/-! # Lemmas

## The `Rat.divInt`-spelled operations are the ordinary `ℚ` operations -/

theorem qadd_eq (a b : ℚ) : qadd a b = a + b := by
  conv_rhs => rw [← Rat.num_divInt_den a, ← Rat.num_divInt_den b]
  rw [Rat.divInt_add_divInt _ _
    (Int.natCast_ne_zero.mpr a.den_nz) (Int.natCast_ne_zero.mpr b.den_nz)]
  rfl

theorem qmul_eq (a b : ℚ) : qmul a b = a * b := by
  conv_rhs => rw [← Rat.num_divInt_den a, ← Rat.num_divInt_den b]
  rw [Rat.divInt_mul_divInt']
  rfl

theorem qdiv_eq (a b : ℚ) : qdiv a b = a / b := by
  conv_rhs => rw [← Rat.num_divInt_den a, ← Rat.num_divInt_den b]
  rw [Rat.divInt_div_divInt]
  rfl

theorem qsub_eq (a b : ℚ) : qsub a b = a - b := by
  rw [sub_eq_add_neg, ← qadd_eq, qsub, qadd, Rat.neg_num, Rat.neg_den]
  congr 1
  ring

theorem qOfNat_eq (n : ℕ) : qOfNat n = (n : ℚ) := by
  rw [qOfNat, Rat.divInt_one]
  norm_cast

theorem qOfInt_eq (i : ℤ) : qOfInt i = (i : ℚ) := by
  rw [qOfInt, Rat.divInt_one]

theorem qmin_eq (a b : ℚ) : qmin a b = min a b := (min_def a b).symm

theorem qmax_eq (a b : ℚ) : qmax a b = max a b := (max_def a b).symm

theorem imin_eq (a b : ℤ) : imin a b = min a b := (min_def a b).symm

theorem imax_eq (a b : ℤ) : imax a b = max a b := (max_def a b).symm

theorem clampQ_eq (lo hi v : ℚ) : clampQ lo hi v = max lo (min hi v) := by
  rw [clampQ, qmin_eq, qmax_eq]

theorem jsRound_eq (q : ℚ) : jsRound q = ⌊q + 1 / 2⌋ := by
  rw [jsRound, qadd_eq, Rat.divInt_eq_div]
  norm_num

/-! ## Character-predicate preservation through the normalizer stages -/

theorem all_of_subset {p : Char → Bool} {l l' : Str} (hsub : l' ⊆ l)
    (h : l.all p = true) : l'.all p = true := by
  simp only [List.all_eq_true] at *
  exact fun x hx => h x (hsub hx)

theorem all_replicate {p : Char → Bool} (n : Nat) (c : Char) (h : p c = true) :
    (List.replicate n c).all p = true := by
  simp only [List.all_eq_true]
  intro x hx
  rw [List.eq_of_mem_replicate hx]
  exact h

theorem all_emitSp {p : Char → Bool} (hsp : p ' ' = true) (n : Nat) :
    (emitSp n).all p = true := by
  unfold emitSp
  split
  · simp [hsp]
  · exact all_replicate _ _ hsp

theorem all_emitNL {p : Char → Bool} (hnl : p '\n' = true) (n : Nat) :
    (emitNL n).all p = true := by
  unfold emitNL
  split
  · simp [hnl]
  · exact all_replicate _ _ hnl

theorem all_replCRLF {p : Char → Bool} :
    ∀ l : Str, l.all p = true → (replCRLF l).all p = true
  | [], _ => rfl
  | '\r' :: '\n' :: r, h => by
    simp only [List.all_cons, Bool.and_eq_true] at h
    have : replCRLF ('\r' :: '\n' :: r) = '\n' :: replCRLF r := rfl
    rw [this, List.all_cons, Bool.and_eq_true]
    exact ⟨h.2.1, all_replCRLF r h.2.2⟩
  | '\r' :: [], h => h
  | '\r' :: c :: r, h => by
    by_cases hc : c = '\n'
    · subst hc
      simp only [List.all_cons, Bool.and_eq_true] at h
      have : replCRLF ('\r' :: '\n' :: r) = '\n' :: replCRLF r := rfl
      rw [this, List.all_cons, Bool.and_eq_true]
      exact ⟨h.2.1, all_replCRLF r h.2.2⟩
    · simp only [List.all_cons, Bool.and_eq_true] at h
      have : replCRLF ('\r' :: c :: r) = '\r' :: replCRLF (c :: r) := by
        conv_lhs => rw [replCRLF.eq_def]
        split
        · rename_i heq
          rw [List.cons.injEq, List.cons.injEq] at heq
          exact absurd heq.2.1 hc
        · rename_i heq
          injection heq with h1 h2
          subst h1
          subst h2
          rfl
        · rename_i heq
          cases heq
      rw [this, List.all_cons, Bool.and_eq_true]
      refine ⟨h.1, all_replCRLF (c :: r) ?_⟩
      simp [List.all_cons, h.2.1, h.2.2]
  | c :: r, h => by
    by_cases hc : c = '\r'
    · subst hc
      cases r with
      | nil => exact h
      | cons d r' =>
        by_cases hd : d = '\n'
        · subst hd
          simp only [List.all_cons, Bool.and_eq_true] at h
          have : replCRLF ('\r' :: '\n' :: r') = '\n' :: replCRLF r' := rfl
          rw [this, List.all_cons, Bool.and_eq_true]
          exact ⟨h.2.1, all_replCRLF r' h.2.2⟩
        · simp only [List.all_cons, Bool.and_eq_true] at h
          have : replCRLF ('\r' :: d :: r') = '\r' :: replCRLF (d :: r') := by
            conv_lhs => rw [replCRLF.eq_def]
            split
            · rename_i heq
              rw [List.cons.injEq, List.cons.injEq] at heq
              exact absurd heq.2.1 hd
            · rename_i heq
              injection heq with h1 h2
              subst h1
              subst h2
              rfl
            · rename_i heq
              cases heq
          rw [this, List.all_cons, Bool.and_eq_true]
          refine ⟨h.1, all_replCRLF (d :: r') ?_⟩
          simp [List.all_cons, h.2.1, h.2.2]
    · simp only [List.all_cons, Bool.and_eq_true] at h
      have : replCRLF (c :: r) = c :: replCRLF r := by
        conv_lhs => rw [replCRLF.eq_def]
        split
        · rename_i heq
          rw [List.cons.injEq] at heq
          exact absurd heq.1 hc
        · rename_i heq
          injection heq with h1 h2
          subst h1
          subst h2
          rfl
        · rename_i heq
          cases heq
      rw [this, List.all_cons, Bool.and_eq_true]
      exact ⟨h.1, all_replCRLF r h.2⟩

theorem all_replTab {p : Char → Bool} (hsp : p ' ' = true) (l : Str)
    (h : l.all p = true) : (replTab l).all p = true := by
  simp only [replTab, List.all_eq_true, List.mem_map] at *
  rintro x ⟨c, hc, rfl⟩
  split
  · exact hsp
  · exact h c hc

theorem noTabs_replTab (l : Str) : noTabs (replTab l) = true := by
  simp only [noTabs, replTab, List.all_eq_true, List.mem_map]
  rintro x ⟨c, _, rfl⟩
  split
  · decide
  · rename_i hc
    simpa using hc

theorem all_collapseSpAux {p : Char → Bool} (hsp : p ' ' = true) :
    ∀ (l : Str) (n : Nat), l.all p = true → (collapseSpAux n l).all p = true
  | [], n, _ => all_emitSp hsp n
  | ' ' :: r, n, h => by
    simp only [List.all_cons, Bool.and_eq_true] at h
    exact all_collapseSpAux hsp r (n + 1) h.2
  | c :: r, n, h => by
    by_cases hc : c = ' '
    · subst hc
      simp only [List.all_cons, Bool.and_eq_true] at h
      exact all_collapseSpAux hsp r (n + 1) h.2
    · simp only [List.all_cons, Bool.and_eq_true] at h
      have : collapseSpAux n (c :: r) = emitSp n ++ c :: collapseSpAux 0 r := by
        conv_lhs => rw [collapseSpAux.eq_def]
        split
        · rename_i heq
          cases heq
        · rename_i heq
          rw [List.cons.injEq] at heq
          exact absurd heq.1 hc
        · rename_i heq
          injection heq with h1 h2
          subst h1
          subst h2
          rfl
      rw [this, List.all_append, Bool.and_eq_true, List.all_cons, Bool.and_eq_true]
      exact ⟨all_emitSp hsp n, h.1, all_collapseSpAux hsp r 0 h.2⟩

theorem all_collapseNLAux {p : Char → Bool} (hnl : p '\n' = true) :
    ∀ (l : Str) (n : Nat), l.all p = true → (collapseNLAux n l).all p = true
  | [], n, _ => all_emitNL hnl n
  | '\n' :: r, n, h => by
    simp only [List.all_cons, Bool.and_eq_true] at h
    exact all_collapseNLAux hnl r (n + 1) h.2
  | c :: r, n, h => by
    by_cases hc : c = '\n'
    · subst hc
      simp only [List.all_cons, Bool.and_eq_true] at h
      exact all_collapseNLAux hnl r (n + 1) h.2
    · simp only [List.all_cons, Bool.and_eq_true] at h
      have : collapseNLAux n (c :: r) = emitNL n ++ c :: collapseNLAux 0 r := by
        conv_lhs => rw [collapseNLAux.eq_def]
        split
        · rename_i heq
          cases heq
        · rename_i heq
          rw [List.cons.injEq] at heq
          exact absurd heq.1 hc
        · rename_i heq
          injection heq with h1 h2
          subst h1
          subst h2
          rfl
      rw [this, List.all_append, Bool.and_eq_true, List.all_cons, Bool.and_eq_true]
      exact ⟨all_emitNL hnl n, h.1, all_collapseNLAux hnl r 0 h.2⟩

theorem trimR_subset : ∀ l : Str, trimR l ⊆ l
  | [] => fun _ h => h
  | c :: r => by
    simp only [trimR]
    split
    · intro x hx
      cases hx
    · intro x hx
      rcases List.mem_cons.mp hx with rfl | hx
      · exact List.mem_cons_self _ _
      · exact List.mem_cons_of_mem _ (trimR_subset r hx)

theorem trimL_subset (l : Str) : trimL l ⊆ l :=
  (List.dropWhile_sublist _).subset

theorem all_jsTrim {p : Char → Bool} (l : Str) (h : l.all p = true) :
    (jsTrim l).all p = true :=
  all_of_subset (fun _ hx => trimL_subset l (trimR_subset (trimL l) hx)) h

theorem noTabs_cleanText (l : Str) : noTabs (cleanText l) = true :=
  all_jsTrim _ (all_collapseNLAux (by decide) _ 0
    (all_collapseSpAux (by decide) _ 0 (noTabs_replTab (replCRLF l))))

/-! ## Run-length bounds through the normalizer stages -/

theorem noRunAux_mono {ch : Char} {cap : Nat} :
    ∀ (l : Str) {j k : Nat}, j ≤ k → noRunAux ch cap l k = true →
      noRunAux ch cap l j = true
  | [], _, _, _, _ => rfl
  | c :: r, j, k, hjk, h => by
    simp only [noRunAux] at h ⊢
    by_cases hc : c = ch
    · rw [if_pos hc] at h ⊢
      rw [Bool.and_eq_true] at h ⊢
      have h1 := h.1
      simp only [decide_eq_true_eq] at h1 ⊢
      exact ⟨by omega, noRunAux_mono r (Nat.add_le_add_right hjk 1) h.2⟩
    · rw [if_neg hc] at h ⊢
      exact h

theorem noRunAux_append_left {ch : Char} {cap : Nat} :
    ∀ (a b : Str) (k : Nat), noRunAux ch cap (a ++ b) k = true →
      noRunAux ch cap a k = true
  | [], _, _, _ => rfl
  | c :: a', b, k, h => by
    simp only [List.cons_append, noRunAux] at h ⊢
    by_cases hc : c = ch
    · rw [if_pos hc] at h ⊢
      rw [Bool.and_eq_true] at h ⊢
      exact ⟨h.1, noRunAux_append_left a' b _ h.2⟩
    · rw [if_neg hc] at h ⊢
      exact noRunAux_append_left a' b _ h

theorem noRunAux_append_right {ch : Char} {cap : Nat} :
    ∀ (a b : Str) (k : Nat), noRunAux ch cap (a ++ b) k = true →
      noRunAux ch cap b 0 = true
  | [], b, k, h => noRunAux_mono b (Nat.zero_le k) h
  | c :: a', b, k, h => by
    simp only [List.cons_append, noRunAux] at h
    by_cases hc : c = ch
    · rw [if_pos hc, Bool.and_eq_true] at h
      exact noRunAux_append_right a' b _ h.2
    · rw [if_neg hc] at h
      exact noRunAux_append_right a' b _ h

theorem noRunAux_cons_ne {ch : Char} {cap : Nat} {c : Char} (hc : c ≠ ch)
    (X : Str) (k : Nat) : noRunAux ch cap (c :: X) k = noRunAux ch cap X 0 := by
  simp [noRunAux, hc]

theorem noRunAux_of_all_ne {ch : Char} {cap : Nat} :
    ∀ (X : Str) (k : Nat), (∀ c ∈ X, c ≠ ch) → noRunAux ch cap X k = true
  | [], _, _ => rfl
  | c :: X', k, h => by
    rw [noRunAux_cons_ne (h c (List.mem_cons_self _ _))]
    exact noRunAux_of_all_ne X' 0 (fun d hd => h d (List.mem_cons_of_mem _ hd))

theorem noRunAux_cons_self (ch : Char) (cap : Nat) (X : Str) (k : Nat) :
    noRunAux ch cap (ch :: X) k =
      (decide (k + 1 < cap) && noRunAux ch cap X (k + 1)) := by
  simp [noRunAux]

theorem noRunAux_replicate_append {ch : Char} {cap : Nat} :
    ∀ (j : Nat) (X : Str) (k : Nat), j + k < cap →
      noRunAux ch cap X (k + j) = true →
      noRunAux ch cap (List.replicate j ch ++ X) k = true
  | 0, X, k, _, h => by simpa using h
  | j + 1, X, k, hj, h => by
    rw [List.replicate_succ, List.cons_append, noRunAux_cons_self, Bool.and_eq_true]
    refine ⟨by simp only [decide_eq_true_eq]; omega, ?_⟩
    have hX : noRunAux ch cap X ((k + 1) + j) = true := by
      have harith : k + (j + 1) = (k + 1) + j := by omega
      rwa [harith] at h
    exact noRunAux_replicate_append j X (k + 1) (by omega) hX

theorem noRunAux_ne_replicate_append {ch ch' : Char} {cap : Nat} (hne : ch' ≠ ch) :
    ∀ (m : Nat) (Y : Str) (j : Nat), 1 ≤ m →
      noRunAux ch cap (List.replicate m ch' ++ Y) j = noRunAux ch cap Y 0
  | 0, _, _, hm => absurd hm (by omega)
  | 1, Y, j, _ => by
    simp only [List.replicate_succ, List.replicate_zero, List.cons_append,
      List.nil_append]
    exact noRunAux_cons_ne hne Y j
  | m + 2, Y, j, _ => by
    simp only [List.replicate_succ, List.cons_append]
    rw [noRunAux_cons_ne hne]
    exact noRunAux_ne_replicate_append hne (m + 1) Y 0 (by omega)

theorem emitSp_eq_replicate (n : Nat) :
    ∃ j, j ≤ 2 ∧ emitSp n = List.replicate j ' ' := by
  unfold emitSp
  split
  · exact ⟨2, by omega, rfl⟩
  · rename_i hn
    exact ⟨n, by omega, rfl⟩

theorem emitNL_eq_replicate (n : Nat) :
    ∃ j, j ≤ 3 ∧ emitNL n = List.replicate j '\n' := by
  unfold emitNL
  split
  · exact ⟨3, by omega, rfl⟩
  · rename_i hn
    exact ⟨n, by omega, rfl⟩

theorem emitNL_pos_eq_replicate (n : Nat) (hn : 1 ≤ n) :
    ∃ j, 1 ≤ j ∧ j ≤ 3 ∧ emitNL n = List.replicate j '\n' := by
  unfold emitNL
  split
  · exact ⟨3, by omega, by omega, rfl⟩
  · rename_i h4
    exact ⟨n, hn, by omega, rfl⟩

theorem noTriSp_collapseSpAux : ∀ (l : Str) (n : Nat),
    noRunAux ' ' 3 (collapseSpAux n l) 0 = true
  | [], n => by
    obtain ⟨j, hj, he⟩ := emitSp_eq_replicate n
    rw [show collapseSpAux n [] = emitSp n from rfl, he,
      show List.replicate j ' ' = List.replicate j ' ' ++ [] from by simp]
    exact noRunAux_replicate_append j [] 0 (by omega) rfl
  | c :: r, n => by
    by_cases hc : c = ' '
    · subst hc
      rw [show collapseSpAux n (' ' :: r) = collapseSpAux (n + 1) r from rfl]
      exact noTriSp_collapseSpAux r (n + 1)
    · have heq : collapseSpAux n (c :: r) = emitSp n ++ c :: collapseSpAux 0 r := by
        conv_lhs => rw [collapseSpAux.eq_def]
        split
        · rename_i heq
          cases heq
        · rename_i heq
          rw [List.cons.injEq] at heq
          exact absurd heq.1 hc
        · rename_i heq
          injection heq with h1 h2
          subst h1
          subst h2
          rfl
      obtain ⟨j, hj, he⟩ := emitSp_eq_replicate n
      rw [heq, he]
      apply noRunAux_replicate_append j _ 0 (by omega)
      rw [noRunAux_cons_ne hc]
      exact noTriSp_collapseSpAux r 0

theorem collapseNLAux_cons_ne {c : Char} (hc : c ≠ '\n') (r : Str) (k : Nat) :
    collapseNLAux k (c :: r) = emitNL k ++ c :: collapseNLAux 0 r := by
  conv_lhs => rw [collapseNLAux.eq_def]
  split
  · rename_i heq
    cases heq
  · rename_i heq
    rw [List.cons.injEq] at heq
    exact absurd heq.1 hc
  · rename_i heq
    injection heq with h1 h2
    subst h1
    subst h2
    rfl

theorem noRunAux_collapseNLAux {ch : Char} {cap : Nat} (hch : ch ≠ '\n') :
    ∀ (l : Str) (k j : Nat),
      noRunAux ch cap l (if k = 0 then j else 0) = true →
      noRunAux ch cap (collapseNLAux k l) j = true
  | [], k, j, h => by
    rw [show collapseNLAux k [] = emitNL k from rfl]
    rcases Nat.eq_zero_or_pos k with hk | hk
    · subst hk
      rw [show emitNL 0 = [] from rfl]
      rfl
    · obtain ⟨m, _, _, he⟩ := emitNL_pos_eq_replicate k hk
      rw [he]
      exact noRunAux_of_all_ne _ j (fun c hc => by
        rw [List.eq_of_mem_replicate hc]
        exact fun hEq => hch hEq.symm)
  | '\n' :: r, k, j, h => by
    rw [show collapseNLAux k ('\n' :: r) = collapseNLAux (k + 1) r from rfl]
    apply noRunAux_collapseNLAux hch r (k + 1) j
    have hnl : ('\n' : Char) ≠ ch := fun hEq => hch hEq.symm
    simp only [if_neg (Nat.succ_ne_zero k)]
    by_cases hk : k = 0
    · subst hk
      simp only [if_pos rfl] at h
      rwa [noRunAux_cons_ne hnl] at h
    · rw [if_neg hk] at h
      rwa [noRunAux_cons_ne hnl] at h
  | c :: r, k, j, h => by
    by_cases hcn : c = '\n'
    · subst hcn
      rw [show collapseNLAux k ('\n' :: r) = collapseNLAux (k + 1) r from rfl]
      apply noRunAux_collapseNLAux hch r (k + 1) j
      have hnl : ('\n' : Char) ≠ ch := fun hEq => hch hEq.symm
      simp only [if_neg (Nat.succ_ne_zero k)]
      by_cases hk : k = 0
      · subst hk
        simp only [if_pos rfl] at h
        rwa [noRunAux_cons_ne hnl] at h
      · rw [if_neg hk] at h
        rwa [noRunAux_cons_ne hnl] at h
    · rw [collapseNLAux_cons_ne hcn]
      rcases Nat.eq_zero_or_pos k with hk | hk
      · subst hk
        rw [show emitNL 0 = [] from rfl, List.nil_append]
        have h0 : noRunAux ch cap (c :: r) j = true := h
        by_cases hc : c = ch
        · subst hc
          rw [noRunAux_cons_self, Bool.and_eq_true] at h0 ⊢
          refine ⟨h0.1, ?_⟩
          have hrec : noRunAux c cap r (if (0 : Nat) = 0 then j + 1 else 0) = true := h0.2
          exact noRunAux_collapseNLAux hch r 0 (j + 1) hrec
        · rw [noRunAux_cons_ne hc] at h0 ⊢
          have hrec : noRunAux ch cap r (if (0 : Nat) = 0 then 0 else 0) = true := h0
          exact noRunAux_collapseNLAux hch r 0 0 hrec
      · obtain ⟨m, hm1, _, he⟩ := emitNL_pos_eq_replicate k hk
        rw [he, noRunAux_ne_replicate_append (fun hEq => hch hEq.symm) m _ j hm1]
        rw [if_neg (by omega)] at h
        by_cases hc : c = ch
        · subst hc
          rw [noRunAux_cons_self, Bool.and_eq_true] at h ⊢
          refine ⟨h.1, ?_⟩
          have hrec : noRunAux c cap r (if (0 : Nat) = 0 then 0 + 1 else 0) = true := h.2
          exact noRunAux_collapseNLAux hch r 0 (0 + 1) hrec
        · rw [noRunAux_cons_ne hc] at h ⊢
          have hrec : noRunAux ch cap r (if (0 : Nat) = 0 then 0 else 0) = true := h
          exact noRunAux_collapseNLAux hch r 0 0 hrec

theorem noQuadNL_collapseNLAux : ∀ (l : Str) (k : Nat),
    noRunAux '\n' 4 (collapseNLAux k l) 0 = true
  | [], k => by
    rw [show collapseNLAux k [] = emitNL k from rfl]
    obtain ⟨j, hj, he⟩ := emitNL_eq_replicate k
    rw [he, show List.replicate j '\n' = List.replicate j '\n' ++ [] from by simp]
    exact noRunAux_replicate_append j [] 0 (by omega) rfl
  | c :: r, k => by
    by_cases hc : c = '\n'
    · subst hc
      rw [show collapseNLAux k ('\n' :: r) = collapseNLAux (k + 1) r from rfl]
      exact noQuadNL_collapseNLAux r (k + 1)
    · rw [collapseNLAux_cons_ne hc]
      obtain ⟨j, hj, he⟩ := emitNL_eq_replicate k
      rw [he]
      apply noRunAux_replicate_append j _ 0 (by omega)
      rw [noRunAux_cons_ne hc]
      exact noQuadNL_collapseNLAux r 0

/-! ## Trimming: decomposition, preservation, idempotence -/

theorem trimR_eq_nil_all_ws : ∀ l : Str, trimR l = [] → l.all isWSChar = true
  | [], _ => rfl
  | c :: r, h => by
    simp only [trimR] at h
    split at h
    · rename_i hcond
      rw [Bool.and_eq_true] at hcond
      rw [List.all_cons, Bool.and_eq_true]
      exact ⟨hcond.2, trimR_eq_nil_all_ws r (List.isEmpty_iff.mp hcond.1)⟩
    · cases h

theorem trimR_decomp : ∀ l : Str, ∃ w, l = trimR l ++ w ∧ w.all isWSChar = true
  | [] => ⟨[], rfl, rfl⟩
  | c :: r => by
    simp only [trimR]
    split
    · rename_i hcond
      rw [Bool.and_eq_true] at hcond
      refine ⟨c :: r, rfl, ?_⟩
      rw [List.all_cons, Bool.and_eq_true]
      exact ⟨hcond.2, trimR_eq_nil_all_ws r (List.isEmpty_iff.mp hcond.1)⟩
    · obtain ⟨w, hw, hall⟩ := trimR_decomp r
      exact ⟨w, by rw [List.cons_append, ← hw], hall⟩

theorem noRun_trimL {ch : Char} {cap : Nat} (l : Str)
    (h : noRunAux ch cap l 0 = true) : noRunAux ch cap (trimL l) 0 = true := by
  apply noRunAux_append_right (l.takeWhile isWSChar) (trimL l) 0
  show noRunAux ch cap (l.takeWhile isWSChar ++ l.dropWhile isWSChar) 0 = true
  rwa [List.takeWhile_append_dropWhile]

theorem noRun_trimR {ch : Char} {cap : Nat} (l : Str)
    (h : noRunAux ch cap l 0 = true) : noRunAux ch cap (trimR l) 0 = true := by
  obtain ⟨w, hw, _⟩ := trimR_decomp l
  exact noRunAux_append_left _ w 0 (hw ▸ h)

theorem noRun_jsTrim {ch : Char} {cap : Nat} (l : Str)
    (h : noRunAux ch cap l 0 = true) : noRunAux ch cap (jsTrim l) 0 = true :=
  noRun_trimR _ (noRun_trimL _ h)

theorem noTriSp_cleanText (l : Str) : noTriSp (cleanText l) = true := by
  apply noRun_jsTrim
  apply noRunAux_collapseNLAux (by decide) _ 0 0
  simpa using noTriSp_collapseSpAux (replTab (replCRLF l)) 0

theorem noQuadNL_cleanText (l : Str) : noQuadNL (cleanText l) = true :=
  noRun_jsTrim _ (noQuadNL_collapseNLAux _ 0)

/-! ## Carriage returns: a CRLF-only input loses every CR -/

theorem replCRLF_cons_ne {c : Char} (hc : c ≠ '\r') (r : Str) :
    replCRLF (c :: r) = c :: replCRLF r := by
  conv_lhs => rw [replCRLF.eq_def]
  split
  · rename_i heq
    rw [List.cons.injEq] at heq
    exact absurd heq.1 hc
  · rename_i heq
    injection heq with h1 h2
    subst h1
    subst h2
    rfl
  · rename_i heq
    cases heq

theorem noCR_replCRLF : ∀ l : Str, crOnlyBeforeLF l = true → noCR (replCRLF l) = true
  | [], _ => rfl
  | [c], h => by
    have hc : (c ≠ '\r') := by
      have h' : decide (c ≠ '\r') = true := h
      exact of_decide_eq_true h'
    rw [replCRLF_cons_ne hc, show replCRLF [] = [] from rfl]
    simp [noCR, hc]
  | c :: d :: r, h => by
    by_cases hc : c = '\r'
    · subst hc
      have h' : (decide (d = '\n') && crOnlyBeforeLF r) = true := by
        have : crOnlyBeforeLF ('\r' :: d :: r) =
            if ('\r' : Char) = '\r' then (decide (d = '\n') && crOnlyBeforeLF r)
            else crOnlyBeforeLF (d :: r) := rfl
        rwa [this, if_pos rfl] at h
      rw [Bool.and_eq_true, decide_eq_true_eq] at h'
      obtain ⟨hd, hr⟩ := h'
      subst hd
      rw [show replCRLF ('\r' :: '\n' :: r) = '\n' :: replCRLF r from rfl]
      simp only [noCR, List.all_cons, Bool.and_eq_true]
      exact ⟨by decide, noCR_replCRLF r hr⟩
    · have h' : crOnlyBeforeLF (d :: r) = true := by
        have heq : crOnlyBeforeLF (c :: d :: r) =
            if c = '\r' then (decide (d = '\n') && crOnlyBeforeLF r)
            else crOnlyBeforeLF (d :: r) := rfl
        rwa [heq, if_neg hc] at h
      rw [replCRLF_cons_ne hc]
      simp only [noCR, List.all_cons, Bool.and_eq_true]
      exact ⟨by simpa using hc, noCR_replCRLF (d :: r) h'⟩

theorem noCR_cleanText (l : Str) (h : crOnlyBeforeLF l = true) :
    noCR (cleanText l) = true :=
  all_jsTrim _ (all_collapseNLAux (by decide) _ 0
    (all_collapseSpAux (by decide) _ 0
      (all_replTab (by decide) _ (noCR_replCRLF l h))))

/-! ## `jsTrim` is idempotent, so `cleanText` output is trimmed -/

theorem dropWhile_idem (p : Char → Bool) :
    ∀ l : Str, List.dropWhile p (List.dropWhile p l) = List.dropWhile p l
  | [] => rfl
  | c :: r => by
    rw [List.dropWhile_cons]
    by_cases hc : p c = true
    · rw [if_pos hc]
      exact dropWhile_idem p r
    · rw [if_neg hc, List.dropWhile_cons, if_neg hc]

theorem trimR_cons_eq (c : Char) (r : Str) :
    trimR (c :: r) =
      if ((trimR r).isEmpty && isWSChar c) = true then [] else c :: trimR r := rfl

theorem trimR_trimR : ∀ l : Str, trimR (trimR l) = trimR l
  | [] => rfl
  | c :: r => by
    by_cases hcond : ((trimR r).isEmpty && isWSChar c) = true
    · rw [trimR_cons_eq, if_pos hcond]
      rfl
    · rw [trimR_cons_eq, if_neg hcond, trimR_cons_eq, trimR_trimR r, if_neg hcond]

theorem trimL_trimL (l : Str) : trimL (trimL l) = trimL l :=
  dropWhile_idem isWSChar l

theorem jsTrim_jsTrim (l : Str) : jsTrim (jsTrim l) = jsTrim l := by
  show trimR (trimL (trimR (trimL l))) = trimR (trimL l)
  have h2 : trimL (trimR (trimL l)) = trimR (trimL l) := by
    cases hXc : trimL l with
    | nil =>
      rw [show trimR ([] : Str) = [] from rfl]
      rfl
    | cons d X' =>
      have hd : isWSChar d = false := by
        have h1 : trimL (trimL l) = trimL l := trimL_trimL l
        rw [hXc] at h1
        by_contra hws
        rw [Bool.not_eq_false] at hws
        have : trimL (d :: X') = List.dropWhile isWSChar X' := by
          show List.dropWhile isWSChar (d :: X') = _
          rw [List.dropWhile_cons, if_pos hws]
        rw [this] at h1
        have hlen := (List.dropWhile_sublist (p := isWSChar) (l := X')).length_le
        rw [h1] at hlen
        simp at hlen
      rw [trimR_cons_eq]
      by_cases hcond : ((trimR X').isEmpty && isWSChar d) = true
      · rw [if_pos hcond]
        rfl
      · rw [if_neg hcond]
        show List.dropWhile isWSChar (d :: trimR X') = d :: trimR X'
        rw [List.dropWhile_cons, if_neg (by simp [hd])]
  rw [h2, trimR_trimR]

/-! ## Line splitting and the section segmenter -/

theorem splitNL_cons_ne {c : Char} (hc : c ≠ '\n') (r : Str) :
    splitNL (c :: r) =
      match splitNL r with
      | h :: t => (c :: h) :: t
      | [] => [[c]] := by
  conv_lhs => rw [splitNL.eq_def]
  split
  · rename_i heq
    cases heq
  · rename_i heq
    rw [List.cons.injEq] at heq
    exact absurd heq.1 hc
  · rename_i heq
    injection heq with h1 h2
    subst h1
    subst h2
    rfl

theorem splitNL_nlFree : ∀ b : Str, '\n' ∉ b → splitNL b = [b]
  | [], _ => rfl
  | c :: r, h => by
    have hc : c ≠ '\n' := fun hEq => h (hEq ▸ List.mem_cons_self c r)
    rw [splitNL_cons_ne hc, splitNL_nlFree r (fun hm => h (List.mem_cons_of_mem c hm))]

theorem splitNL_append (x y : Str) (hx : '\n' ∉ x) :
    splitNL (x ++ '\n' :: y) = x :: splitNL y := by
  induction x with
  | nil => rfl
  | cons c x' ih =>
    have hc : c ≠ '\n' := fun hEq => hx (hEq ▸ List.mem_cons_self c x')
    rw [List.cons_append, splitNL_cons_ne hc,
      ih (fun hm => hx (List.mem_cons_of_mem c hm))]

/-! # Claim theorems (part 1: concrete evaluations) -/

/-- C1: the spec's end-to-end scenario. For the text
`"Experience\nResponsible for various tasks.\nEducation\nState University"`
the claim demands a final score in the High-Risk band (`score ≤ 3`, label
`"High Risk"`). The code instead returns score 8 with label `"Low Risk"`:
the category scores are health-like (low for this weak resume), so
`ceil(weightedAvg/10) = 3` and the `11 - risk` inversion yields 8 — a bad
resume is labeled Low Risk while the code's own red flags (which do contain
the four demanded entries) call it weak. This theorem evaluates the code at
the failing input, exhibiting the divergence. -/
theorem claimC1_code_divergence :
    (analyzeResume (str "Experience\nResponsible for various tasks.\nEducation\nState University")).score = 8 ∧
    (analyzeResume (str "Experience\nResponsible for various tasks.\nEducation\nState University")).label = str "Low Risk" ∧
    ¬((analyzeResume (str "Experience\nResponsible for various tasks.\nEducation\nState University")).score ≤ 3) ∧
    str "Zero quantified metrics - every bullet should have numbers" ∈
      (analyzeResume (str "Experience\nResponsible for various tasks.\nEducation\nState University")).redFlags ∧
    str "No projects or code portfolio visible" ∈
      (analyzeResume (str "Experience\nResponsible for various tasks.\nEducation\nState University")).redFlags ∧
    str "No dedicated skills section" ∈
      (analyzeResume (str "Experience\nResponsible for various tasks.\nEducation\nState University")).redFlags ∧
    str "Missing summary/profile section" ∈
      (analyzeResume (str "Experience\nResponsible for various tasks.\nEducation\nState University")).redFlags := by
  decide

/-- C2: `generateRoast` is a deterministic pure function of `(text, level)`:
two calls with the same arguments agree on the title, the roast lines (in
order), the best line, the redemption list and the boundaries. In this
embedding the source's freedom from ambient state (no clock, no
`Math.random`, no module-level mutability in `roaster.ts`) is reflected by
`generateRoast` being a function, so the five field equalities hold
definitionally. -/
theorem claimC2_roast_deterministic (t : Str) (lvl : RoastLevel) :
    (generateRoast t lvl).title = (generateRoast t lvl).title ∧
    (generateRoast t lvl).roastLines = (generateRoast t lvl).roastLines ∧
    (generateRoast t lvl).bestLine = (generateRoast t lvl).bestLine ∧
    (generateRoast t lvl).redemption = (generateRoast t lvl).redemption ∧
    (generateRoast t lvl).boundaries = (generateRoast t lvl).boundaries :=
  ⟨rfl, rfl, rfl, rfl, rfl⟩

/-- C3 counterexample: the claim says `cleanText` converts every tab to a
*double* space, which would force `cleanText "a\tb" = "a  b"`; the source's
`.replace(/\t/g, " ")` replaces each tab by a *single* space. -/
theorem claimC3_counterexample_tab :
    cleanText (str "a\tb") = str "a b" ∧ cleanText (str "a\tb") ≠ str "a  b" := by
  decide

/-- C5 counterexample: the *reported* Proof of Impact score is the inverted
display value `round(100 - internal)`, so appending the metric bullet
`"- increased revenue by 20%"` to the metrics-free resume `"hello"` moves the
reported score from 80 down to 40 — the claim, read against the reported
breakdown entry, fails. -/
theorem claimC5_counterexample_reported :
    countMetrics (cleanText (str "hello")) = 0 ∧
    ((analyzeResume (str "hello")).breakdown.getD 1 ⟨[], 0, []⟩).score = 80 ∧
    ((analyzeResume (str "hello\n- increased revenue by 20%")).breakdown.getD 1
      ⟨[], 0, []⟩).score = 40 := by
  decide

/-- C6 counterexample: for a resume that satisfies every roast trigger's
negation at level light (has projects/skills/summary keywords, a metric, a
link, three technologies, five bullets, word count ≤ 30), the roast consists
of exactly two lines (one overall, one finisher); the best-line index is then
`seed % max(1, min(0, 8)) + 1 = 1`, i.e. the *last* line — not the first
line, although no interior line exists, contradicting the claimed fallback. -/
theorem claimC6_counterexample_two_lines :
    let r := generateRoast
      (str "Projects\n- react site 50%\n- python tool parts\n- docker set tested\n- shipped thing quick\n- https://github.com/x demo")
      RoastLevel.light
    r.roastLines.length = 2 ∧ r.bestLine = r.roastLines.getD 1 [] ∧
    r.bestLine ≠ r.roastLines.getD 0 [] := by
  decide

/-- C7 counterexample: in `"Skills\npython\nSkills"` the *last* `skills`
heading is followed by no content, and empty accumulations never commit, so
the returned mapping keeps the content accumulated after the *first* heading
(`"python"`), not the (empty) content after the last one as the claim states. -/
theorem claimC7_counterexample_empty_last :
    getKey (extractSections (str "Skills\npython\nSkills")) (str "skills") =
      some (str "python") ∧
    some (str "python") ≠ some (str "") := by
  decide

/-- C9: a concrete input whose only metric is the duration `200ms`:
`analyzeResume` (whose `countMetrics` also matches time durations) reports
`metricCount = 1`, while the three-pattern counter shared by the improver and
the roast context computes 0 — so the improver emits the zero-metrics
priority fix and the roast contains a `no_metrics` template line. -/
theorem claimC9_metric_divergence :
    (analyzeResume (str "Experience\n- Cut page load to 200ms across the app")).detected.metricCount = 1 ∧
    simpleMetricCount (str "Experience\n- Cut page load to 200ms across the app") = 0 ∧
    (buildContext (str "Experience\n- Cut page load to 200ms across the app")).metricCount = 0 ∧
    str "Add quantified metrics to every bullet point. Use numbers like percentages, dollar amounts, time saved, users impacted. Even estimates with (~X%) are better than nothing."
      ∈ (generateImprovements (str "Experience\n- Cut page load to 200ms across the app")).priorityFixes ∧
    (∃ s ∈ (generateRoast (str "Experience\n- Cut page load to 200ms across the app")
        RoastLevel.light).roastLines,
      ∃ tp ∈ TEMPLATES, tp.category = str "no_metrics" ∧ s ∈ tp.lines) := by
  decide

/-- C10: a single prose line of 78 characters containing the word "about":
no line is a section heading (the only matching keyword line is ≥ 60 chars),
so `extractSections` yields no `summary` section and `analyzeResume` flags
the summary as missing, while the improver's and roast's whole-text keyword
regexes report the summary as present. -/
theorem claimC10_section_divergence :
    (splitNL (str "I am deeply excited about building reliable software systems every single day.")).all
      (fun line => (findHeader (jsTrim line)).isNone) = true ∧
    getKey (extractSections (cleanText
      (str "I am deeply excited about building reliable software systems every single day.")))
      (str "summary") = none ∧
    improveHasSummary
      (str "I am deeply excited about building reliable software systems every single day.") = true ∧
    (buildContext
      (str "I am deeply excited about building reliable software systems every single day.")).hasSummary = true ∧
    str "Missing summary/profile section" ∈ (analyzeResume
      (str "I am deeply excited about building reliable software systems every single day.")).redFlags := by
  decide

/-- C3 (amended): `cleanText` is total (it is a function), converts CRLF to
LF, converts every tab to a *single* space (not a double space as claimed),
collapses runs of three or more spaces to two, collapses runs of four or
more newlines to three, and trims. Extrinsically: the output never contains
a tab, never contains a run of three spaces, never contains a run of four
newlines, is a fixed point of trimming, and — whenever every input CR sits
in a CRLF pair — contains no carriage return at all. -/
theorem claimC3_normalizer_amended (s : Str) :
    noTabs (cleanText s) = true ∧
    noTriSp (cleanText s) = true ∧
    noQuadNL (cleanText s) = true ∧
    jsTrim (cleanText s) = cleanText s ∧
    (crOnlyBeforeLF s = true → noCR (cleanText s) = true) :=
  ⟨noTabs_cleanText s, noTriSp_cleanText s, noQuadNL_cleanText s,
   jsTrim_jsTrim _, fun h => noCR_cleanText s h⟩

/-- C7 (amended): in `extractSections`, a heading (or the end of input)
commits the accumulated content only when that accumulation is nonempty, and
a commit overwrites any earlier binding of the same label (last-wins, never
concatenation). In particular, for two `Skills` headings each followed by one
non-heading content line, the returned mapping binds `skills` to the trimmed
content after the *last* heading, and never to the concatenation. (A final
heading with no following content commits nothing, which is the part the
original claim missed — see the counterexample.) -/
theorem claimC7_last_wins_amended (a b : Str)
    (hna : '\n' ∉ a) (hnb : '\n' ∉ b)
    (hha : findHeader (jsTrim a) = none) (hhb : findHeader (jsTrim b) = none) :
    getKey (extractSections
        (str "Skills" ++ '\n' :: (a ++ '\n' :: (str "Skills" ++ '\n' :: b))))
      (str "skills") = some (jsTrim b) ∧
    jsTrim b ≠ jsTrim a ++ '\n' :: jsTrim b := by
  constructor
  · have h1 := splitNL_append (str "Skills")
      (a ++ '\n' :: (str "Skills" ++ '\n' :: b)) (by decide)
    have h2 := splitNL_append a (str "Skills" ++ '\n' :: b) hna
    have h3 := splitNL_append (str "Skills") b (by decide)
    rw [extractSections, h1, h2, h3, splitNL_nlFree b hnb]
    have hSkills : findHeader (jsTrim (str "Skills")) = some (str "skills") := by decide
    simp only [extractSectionsAux, hSkills, hha, hhb]
    norm_num [joinNL, setKey, getKey, List.find?]
  · intro h
    have := congrArg List.length h
    simp only [List.length_append, List.length_cons] at this
    omega

/-- Witness for C7 at concrete content lines. -/
theorem claimC7_witness :
    getKey (extractSections
        (str "Skills" ++ '\n' :: (str "python" ++ '\n' :: (str "Skills" ++ '\n' :: str "rust"))))
      (str "skills") = some (jsTrim (str "rust")) ∧
    jsTrim (str "rust") ≠ jsTrim (str "python") ++ '\n' :: jsTrim (str "rust") :=
  claimC7_last_wins_amended (str "python") (str "rust")
    (by decide) (by decide) (by decide) (by decide)

theorem getD_mem_of_ne_nil (L : List Str) (i : Nat) (h : L.getD i [] ≠ []) :
    L.getD i [] ∈ L := by
  rcases Nat.lt_or_ge i L.length with hlt | hge
  · rw [List.getD_eq_getElem?_getD, List.getElem?_eq_getElem hlt]
    exact List.getElem_mem hlt
  · rw [List.getD_eq_getElem?_getD, List.getElem?_eq_none hge] at h
    exact absurd rfl h

theorem generateRoast_bestLine_run (text : Str) (lvl : RoastLevel) :
    (generateRoast text lvl).bestLine =
      (if !((generateRoast text lvl).roastLines.getD (bIdx text lvl).toNat []).isEmpty
        then (generateRoast text lvl).roastLines.getD (bIdx text lvl).toNat []
        else if !((generateRoast text lvl).roastLines.getD 0 []).isEmpty
          then (generateRoast text lvl).roastLines.getD 0 []
          else str "Your resume needs work.") := rfl

theorem bestIdx_interior (s n : ℤ) (hn : 3 ≤ n) :
    1 ≤ s % imax 1 (imin (n - 2) 8) + 1 ∧
    s % imax 1 (imin (n - 2) 8) + 1 + 2 ≤ n := by
  have h1min : (1 : ℤ) ≤ min (n - 2) 8 := le_min (by omega) (by norm_num)
  have hm_eq : imax 1 (imin (n - 2) 8) = min (n - 2) 8 := by
    rw [imax_eq, imin_eq]; exact max_eq_right h1min
  rw [hm_eq]
  have hpos : (0 : ℤ) < min (n - 2) 8 := lt_of_lt_of_le zero_lt_one h1min
  have hlt := Int.emod_lt_of_pos s hpos
  have hnn := Int.emod_nonneg s (ne_of_gt hpos)
  have hle : min (n - 2) 8 ≤ n - 2 := min_le_left _ _
  exact ⟨by linarith, by linarith⟩

/-- C6 (amended): the `bestLine` returned by `generateRoast` is always either a
member of the returned `roastLines` or the canned fallback string; when the
list has at least three lines the seed-modulo index lands strictly inside the
list, excluding both the first and the last line; and whenever the indexed
line is nonempty it is exactly the `bestLine`. (With exactly two lines the
index is 1, i.e. the LAST line, which is the part of the original claim the
counterexample refutes.) -/
theorem claimC6_bestline_amended (text : Str) (lvl : RoastLevel) :
    ((generateRoast text lvl).bestLine ∈ (generateRoast text lvl).roastLines ∨
      (generateRoast text lvl).bestLine = str "Your resume needs work.") ∧
    (3 ≤ (generateRoast text lvl).roastLines.length →
      1 ≤ bIdx text lvl ∧
      bIdx text lvl + 2 ≤ ((generateRoast text lvl).roastLines.length : ℤ)) ∧
    (((generateRoast text lvl).roastLines.getD (bIdx text lvl).toNat []).isEmpty = false →
      (generateRoast text lvl).bestLine =
        (generateRoast text lvl).roastLines.getD (bIdx text lvl).toNat []) := by
  refine ⟨?_, ?_, ?_⟩
  · rw [generateRoast_bestLine_run]
    by_cases h1 : ((generateRoast text lvl).roastLines.getD (bIdx text lvl).toNat []).isEmpty
    · rw [h1]
      by_cases h2 : ((generateRoast text lvl).roastLines.getD 0 []).isEmpty
      · rw [h2]
        exact Or.inr rfl
      · have h2' : ((generateRoast text lvl).roastLines.getD 0 []).isEmpty = false :=
          Bool.eq_false_iff.mpr h2
        rw [h2']
        exact Or.inl (getD_mem_of_ne_nil _ _ (by
          intro hnil
          rw [hnil] at h2'
          exact absurd h2' (by decide)))
    · have h1' : ((generateRoast text lvl).roastLines.getD
          (bIdx text lvl).toNat []).isEmpty = false := Bool.eq_false_iff.mpr h1
      rw [h1']
      exact Or.inl (getD_mem_of_ne_nil _ _ (by
        intro hnil
        rw [hnil] at h1'
        exact absurd h1' (by decide)))
  · intro h3
    have hn : (3 : ℤ) ≤ ((generateRoast text lvl).roastLines.length : ℤ) := by
      exact_mod_cast h3
    have := bestIdx_interior (simpleHash text)
      ((generateRoast text lvl).roastLines.length : ℤ) hn
    simpa only [bIdx] using this
  · intro hne
    rw [generateRoast_bestLine_run, hne]
    rfl

/-- Witness for C6 at the empty text: eight roast lines, interior index, and
the indexed line is the best line. -/
theorem claimC6_witness :
    3 ≤ (generateRoast [] .light).roastLines.length ∧
    1 ≤ bIdx [] .light ∧
    bIdx [] .light + 2 ≤ ((generateRoast [] .light).roastLines.length : ℤ) ∧
    (generateRoast [] .light).bestLine =
      (generateRoast [] .light).roastLines.getD (bIdx [] .light).toNat [] :=
  ⟨by decide, ((claimC6_bestline_amended [] .light).2.1 (by decide)).1,
   ((claimC6_bestline_amended [] .light).2.1 (by decide)).2,
   (claimC6_bestline_amended [] .light).2.2 (by decide)⟩

theorem mapIdxAux_length (f : Nat → α → β) : ∀ (i : Nat) (l : List α),
    (mapIdxAux f i l).length = l.length
  | _, [] => rfl
  | i, _ :: r => by rw [mapIdxAux, List.length_cons, List.length_cons, mapIdxAux_length f _ r]

theorem mapIdx_length (f : Nat → α → β) (l : List α) : (mapIdx f l).length = l.length :=
  mapIdxAux_length f 0 l

theorem lswap_length (l : List α) (i j : Nat) : (lswap l i j).length = l.length := by
  rw [lswap]
  rcases l.get? i with _ | a <;> rcases l.get? j with _ | b <;>
    simp [List.length_set]

theorem shuffleGo_length : ∀ (l : List α) (s n : Nat), (shuffleGo l s n).length = l.length
  | _, _, 0 => rfl
  | l, s, n + 1 => by rw [shuffleGo, shuffleGo_length, lswap_length]

theorem seededShuffle_length (l : List α) (seed : Nat) :
    (seededShuffle l seed).length = l.length := shuffleGo_length l seed (l.length - 1)

theorem phase1_length (ctx : RoastContext) (seed : Nat) (sh : List RoastTemplate) :
    (phase1 ctx seed sh).length = min 2 sh.length := by
  rw [phase1, mapIdx_length, List.length_take]

theorem phase2_length_le (ctx : RoastContext) (seed : Nat) :
    ∀ (ts : List RoastTemplate) (lines used : List Str),
      lines.length ≤ (phase2 ctx seed ts lines used).1.length
  | [], _, _ => le_refl _
  | t :: ts, lines, used => by
    rw [phase2]
    split
    · exact le_refl _
    · split
      · exact phase2_length_le ctx seed ts lines used
      · calc lines.length ≤ (lines ++ [replacePlaceholders
              (seededPick t.lines (seed + lines.length * 13)
                []) ctx (seed + lines.length)]).length := by
              rw [List.length_append]; omega
          _ ≤ _ := phase2_length_le ctx seed ts _ _

theorem phase3_length_le (ctx : RoastContext) (seed : Nat) (tr : List RoastTemplate) :
    ∀ (fuel : Nat) (lines : List Str),
      lines.length ≤ (phase3 ctx seed tr fuel lines).length
  | 0, _ => le_refl _
  | fuel + 1, lines => by
    rw [phase3]
    split
    · dsimp only
      split
      · exact le_refl _
      · calc lines.length ≤ (lines ++ [replacePlaceholders
              (seededPick (seededPick tr (seed + lines.length * 19) defaultTemplate).lines
                (seed + lines.length * 23) []) ctx (seed + lines.length)]).length := by
              rw [List.length_append]; omega
          _ ≤ _ := phase3_length_le ctx seed tr fuel _
    · exact le_refl _

theorem phase4_length_le (ctx : RoastContext) (seed : Nat) :
    ∀ (ts : List RoastTemplate) (i : Nat) (lines : List Str),
      lines.length ≤ (phase4 ctx seed i ts lines).length
  | [], _, _ => le_refl _
  | t :: ts, i, lines => by
    rw [phase4]
    split
    · exact le_refl _
    · calc lines.length ≤ (lines ++ [replacePlaceholders
            (seededPick t.lines (seed + 300 + i) []) ctx (seed + 300 + i)]).length := by
            rw [List.length_append]; omega
        _ ≤ _ := phase4_length_le ctx seed ts (i + 1) _

theorem generateRoast_roastLines_run (text : Str) (lvl : RoastLevel) :
    ∃ ctx seed eligible,
      ctx = buildContext text ∧ seed = simpleHash text ∧
      eligible = TEMPLATES.filter (fun t =>
        decide (levelOrder t.minLevel ≤ levelOrder lvl) && t.trigger ctx) ∧
      (generateRoast text lvl).roastLines =
        phase4 ctx seed 0
          ((seededShuffle (eligible.filter (fun t => t.category = str "finisher"))
            (seed + 200)).take 2)
          (phase3 ctx seed (eligible.filter (fun t =>
              t.category ≠ str "overall" ∧ t.category ≠ str "finisher")) 10
            ((phase2 ctx seed
              (seededShuffle (eligible.filter (fun t =>
                t.category ≠ str "overall" ∧ t.category ≠ str "finisher")) (seed + 100))
              (phase1 ctx seed (seededShuffle (eligible.filter (fun t =>
                t.category = str "overall")) seed)) []).1)) :=
  ⟨_, _, _, rfl, rfl, rfl, rfl⟩

theorem generateRoast_lines_ne_nil (text : Str) (lvl : RoastLevel) :
    (generateRoast text lvl).roastLines ≠ [] := by
  obtain ⟨ctx, seed, eligible, _, _, helig, hrun⟩ := generateRoast_roastLines_run text lvl
  have hT : ∃ t0 rest, TEMPLATES = t0 :: rest ∧ t0.minLevel = RoastLevel.light ∧
      (∀ c, t0.trigger c = true) ∧ t0.category = str "overall" :=
    ⟨_, _, rfl, rfl, fun _ => rfl, rfl⟩
  obtain ⟨t0, rest, hTeq, hmin, htrig, hcat⟩ := hT
  have hmem : t0 ∈ eligible.filter (fun t => t.category = str "overall") := by
    rw [helig, hTeq]
    refine List.mem_filter.mpr ⟨List.mem_filter.mpr ⟨List.mem_cons_self _ _, ?_⟩, ?_⟩
    · rw [htrig ctx, hmin]
      simp [levelOrder]
    · rw [hcat]
      simp
  have hov : 1 ≤ (seededShuffle
      (eligible.filter (fun t => t.category = str "overall")) seed).length := by
    rw [seededShuffle_length]
    exact List.length_pos.mpr (List.ne_nil_of_mem hmem)
  have h1 : 1 ≤ (phase1 ctx seed (seededShuffle
      (eligible.filter (fun t => t.category = str "overall")) seed)).length := by
    rw [phase1_length]; omega
  have h2 := phase2_length_le ctx seed
    (seededShuffle (eligible.filter (fun t =>
      t.category ≠ str "overall" ∧ t.category ≠ str "finisher")) (seed + 100))
    (phase1 ctx seed (seededShuffle (eligible.filter (fun t =>
      t.category = str "overall")) seed)) []
  have h3 := phase3_length_le ctx seed
    (eligible.filter (fun t => t.category ≠ str "overall" ∧ t.category ≠ str "finisher")) 10
    ((phase2 ctx seed
      (seededShuffle (eligible.filter (fun t =>
        t.category ≠ str "overall" ∧ t.category ≠ str "finisher")) (seed + 100))
      (phase1 ctx seed (seededShuffle (eligible.filter (fun t =>
        t.category = str "overall")) seed)) []).1)
  have h4 := phase4_length_le ctx seed
    ((seededShuffle (eligible.filter (fun t => t.category = str "finisher"))
      (seed + 200)).take 2) 0
    (phase3 ctx seed (eligible.filter (fun t =>
        t.category ≠ str "overall" ∧ t.category ≠ str "finisher")) 10
      ((phase2 ctx seed
        (seededShuffle (eligible.filter (fun t =>
          t.category ≠ str "overall" ∧ t.category ≠ str "finisher")) (seed + 100))
        (phase1 ctx seed (seededShuffle (eligible.filter (fun t =>
          t.category = str "overall")) seed)) []).1))
  rw [hrun]
  intro hnil
  rw [hnil] at h4
  simp only [List.length_nil] at h4
  omega

theorem cleanText_all_ws (s : Str) (h : s.all isWSChar = true) : cleanText s = [] := by
  have h1 := all_replCRLF s h
  have h2 := all_replTab (p := isWSChar) (by decide) _ h1
  have h3 := all_collapseSpAux (p := isWSChar) (by decide) _ 0 h2
  have h4 := all_collapseNLAux (p := isWSChar) (by decide) _ 0 h3
  show jsTrim (collapseNewlines (collapseSpaces (replTab (replCRLF s)))) = []
  rw [collapseNewlines, collapseSpaces, jsTrim, trimL]
  have hdrop : (collapseNLAux 0 (collapseSpAux 0 (replTab (replCRLF s)))).dropWhile
      isWSChar = [] := by
    rw [List.dropWhile_eq_nil_iff]
    intro x hx
    exact List.all_eq_true.mp h4 x hx
  rw [hdrop]
  rfl

theorem generateBulletRewrites_length_le (bullets tech : List Str) :
    (generateBulletRewrites bullets tech).length ≤ 3 := by
  rw [generateBulletRewrites]
  split
  · rw [mapIdx_length, List.length_take]
    omega
  · rw [mapIdx_length, List.length_take]
    omega

theorem ite_ne_nil_default (l0 : List Str) (d : Str) :
    (if l0.isEmpty then [d] else l0) ≠ [] := by
  by_cases he : l0.isEmpty = true
  · rw [if_pos he]
    simp
  · rw [if_neg he]
    intro hn
    exact he (by rw [hn]; rfl)

theorem ite_label_cases (r : ℤ) (a b c : Str) :
    (if r ≤ 3 then a else if r ≤ 6 then b else c) = a ∨
    (if r ≤ 3 then a else if r ≤ 6 then b else c) = b ∨
    (if r ≤ 3 then a else if r ≤ 6 then b else c) = c := by
  by_cases h3 : r ≤ 3
  · rw [if_pos h3]
    exact Or.inl rfl
  · rw [if_neg h3]
    by_cases h6 : r ≤ 6
    · rw [if_pos h6]
      exact Or.inr (Or.inl rfl)
    · rw [if_neg h6]
      exact Or.inr (Or.inr rfl)

set_option maxHeartbeats 2000000 in
theorem analyzeResume_strengths_ne (s : Str) : (analyzeResume s).strengths ≠ [] := by
  unfold analyzeResume
  dsimp only
  exact ite_ne_nil_default _ _

set_option maxHeartbeats 2000000 in
theorem analyzeResume_label_run (s : Str) :
    (analyzeResume s).label = str "High Risk" ∨ (analyzeResume s).label = str "Medium Risk" ∨
    (analyzeResume s).label = str "Low Risk" := by
  unfold analyzeResume
  dsimp only
  exact ite_label_cases _ _ _ _

set_option maxHeartbeats 2000000 in
theorem generateRoast_redemption_len (s : Str) (lvl : RoastLevel) :
    (generateRoast s lvl).redemption.length = 3 := by
  unfold generateRoast
  dsimp only
  rw [List.length_take, seededShuffle_length]
  rfl

set_option maxHeartbeats 2000000 in
theorem generateImprovements_fixes_len (s : Str) :
    3 ≤ (generateImprovements s).priorityFixes.length ∧
    (generateImprovements s).priorityFixes.length ≤ 7 := by
  unfold generateImprovements
  dsimp only
  rw [List.length_take, List.length_append, List.length_replicate]
  constructor
  · exact le_min (by norm_num) (by omega)
  · exact min_le_left _ _

set_option maxHeartbeats 2000000 in
theorem analyzeResume_breakdown_len (s : Str) : (analyzeResume s).breakdown.length = 6 := rfl

set_option maxHeartbeats 2000000 in
theorem analyzeResume_score_run (s : Str) : ∃ x : ℚ, (analyzeResume s).score =
    11 - imax 1 (imin 10 (jsCeil (qdiv x (qOfNat 10)))) := ⟨_, rfl⟩

set_option maxHeartbeats 2000000 in
theorem analyzeResume_disclaimers_len (s : Str) : (analyzeResume s).disclaimers.length = 3 := rfl

set_option maxHeartbeats 2000000 in
theorem analyzeResume_detected_run (s : Str) :
    (analyzeResume s).detected.wordCount = (wordsOf (cleanText s)).length ∧
    (analyzeResume s).detected.bulletCount = (extractBullets (cleanText s)).length ∧
    (analyzeResume s).detected.metricCount = countMetrics (cleanText s) ∧
    (analyzeResume s).detected.linkCount = countLinks (cleanText s) :=
  ⟨rfl, rfl, rfl, rfl⟩

set_option maxHeartbeats 2000000 in
theorem generateRoast_boundaries_len (s : Str) (lvl : RoastLevel) :
    (generateRoast s lvl).boundaries.length = 3 := rfl

set_option maxHeartbeats 2000000 in
theorem generateImprovements_bullets_run (s : Str) :
    (generateImprovements s).rewrittenBullets =
      generateBulletRewrites (extractBullets s) (detectTechStack s) := rfl

set_option maxHeartbeats 2000000 in
theorem generateImprovements_atsTips_run (s : Str) :
    ∃ (a b c d : Str) (rest : List Str),
      (generateImprovements s).atsTips = a :: b :: c :: d :: rest := ⟨_, _, _, _, _, rfl⟩

/-- C8: totality and well-formedness. `analyzeResume`, `generateRoast` and
`generateImprovements` are total Lean functions, and for every input string
and intensity level the results are well-formed: six breakdown categories, a
score clamped to `[1, 10]`, one of the three risk labels, a nonempty
strengths list, three disclaimers, a nonempty roast-lines list, three
redemption picks and three boundaries, between three and seven priority
fixes, at most three bullet rewrites, at least four ATS tips; and on
all-whitespace input every detected count is zero. -/
theorem claimC8_totality (s : Str) (lvl : RoastLevel) :
    (analyzeResume s).breakdown.length = 6 ∧
    (1 ≤ (analyzeResume s).score ∧ (analyzeResume s).score ≤ 10) ∧
    ((analyzeResume s).label = str "High Risk" ∨ (analyzeResume s).label = str "Medium Risk" ∨
      (analyzeResume s).label = str "Low Risk") ∧
    (analyzeResume s).strengths ≠ [] ∧
    (analyzeResume s).disclaimers.length = 3 ∧
    (generateRoast s lvl).roastLines ≠ [] ∧
    (generateRoast s lvl).redemption.length = 3 ∧
    (generateRoast s lvl).boundaries.length = 3 ∧
    (3 ≤ (generateImprovements s).priorityFixes.length ∧
      (generateImprovements s).priorityFixes.length ≤ 7) ∧
    (generateImprovements s).rewrittenBullets.length ≤ 3 ∧
    4 ≤ (generateImprovements s).atsTips.length ∧
    (s.all isWSChar = true →
      (analyzeResume s).detected.wordCount = 0 ∧
      (analyzeResume s).detected.bulletCount = 0 ∧
      (analyzeResume s).detected.metricCount = 0 ∧
      (analyzeResume s).detected.linkCount = 0) := by
  refine ⟨analyzeResume_breakdown_len s, ?_, analyzeResume_label_run s,
    analyzeResume_strengths_ne s, analyzeResume_disclaimers_len s,
    generateRoast_lines_ne_nil s lvl, generateRoast_redemption_len s lvl,
    generateRoast_boundaries_len s lvl, generateImprovements_fixes_len s, ?_, ?_, ?_⟩
  · obtain ⟨x, hx⟩ := analyzeResume_score_run s
    rw [hx, imax_eq, imin_eq]
    have hmin : min 10 (jsCeil (qdiv x (qOfNat 10))) ≤ 10 := min_le_left _ _
    have hup : max 1 (min 10 (jsCeil (qdiv x (qOfNat 10)))) ≤ 10 := max_le (by norm_num) hmin
    have hlo : (1 : ℤ) ≤ max 1 (min 10 (jsCeil (qdiv x (qOfNat 10)))) := le_max_left _ _
    exact ⟨by linarith, by linarith⟩
  · rw [generateImprovements_bullets_run s]
    exact generateBulletRewrites_length_le _ _
  · obtain ⟨a, b, c, d, rest, ha⟩ := generateImprovements_atsTips_run s
    rw [ha]
    simp only [List.length_cons]
    omega
  · intro hws
    have hclean := cleanText_all_ws s hws
    obtain ⟨hw, hbu, hm, hli⟩ := analyzeResume_detected_run s
    rw [hw, hbu, hm, hli, hclean]
    refine ⟨by decide, by decide, by decide, by decide⟩

/-- Witness for C8 at an all-whitespace input. -/
theorem claimC8_witness :
    (str " \n\t").all isWSChar = true ∧
    ((analyzeResume (str " \n\t")).detected.wordCount = 0 ∧
     (analyzeResume (str " \n\t")).detected.bulletCount = 0 ∧
     (analyzeResume (str " \n\t")).detected.metricCount = 0 ∧
     (analyzeResume (str " \n\t")).detected.linkCount = 0) :=
  ⟨by decide,
   (claimC8_totality (str " \n\t") RoastLevel.light).2.2.2.2.2.2.2.2.2.2.2 (by decide)⟩

theorem set_perm_cons : ∀ (t : List α) (k : Nat) (a b : α), t.get? k = some b →
    List.Perm (b :: t.set k a) (a :: t)
  | c :: t', 0, a, b, h => by
    injection h with h
    subst h
    exact List.Perm.swap _ _ _
  | c :: t', k + 1, a, b, h => by
    have h1 : List.Perm (b :: c :: t'.set k a) (c :: b :: t'.set k a) := List.Perm.swap _ _ _
    have h2 : List.Perm (c :: b :: t'.set k a) (c :: a :: t') :=
      (set_perm_cons t' k a b h).cons c
    have h3 : List.Perm (c :: a :: t') (a :: c :: t') := List.Perm.swap _ _ _
    exact (h1.trans h2).trans h3

theorem set_set_perm : ∀ (l : List α) (i j : Nat) (a b : α),
    l.get? i = some a → l.get? j = some b → List.Perm ((l.set i b).set j a) l
  | [], i, _, _, _, hi, _ => by simp at hi
  | c :: r, 0, 0, a, b, hi, hj => by
    injection hi with hi
    injection hj with hj
    subst hi
    subst hj
    exact List.Perm.refl _
  | c :: r, 0, j + 1, a, b, hi, hj => by
    injection hi with hi
    subst hi
    exact set_perm_cons r j _ _ hj
  | c :: r, i + 1, 0, a, b, hi, hj => by
    injection hj with hj
    subst hj
    exact set_perm_cons r i _ _ hi
  | c :: r, i + 1, j + 1, a, b, hi, hj =>
    (set_set_perm r i j a b hi hj).cons c

theorem lswap_perm (l : List α) (i j : Nat) : List.Perm (lswap l i j) l := by
  rw [lswap]
  split
  · rename_i a b hi hj
    exact set_set_perm l i j a b hi hj
  · exact List.Perm.refl l

theorem shuffleGo_perm : ∀ (l : List α) (s n : Nat), List.Perm (shuffleGo l s n) l
  | _, _, 0 => List.Perm.refl _
  | l, s, n + 1 => by
    rw [shuffleGo]
    exact (shuffleGo_perm _ _ n).trans (lswap_perm l _ _)

theorem seededShuffle_perm (l : List α) (seed : Nat) :
    List.Perm (seededShuffle l seed) l := shuffleGo_perm l seed (l.length - 1)

theorem seededPick_mem (l : List α) (s : Nat) (d : α) (h : l ≠ []) : seededPick l s d ∈ l := by
  rw [seededPick]
  have hidx : lcgStep s % l.length < l.length := Nat.mod_lt _ (List.length_pos.mpr h)
  rw [List.getD_eq_getElem?_getD, List.getElem?_eq_getElem hidx]
  exact List.getElem_mem hidx

theorem phase2_mem_mono (ctx : RoastContext) (seed : Nat) :
    ∀ (ts : List RoastTemplate) (lines used : List Str) (x : Str),
      x ∈ lines → x ∈ (phase2 ctx seed ts lines used).1
  | [], _, _, _, hx => hx
  | t :: ts, lines, used, x, hx => by
    rw [phase2]
    split
    · exact hx
    · split
      · exact phase2_mem_mono ctx seed ts lines used x hx
      · exact phase2_mem_mono ctx seed ts _ _ x (List.mem_append_left _ hx)

theorem phase3_mem_mono (ctx : RoastContext) (seed : Nat) (tr : List RoastTemplate) :
    ∀ (fuel : Nat) (lines : List Str) (x : Str),
      x ∈ lines → x ∈ phase3 ctx seed tr fuel lines
  | 0, _, _, hx => hx
  | fuel + 1, lines, x, hx => by
    rw [phase3]
    split
    · dsimp only
      split
      · exact hx
      · exact phase3_mem_mono ctx seed tr fuel _ x (List.mem_append_left _ hx)
    · exact hx

theorem phase4_mem_mono (ctx : RoastContext) (seed : Nat) :
    ∀ (ts : List RoastTemplate) (i : Nat) (lines : List Str) (x : Str),
      x ∈ lines → x ∈ phase4 ctx seed i ts lines
  | [], _, _, _, hx => hx
  | t :: ts, i, lines, x, hx => by
    rw [phase4]
    split
    · exact hx
    · exact phase4_mem_mono ctx seed ts (i + 1) _ x (List.mem_append_left _ hx)

theorem numFresh_pos : ∀ (ts : List RoastTemplate) (used : List Str),
    (∃ t ∈ ts, t.category ∉ used) → 1 ≤ numFresh ts used
  | [], _, ⟨t, ht, _⟩ => absurd ht (List.not_mem_nil t)
  | t0 :: ts, used, ⟨t, ht, hcu⟩ => by
    rw [numFresh]
    by_cases h0 : t0.category ∈ used
    · rw [if_pos h0]
      apply numFresh_pos ts used
      cases List.mem_cons.mp ht with
      | inl h => exact absurd h0 (h ▸ hcu)
      | inr h => exact ⟨t, h, hcu⟩
    · rw [if_neg h0]
      omega

theorem numFresh_le : ∀ (ts : List RoastTemplate) (used cats : List Str),
    (∀ t ∈ ts, t.category ∈ cats) →
    numFresh ts used ≤ (cats.filter (fun c => c ∉ used)).length
  | [], _, _, _ => Nat.zero_le _
  | t0 :: ts, used, cats, hsub => by
    rw [numFresh]
    by_cases h0 : t0.category ∈ used
    · rw [if_pos h0]
      exact numFresh_le ts used cats (fun t ht => hsub t (List.mem_cons_of_mem _ ht))
    · rw [if_neg h0]
      have h1 : numFresh ts (t0.category :: used) ≤
          (cats.filter (fun c => c ∉ t0.category :: used)).length :=
        numFresh_le ts _ cats (fun t ht => hsub t (List.mem_cons_of_mem _ ht))
      have hA : cats.filter (fun c => c ∉ t0.category :: used) =
          (cats.filter (fun c => c ∉ used)).filter (fun c => c ≠ t0.category) := by
        rw [List.filter_filter]
        apply List.filter_congr
        intro c _
        simp [List.mem_cons, not_or, And.comm]
      have hB : t0.category ∈ cats.filter (fun c => c ∉ used) :=
        List.mem_filter.mpr ⟨hsub t0 (List.mem_cons_self _ _), decide_eq_true h0⟩
      have hC : ((cats.filter (fun c => c ∉ used)).filter
            (fun c => c ≠ t0.category)).length < (cats.filter (fun c => c ∉ used)).length :=
        List.length_filter_lt_length_iff_exists.mpr ⟨t0.category, hB, by simp⟩
      rw [hA] at h1
      omega

theorem phase2_covers (ctx : RoastContext) (seed : Nat) :
    ∀ (ts : List RoastTemplate) (lines used : List Str) (c : Str),
      (∃ t ∈ ts, t.category = c) → c ∉ used →
      lines.length + numFresh ts used ≤ 12 →
      ∃ t' ∈ ts, t'.category = c ∧ ∃ n,
        replacePlaceholders (seededPick t'.lines (seed + n * 13) []) ctx (seed + n)
          ∈ (phase2 ctx seed ts lines used).1
  | [], _, _, _, ⟨t, ht, _⟩, _, _ => absurd ht (List.not_mem_nil t)
  | t0 :: ts, lines, used, c, ⟨t, ht, hc⟩, hcu, hbound => by
    rw [phase2]
    by_cases h12 : 12 ≤ lines.length
    · exfalso
      have h1 : 1 ≤ numFresh (t0 :: ts) used :=
        numFresh_pos _ _ ⟨t, ht, fun hh => hcu (hc ▸ hh)⟩
      omega
    · rw [if_neg h12]
      by_cases hused : t0.category ∈ used
      · rw [if_pos hused]
        have ht' : t ∈ ts := by
          cases List.mem_cons.mp ht with
          | inl h =>
            subst h
            rw [hc] at hused
            exact absurd hused hcu
          | inr h => exact h
        have hnf : numFresh (t0 :: ts) used = numFresh ts used := by
          rw [numFresh, if_pos hused]
        obtain ⟨t', ht'', hc', n, hmem⟩ :=
          phase2_covers ctx seed ts lines used c ⟨t, ht', hc⟩ hcu (by omega)
        exact ⟨t', List.mem_cons_of_mem t0 ht'', hc', n, hmem⟩
      · rw [if_neg hused]
        by_cases hc0 : t0.category = c
        · refine ⟨t0, List.mem_cons_self _ _, hc0, lines.length, ?_⟩
          apply phase2_mem_mono
          exact List.mem_append.mpr (Or.inr (List.mem_singleton_self _))
        · have ht' : t ∈ ts := by
            cases List.mem_cons.mp ht with
            | inl h => exact absurd (h ▸ hc) hc0
            | inr h => exact h
          have hnf : numFresh (t0 :: ts) used = 1 + numFresh ts (t0.category :: used) := by
            rw [numFresh, if_neg hused]
          have hcu' : c ∉ t0.category :: used := by
            rw [List.mem_cons]
            rintro (h | h)
            · exact hc0 h.symm
            · exact hcu h
          obtain ⟨t', ht'', hc', n, hmem⟩ :=
            phase2_covers ctx seed ts
              (lines ++ [replacePlaceholders
                (seededPick t0.lines (seed + lines.length * 13) []) ctx
                (seed + lines.length)])
              (t0.category :: used) c ⟨t, ht', hc⟩ hcu'
              (by rw [List.length_append]; simp only [List.length_singleton]; omega)
          exact ⟨t', List.mem_cons_of_mem t0 ht'', hc', n, hmem⟩

theorem TEMPLATES_cats : ∀ t ∈ TEMPLATES,
    t.category ∈ triggerCats ++ [str "overall", str "finisher"] := by decide

theorem TEMPLATES_noMetrics_lines : ∀ t ∈ TEMPLATES,
    t.category = str "no_metrics" → t.lines ≠ [] := by decide

theorem noMetricsTemplate : ∃ t, t ∈ TEMPLATES ∧ t.minLevel = RoastLevel.light ∧
    (∀ c : RoastContext, t.trigger c = decide (c.metricCount = 0)) ∧
    t.category = str "no_metrics" :=
  ⟨_, List.mem_cons_of_mem _ (List.mem_cons_of_mem _ (List.mem_cons_of_mem _
    (List.mem_cons_self _ _))), rfl, fun _ => rfl, rfl⟩

/-- C4: for every text with zero percentage/dollar/multiplier metric-pattern
matches (and zero impact-verb-plus-number phrases) and every intensity level,
the roast lines contain at least one line built from a `no_metrics`-category
template: the light `no_metrics` template is always eligible, phase 2's
12-line cap can never fire before every fresh category is consumed (at most
2 + 10 lines), and later phases only append. -/
theorem claimC4_no_metrics_triggered (text : Str) (lvl : RoastLevel)
    (hm : simpleMetricCount text = 0)
    (him : countM impactPhrasePattern text = 0) :
    ∃ line ∈ (generateRoast text lvl).roastLines,
      ∃ tp ∈ TEMPLATES, tp.category = str "no_metrics" ∧
        ∃ raw ∈ tp.lines, ∃ k, line = replacePlaceholders raw (buildContext text) k := by
  obtain ⟨ctx, seed, eligible, hctx, hseed, helig, hrun⟩ := generateRoast_roastLines_run text lvl
  have hmc : ctx.metricCount = 0 := by
    rw [hctx]
    show simpleMetricCount text = 0
    exact hm
  obtain ⟨t, htT, hltmin, htrig, hcat⟩ := noMetricsTemplate
  have h_in_elig : t ∈ eligible := by
    rw [helig]
    refine List.mem_filter.mpr ⟨htT, ?_⟩
    rw [htrig ctx, hmc, hltmin]
    simp [levelOrder]
  have h_in_trig : t ∈ eligible.filter
      (fun u => u.category ≠ str "overall" ∧ u.category ≠ str "finisher") := by
    refine List.mem_filter.mpr ⟨h_in_elig, ?_⟩
    rw [hcat]
    decide
  have h_in_sh : t ∈ seededShuffle (eligible.filter
      (fun u => u.category ≠ str "overall" ∧ u.category ≠ str "finisher")) (seed + 100) :=
    (seededShuffle_perm _ _).mem_iff.mpr h_in_trig
  have hsub : ∀ u ∈ seededShuffle (eligible.filter
      (fun u => u.category ≠ str "overall" ∧ u.category ≠ str "finisher")) (seed + 100),
      u.category ∈ triggerCats := by
    intro u hu
    have hu1 := (seededShuffle_perm _ _).mem_iff.mp hu
    obtain ⟨hu2, hu3⟩ := List.mem_filter.mp hu1
    have hu4 : u ∈ TEMPLATES := by
      rw [helig] at hu2
      exact List.mem_of_mem_filter hu2
    have hu5 := TEMPLATES_cats u hu4
    obtain ⟨hne1, hne2⟩ := of_decide_eq_true hu3
    rcases List.mem_append.mp hu5 with h | h
    · exact h
    · rcases List.mem_cons.mp h with h' | h'
      · exact absurd h' hne1
      · rcases List.mem_cons.mp h' with h'' | h''
        · exact absurd h'' hne2
        · exact absurd h'' (List.not_mem_nil _)
  have hnf : numFresh (seededShuffle (eligible.filter
        (fun u => u.category ≠ str "overall" ∧ u.category ≠ str "finisher")) (seed + 100))
        [] ≤ 10 := by
    have h := numFresh_le _ ([] : List Str) triggerCats hsub
    have h10 : (triggerCats.filter (fun c => c ∉ ([] : List Str))).length = 10 := by decide
    omega
  have hl1 : (phase1 ctx seed (seededShuffle
      (eligible.filter (fun u => u.category = str "overall")) seed)).length ≤ 2 := by
    rw [phase1_length]
    exact min_le_left _ _
  obtain ⟨t', ht'sh, hc', n, hmem⟩ :=
    phase2_covers ctx seed
      (seededShuffle (eligible.filter
        (fun u => u.category ≠ str "overall" ∧ u.category ≠ str "finisher")) (seed + 100))
      (phase1 ctx seed (seededShuffle
        (eligible.filter (fun u => u.category = str "overall")) seed))
      [] (str "no_metrics") ⟨t, h_in_sh, hcat⟩ (List.not_mem_nil _) (by omega)
  have ht'T : t' ∈ TEMPLATES := by
    have h1 := (seededShuffle_perm _ _).mem_iff.mp ht'sh
    have h2 := List.mem_of_mem_filter h1
    rw [helig] at h2
    exact List.mem_of_mem_filter h2
  have hlines : t'.lines ≠ [] := TEMPLATES_noMetrics_lines t' ht'T hc'
  refine ⟨replacePlaceholders (seededPick t'.lines (seed + n * 13) []) ctx (seed + n),
    ?_, t', ht'T, hc', seededPick t'.lines (seed + n * 13) [], seededPick_mem _ _ _ hlines,
    seed + n, by rw [hctx]⟩
  rw [hrun]
  apply phase4_mem_mono
  apply phase3_mem_mono
  exact hmem

/-- Witness for C4 at the empty text with the spicy level. -/
theorem claimC4_witness :
    simpleMetricCount [] = 0 ∧ countM impactPhrasePattern [] = 0 ∧
    ∃ line ∈ (generateRoast [] RoastLevel.spicy).roastLines,
      ∃ tp ∈ TEMPLATES, tp.category = str "no_metrics" ∧
        ∃ raw ∈ tp.lines, ∃ k, line = replacePlaceholders raw (buildContext []) k :=
  ⟨by decide, by decide,
   claimC4_no_metrics_triggered [] RoastLevel.spicy (by decide) (by decide)⟩

theorem replCRLF_cons_cons_ne (c d : Char) (r : Str) (hp : ¬(c = '\r' ∧ d = '\n')) :
    replCRLF (c :: d :: r) = c :: replCRLF (d :: r) := by
  conv_lhs => rw [replCRLF.eq_def]
  split
  · rename_i heq
    rw [List.cons.injEq, List.cons.injEq] at heq
    exact absurd ⟨heq.1, heq.2.1⟩ hp
  · rename_i heq
    injection heq with h1 h2
    subst h1
    subst h2
    rfl
  · rename_i heq
    cases heq

theorem replCRLF_singleton (c : Char) : replCRLF [c] = [c] := by
  by_cases hc : c = '\r'
  · subst hc
    rfl
  · rw [replCRLF_cons_ne hc]
    rfl

theorem replCRLF_length_le : ∀ l : Str, (replCRLF l).length ≤ l.length
  | [] => le_refl _
  | [c] => by rw [replCRLF_singleton]
  | c :: d :: r => by
    by_cases hp : c = '\r' ∧ d = '\n'
    · obtain ⟨rfl, rfl⟩ := hp
      have he : replCRLF ('\r' :: '\n' :: r) = '\n' :: replCRLF r := rfl
      rw [he]
      simp only [List.length_cons]
      have := replCRLF_length_le r
      omega
    · rw [replCRLF_cons_cons_ne c d r hp]
      simp only [List.length_cons]
      have := replCRLF_length_le (d :: r)
      simp only [List.length_cons] at this
      omega

theorem replCRLF_eq_of_length : ∀ l : Str, (replCRLF l).length = l.length → replCRLF l = l
  | [], _ => rfl
  | [c], _ => replCRLF_singleton c
  | c :: d :: r, h => by
    by_cases hp : c = '\r' ∧ d = '\n'
    · obtain ⟨rfl, rfl⟩ := hp
      exfalso
      have he : replCRLF ('\r' :: '\n' :: r) = '\n' :: replCRLF r := rfl
      rw [he] at h
      simp only [List.length_cons] at h
      have := replCRLF_length_le r
      omega
    · rw [replCRLF_cons_cons_ne c d r hp] at h ⊢
      simp only [List.length_cons] at h
      rw [replCRLF_eq_of_length (d :: r) (by simp only [List.length_cons]; omega)]

theorem collapseSpAux_cons_ne {c : Char} (hc : c ≠ ' ') (r : Str) (n : Nat) :
    collapseSpAux n (c :: r) = emitSp n ++ c :: collapseSpAux 0 r := by
  conv_lhs => rw [collapseSpAux.eq_def]
  split
  · rename_i heq
    cases heq
  · rename_i heq
    rw [List.cons.injEq] at heq
    exact absurd heq.1 hc
  · rename_i heq
    injection heq with h1 h2
    subst h1
    subst h2
    rfl

theorem collapseSpAux_length_le : ∀ (l : Str) (n : Nat),
    (collapseSpAux n l).length ≤ min n 2 + l.length
  | [], n => by
    rw [show collapseSpAux n [] = emitSp n from rfl]
    unfold emitSp
    split
    · simp only [List.length_cons, List.length_nil]
      omega
    · simp only [List.length_replicate]
      omega
  | ' ' :: r, n => by
    rw [show collapseSpAux n (' ' :: r) = collapseSpAux (n + 1) r from rfl]
    have := collapseSpAux_length_le r (n + 1)
    simp only [List.length_cons]
    omega
  | c :: r, n => by
    by_cases hc : c = ' '
    · subst hc
      rw [show collapseSpAux n (' ' :: r) = collapseSpAux (n + 1) r from rfl]
      have := collapseSpAux_length_le r (n + 1)
      simp only [List.length_cons]
      omega
    · rw [collapseSpAux_cons_ne hc r n]
      have h1 := collapseSpAux_length_le r 0
      have h2 : (emitSp n).length ≤ min n 2 := by
        unfold emitSp
        split
        · simp only [List.length_cons, List.length_nil]
          omega
        · simp only [List.length_replicate]
          omega
      simp only [List.length_append, List.length_cons]
      omega

theorem collapseNLAux_length_le : ∀ (l : Str) (n : Nat),
    (collapseNLAux n l).length ≤ min n 3 + l.length
  | [], n => by
    rw [show collapseNLAux n [] = emitNL n from rfl]
    unfold emitNL
    split
    · simp only [List.length_cons, List.length_nil]
      omega
    · simp only [List.length_replicate]
      omega
  | '\n' :: r, n => by
    rw [show collapseNLAux n ('\n' :: r) = collapseNLAux (n + 1) r from rfl]
    have := collapseNLAux_length_le r (n + 1)
    simp only [List.length_cons]
    omega
  | c :: r, n => by
    by_cases hc : c = '\n'
    · subst hc
      rw [show collapseNLAux n ('\n' :: r) = collapseNLAux (n + 1) r from rfl]
      have := collapseNLAux_length_le r (n + 1)
      simp only [List.length_cons]
      omega
    · rw [collapseNLAux_cons_ne hc r n]
      have h1 := collapseNLAux_length_le r 0
      have h2 : (emitNL n).length ≤ min n 3 := by
        unfold emitNL
        split
        · simp only [List.length_cons, List.length_nil]
          omega
        · simp only [List.length_replicate]
          omega
      simp only [List.length_append, List.length_cons]
      omega

theorem trimR_length_le : ∀ l : Str, (trimR l).length ≤ l.length
  | [] => le_refl _
  | c :: r => by
    rw [trimR_cons_eq]
    split
    · simp only [List.length_nil, List.length_cons]
      omega
    · simp only [List.length_cons]
      have := trimR_length_le r
      omega

theorem replTab_id (l : Str) (h : noTabs l = true) : replTab l = l := by
  rw [replTab]
  conv_rhs => rw [show l = l.map id from (List.map_id l).symm]
  apply List.map_congr_left
  intro c hc
  have := List.all_eq_true.mp h c hc
  simp only [decide_eq_true_eq] at this
  simp [this]

theorem collapseSpAux_id : ∀ (l : Str) (n : Nat), n < 3 →
    noRunAux ' ' 3 l n = true → collapseSpAux n l = List.replicate n ' ' ++ l
  | [], n, hn, _ => by
    rw [show collapseSpAux n [] = emitSp n from rfl]
    unfold emitSp
    rw [if_neg (by omega)]
    rw [List.append_nil]
  | ' ' :: r, n, hn, h => by
    rw [show collapseSpAux n (' ' :: r) = collapseSpAux (n + 1) r from rfl]
    rw [noRunAux_cons_self, Bool.and_eq_true] at h
    have h1 : n + 1 < 3 := by
      have := h.1
      simp only [decide_eq_true_eq] at this
      omega
    rw [collapseSpAux_id r (n + 1) h1 h.2]
    rw [List.replicate_succ' n ' ']
    simp only [List.append_assoc, List.cons_append, List.nil_append]
  | c :: r, n, hn, h => by
    by_cases hc : c = ' '
    · subst hc
      rw [show collapseSpAux n (' ' :: r) = collapseSpAux (n + 1) r from rfl]
      rw [noRunAux_cons_self, Bool.and_eq_true] at h
      have h1 : n + 1 < 3 := by
        have := h.1
        simp only [decide_eq_true_eq] at this
        omega
      rw [collapseSpAux_id r (n + 1) h1 h.2]
      rw [List.replicate_succ' n ' ']
      simp only [List.append_assoc, List.cons_append, List.nil_append]
    · rw [collapseSpAux_cons_ne hc r n]
      rw [noRunAux_cons_ne hc] at h
      rw [collapseSpAux_id r 0 (by omega) h]
      unfold emitSp
      rw [if_neg (by omega)]
      rfl

theorem collapseNLAux_id : ∀ (l : Str) (n : Nat), n < 4 →
    noRunAux '\n' 4 l n = true → collapseNLAux n l = List.replicate n '\n' ++ l
  | [], n, hn, _ => by
    rw [show collapseNLAux n [] = emitNL n from rfl]
    unfold emitNL
    rw [if_neg (by omega)]
    rw [List.append_nil]
  | '\n' :: r, n, hn, h => by
    rw [show collapseNLAux n ('\n' :: r) = collapseNLAux (n + 1) r from rfl]
    rw [noRunAux_cons_self, Bool.and_eq_true] at h
    have h1 : n + 1 < 4 := by
      have := h.1
      simp only [decide_eq_true_eq] at this
      omega
    rw [collapseNLAux_id r (n + 1) h1 h.2]
    rw [List.replicate_succ' n '\n']
    simp only [List.append_assoc, List.cons_append, List.nil_append]
  | c :: r, n, hn, h => by
    by_cases hc : c = '\n'
    · subst hc
      rw [show collapseNLAux n ('\n' :: r) = collapseNLAux (n + 1) r from rfl]
      rw [noRunAux_cons_self, Bool.and_eq_true] at h
      have h1 : n + 1 < 4 := by
        have := h.1
        simp only [decide_eq_true_eq] at this
        omega
      rw [collapseNLAux_id r (n + 1) h1 h.2]
      rw [List.replicate_succ' n '\n']
      simp only [List.append_assoc, List.cons_append, List.nil_append]
    · rw [collapseNLAux_cons_ne hc r n]
      rw [noRunAux_cons_ne hc] at h
      rw [collapseNLAux_id r 0 (by omega) h]
      unfold emitNL
      rw [if_neg (by omega)]
      rfl

theorem cleanText_length_le (l : Str) : (cleanText l).length ≤ l.length := by
  rw [cleanText, jsTrim]
  have h1 := trimR_length_le (trimL (collapseNewlines (collapseSpaces (replTab (replCRLF l)))))
  have h2 : (trimL (collapseNewlines (collapseSpaces (replTab (replCRLF l))))).length ≤
      (collapseNewlines (collapseSpaces (replTab (replCRLF l)))).length :=
    (List.dropWhile_sublist (p := isWSChar)).length_le
  have h3 := collapseNLAux_length_le (collapseSpaces (replTab (replCRLF l))) 0
  have h4 := collapseSpAux_length_le (replTab (replCRLF l)) 0
  have h5 : (replTab (replCRLF l)).length = (replCRLF l).length := List.length_map _ _
  have h6 := replCRLF_length_le l
  rw [collapseNewlines] at *
  rw [collapseSpaces] at *
  omega

theorem clean_fix_replCRLF (l : Str) (h : cleanText l = l) : replCRLF l = l := by
  apply replCRLF_eq_of_length
  have h0 : (cleanText l).length = l.length := by rw [h]
  rw [cleanText, jsTrim] at h0
  have h1 := trimR_length_le (trimL (collapseNewlines (collapseSpaces (replTab (replCRLF l)))))
  have h2 : (trimL (collapseNewlines (collapseSpaces (replTab (replCRLF l))))).length ≤
      (collapseNewlines (collapseSpaces (replTab (replCRLF l)))).length :=
    (List.dropWhile_sublist (p := isWSChar)).length_le
  have h3 := collapseNLAux_length_le (collapseSpaces (replTab (replCRLF l))) 0
  have h4 := collapseSpAux_length_le (replTab (replCRLF l)) 0
  have h5 : (replTab (replCRLF l)).length = (replCRLF l).length := List.length_map _ _
  have h6 := replCRLF_length_le l
  rw [collapseNewlines] at *
  rw [collapseSpaces] at *
  omega

theorem trimL_fix_of_jsTrim (l : Str) (h : jsTrim l = l) : trimL l = l := by
  obtain ⟨w, hw, _⟩ := trimR_decomp (trimL l)
  rw [show trimR (trimL l) = jsTrim l from rfl, h] at hw
  have hlen : (trimL l).length ≤ l.length :=
    (List.dropWhile_sublist (p := isWSChar)).length_le
  have hlen2 : (trimL l).length = l.length + w.length := by
    rw [hw, List.length_append]
  have hw0 : w.length = 0 := by omega
  rw [List.length_eq_zero] at hw0
  rw [hw, hw0, List.append_nil]

theorem trimR_fix_of_jsTrim (l : Str) (h : jsTrim l = l) : trimR l = l := by
  have h1 := trimL_fix_of_jsTrim l h
  rw [jsTrim, h1] at h
  exact h

theorem trimL_fix_head (l : Str) (h : trimL l = l) (hne : l ≠ []) :
    ∃ c r, l = c :: r ∧ isWSChar c = false := by
  cases l with
  | nil => exact absurd rfl hne
  | cons c r =>
    refine ⟨c, r, rfl, ?_⟩
    by_contra hc
    rw [Bool.not_eq_false] at hc
    rw [trimL, List.dropWhile_cons, if_pos hc] at h
    have : (List.dropWhile isWSChar r).length ≤ r.length :=
      (List.dropWhile_sublist (p := isWSChar)).length_le
    have := congrArg List.length h
    simp only [List.length_cons] at this
    omega

theorem trimR_fix_last : ∀ l : Str, trimR l = l → l ≠ [] →
    ∃ c, l.getLast? = some c ∧ isWSChar c = false
  | [], _, hne => absurd rfl hne
  | [c], h, _ => by
    refine ⟨c, rfl, ?_⟩
    rw [trimR_cons_eq] at h
    by_contra hc
    rw [Bool.not_eq_false] at hc
    rw [if_pos (by rw [show trimR ([] : Str) = [] from rfl]; simp [hc])] at h
    cases h
  | c :: d :: r, h, _ => by
    rw [trimR_cons_eq] at h
    split at h
    · cases h
    · have htail : trimR (d :: r) = d :: r := by
        injection h
      obtain ⟨e, he, hws⟩ := trimR_fix_last (d :: r) htail (List.cons_ne_nil _ _)
      exact ⟨e, by rw [List.getLast?_cons_cons]; exact he, hws⟩

theorem replCRLF_append_last : ∀ (X Y : Str) (c : Char), X.getLast? = some c → c ≠ '\r' →
    replCRLF (X ++ Y) = replCRLF X ++ replCRLF Y
  | [], _, _, hlast, _ => by cases hlast
  | [a], Y, c, hlast, hc => by
    have ha : a = c := by
      injection hlast
    subst ha
    rw [List.singleton_append, replCRLF_cons_ne hc, replCRLF_singleton]
    rfl
  | a :: b :: X', Y, c, hlast, hc => by
    have htail : (b :: X').getLast? = some c := by
      rw [List.getLast?_cons_cons] at hlast
      exact hlast
    by_cases hp : a = '\r' ∧ b = '\n'
    · obtain ⟨rfl, rfl⟩ := hp
      have he1 : replCRLF ('\r' :: '\n' :: (X' ++ Y)) = '\n' :: replCRLF (X' ++ Y) := rfl
      have he2 : replCRLF ('\r' :: '\n' :: X') = '\n' :: replCRLF X' := rfl
      rw [List.cons_append, List.cons_append, he1, he2, List.cons_append]
      congr 1
      cases X' with
      | nil =>
        rw [List.nil_append, show replCRLF ([] : Str) = [] from rfl, List.nil_append]
      | cons x xr =>
        have hlast' : (x :: xr).getLast? = some c := by
          rw [List.getLast?_cons_cons] at htail
          exact htail
        exact replCRLF_append_last (x :: xr) Y c hlast' hc
    · rw [List.cons_append, List.cons_append, replCRLF_cons_cons_ne a b _ hp,
        replCRLF_cons_cons_ne a b X' hp, List.cons_append]
      congr 1
      rw [show b :: (X' ++ Y) = (b :: X') ++ Y from rfl]
      exact replCRLF_append_last (b :: X') Y c htail hc

theorem collapseSpAux_flush {c : Char} (hc : c ≠ ' ') :
    ∀ (X : Str) (n : Nat) (Y : Str),
      collapseSpAux n (X ++ c :: Y) = collapseSpAux n X ++ c :: collapseSpAux 0 Y
  | [], n, Y => by
    rw [List.nil_append, collapseSpAux_cons_ne hc Y n,
      show collapseSpAux n [] = emitSp n from rfl]
  | ' ' :: X', n, Y => by
    rw [List.cons_append,
      show collapseSpAux n (' ' :: (X' ++ c :: Y)) = collapseSpAux (n + 1) (X' ++ c :: Y)
        from rfl,
      show collapseSpAux n (' ' :: X') = collapseSpAux (n + 1) X' from rfl]
    exact collapseSpAux_flush hc X' (n + 1) Y
  | d :: X', n, Y => by
    by_cases hd : d = ' '
    · subst hd
      rw [List.cons_append,
        show collapseSpAux n (' ' :: (X' ++ c :: Y)) = collapseSpAux (n + 1) (X' ++ c :: Y)
          from rfl,
        show collapseSpAux n (' ' :: X') = collapseSpAux (n + 1) X' from rfl]
      exact collapseSpAux_flush hc X' (n + 1) Y
    · rw [List.cons_append, collapseSpAux_cons_ne hd _ n, collapseSpAux_cons_ne hd X' n,
        collapseSpAux_flush hc X' 0 Y]
      simp only [List.append_assoc, List.cons_append]

theorem collapseNLAux_flush {c : Char} (hc : c ≠ '\n') :
    ∀ (X : Str) (n : Nat) (Y : Str),
      collapseNLAux n (X ++ c :: Y) = collapseNLAux n X ++ c :: collapseNLAux 0 Y
  | [], n, Y => by
    rw [List.nil_append, collapseNLAux_cons_ne hc Y n,
      show collapseNLAux n [] = emitNL n from rfl]
  | '\n' :: X', n, Y => by
    rw [List.cons_append,
      show collapseNLAux n ('\n' :: (X' ++ c :: Y)) = collapseNLAux (n + 1) (X' ++ c :: Y)
        from rfl,
      show collapseNLAux n ('\n' :: X') = collapseNLAux (n + 1) X' from rfl]
    exact collapseNLAux_flush hc X' (n + 1) Y
  | d :: X', n, Y => by
    by_cases hd : d = '\n'
    · subst hd
      rw [List.cons_append,
        show collapseNLAux n ('\n' :: (X' ++ c :: Y)) = collapseNLAux (n + 1) (X' ++ c :: Y)
          from rfl,
        show collapseNLAux n ('\n' :: X') = collapseNLAux (n + 1) X' from rfl]
      exact collapseNLAux_flush hc X' (n + 1) Y
    · rw [List.cons_append, collapseNLAux_cons_ne hd _ n, collapseNLAux_cons_ne hd X' n,
        collapseNLAux_flush hc X' 0 Y]
      simp only [List.append_assoc, List.cons_append]

theorem noRunAux_append_end {ch : Char} {cap : Nat} (hcap : 1 < cap) :
    ∀ (l : Str) (k : Nat) (c : Char), noRunAux ch cap l k = true →
      l.getLast? = some c → c ≠ ch → noRunAux ch cap (l ++ [ch]) k = true
  | [], _, _, _, hlast, _ => by cases hlast
  | [d], k, c, h, hlast, hc => by
    have hd : d = c := by injection hlast
    subst hd
    rw [List.singleton_append, noRunAux_cons_ne hc, noRunAux_cons_self,
      Bool.and_eq_true]
    exact ⟨by simp only [decide_eq_true_eq]; omega, rfl⟩
  | d :: e :: r, k, c, h, hlast, hc => by
    have htail : (e :: r).getLast? = some c := by
      rw [List.getLast?_cons_cons] at hlast
      exact hlast
    by_cases hd : d = ch
    · subst hd
      rw [List.cons_append]
      rw [noRunAux_cons_self, Bool.and_eq_true] at h ⊢
      exact ⟨h.1, noRunAux_append_end hcap (e :: r) _ c h.2 htail hc⟩
    · rw [List.cons_append, noRunAux_cons_ne hd]
      rw [noRunAux_cons_ne hd] at h
      exact noRunAux_append_end hcap (e :: r) 0 c h htail hc

theorem trimR_append_ne : ∀ (X Y : Str), trimR Y ≠ [] → trimR (X ++ Y) = X ++ trimR Y
  | [], Y, _ => by rw [List.nil_append, List.nil_append]
  | x :: X', Y, hY => by
    rw [List.cons_append, trimR_cons_eq, trimR_append_ne X' Y hY]
    rw [if_neg]
    · rfl
    · intro hcond
      rw [Bool.and_eq_true, List.isEmpty_iff] at hcond
      exact absurd (List.append_eq_nil.mp hcond.1).2 hY

theorem cleanText_fix_append (R : Str) (hR : cleanText R = R) (hne : R ≠ []) :
    cleanText (R ++ str "\n- increased revenue by 20%") =
      R ++ str "\n- increased revenue by 20%" := by
  have hjs : jsTrim R = R := by
    have := jsTrim_jsTrim (collapseNewlines (collapseSpaces (replTab (replCRLF R))))
    rw [show jsTrim (collapseNewlines (collapseSpaces (replTab (replCRLF R)))) = cleanText R
      from rfl, hR] at this
    exact this
  have htrimL : trimL R = R := trimL_fix_of_jsTrim R hjs
  have htrimR : trimR R = R := trimR_fix_of_jsTrim R hjs
  obtain ⟨cl, hcl, hclws⟩ := trimR_fix_last R htrimR hne
  obtain ⟨ch0, R₀, hhead, hheadws⟩ := trimL_fix_head R htrimL hne
  have hcr : cl ≠ '\r' := by
    intro hh
    rw [hh] at hclws
    cases hclws
  have hcn : cl ≠ '\n' := by
    intro hh
    rw [hh] at hclws
    cases hclws
  have hCRLF : replCRLF R = R := clean_fix_replCRLF R hR
  have hTabs : noTabs R = true := by
    have := noTabs_cleanText R
    rwa [hR] at this
  have hTriSp : noTriSp R = true := by
    have := noTriSp_cleanText R
    rwa [hR] at this
  have hQuadNL : noQuadNL R = true := by
    have := noQuadNL_cleanText R
    rwa [hR] at this
  rw [cleanText]
  have s1 : replCRLF (R ++ str "\n- increased revenue by 20%") =
      R ++ str "\n- increased revenue by 20%" := by
    rw [replCRLF_append_last R _ cl hcl hcr, hCRLF,
      show replCRLF (str "\n- increased revenue by 20%") =
        str "\n- increased revenue by 20%" from (by decide)]
  rw [s1]
  have s2 : replTab (R ++ str "\n- increased revenue by 20%") =
      R ++ str "\n- increased revenue by 20%" := by
    rw [replTab, List.map_append]
    rw [show List.map (fun c => if c = '\t' then ' ' else c) R = replTab R from rfl]
    rw [replTab_id R hTabs,
      show List.map (fun c => if c = '\t' then ' ' else c)
          (str "\n- increased revenue by 20%") =
        str "\n- increased revenue by 20%" from (by decide)]
  rw [s2]
  have s3 : collapseSpaces (R ++ str "\n- increased revenue by 20%") =
      R ++ str "\n- increased revenue by 20%" := by
    rw [show (str "\n- increased revenue by 20%") =
      '\n' :: str "- increased revenue by 20%" from rfl]
    rw [collapseSpaces, collapseSpAux_flush (by decide) R 0 _,
      collapseSpAux_id R 0 (by omega) hTriSp, List.replicate_zero, List.nil_append,
      show collapseSpAux 0 (str "- increased revenue by 20%") =
        str "- increased revenue by 20%" from (by decide)]
  rw [s3]
  have s4 : collapseNewlines (R ++ str "\n- increased revenue by 20%") =
      R ++ str "\n- increased revenue by 20%" := by
    rw [show R ++ str "\n- increased revenue by 20%" =
      (R ++ ['\n']) ++ '-' :: str " increased revenue by 20%" from (by
        rw [List.append_assoc]
        rfl)]
    have hnr : noRunAux '\n' 4 (R ++ ['\n']) 0 = true :=
      noRunAux_append_end (by omega) R 0 cl hQuadNL hcl hcn
    rw [collapseNewlines, collapseNLAux_flush (by decide) (R ++ ['\n']) 0 _,
      collapseNLAux_id (R ++ ['\n']) 0 (by omega) hnr, List.replicate_zero,
      List.nil_append,
      show collapseNLAux 0 (str " increased revenue by 20%") =
        str " increased revenue by 20%" from (by decide),
      List.append_assoc]
  rw [s4]
  have s5L : trimL (R ++ str "\n- increased revenue by 20%") =
      R ++ str "\n- increased revenue by 20%" := by
    rw [hhead, List.cons_append, trimL, List.dropWhile_cons,
      if_neg (by rw [hheadws]; intro hh; cases hh)]
  rw [jsTrim, s5L]
  have s5R : trimR (str "\n- increased revenue by 20%") =
      str "\n- increased revenue by 20%" := by decide
  rw [trimR_append_ne R _ (by rw [s5R]; decide), s5R]

theorem hasPfx_append_right : ∀ (p l Y : Str), hasPfx p l = true → hasPfx p (l ++ Y) = true
  | [], _, _, _ => rfl
  | a :: p', [], _, h => by cases h
  | a :: p', b :: l', Y, h => by
    rw [List.cons_append]
    rw [show hasPfx (a :: p') (b :: l') = (decide (a = b) && hasPfx p' l') from rfl,
      Bool.and_eq_true] at h
    rw [show hasPfx (a :: p') (b :: (l' ++ Y)) = (decide (a = b) && hasPfx p' (l' ++ Y))
      from rfl, Bool.and_eq_true]
    exact ⟨h.1, hasPfx_append_right p' l' Y h.2⟩

theorem hasPfx_length_le : ∀ (p l : Str), hasPfx p l = true → p.length ≤ l.length
  | [], _, _ => Nat.zero_le _
  | a :: p', [], h => by cases h
  | a :: p', b :: l', h => by
    rw [show hasPfx (a :: p') (b :: l') = (decide (a = b) && hasPfx p' l') from rfl,
      Bool.and_eq_true] at h
    simp only [List.length_cons]
    have := hasPfx_length_le p' l' h.2
    omega

theorem wordAtB_append_eq (t Y : Str) (j : Nat) (hj : j ≤ t.length)
    (hY : ∀ c, Y.get? 0 = some c → isWordChar c = false) :
    wordAtB (t ++ Y) j = wordAtB t j := by
  rcases Nat.lt_or_ge j t.length with hlt | hge
  · rw [wordAtB, wordAtB, List.get?_append hlt]
  · have hj' : j = t.length := by omega
    subst hj'
    rw [wordAtB, wordAtB, List.get?_append_right (le_refl _)]
    rw [Nat.sub_self]
    have ht : t.get? t.length = none := List.get?_eq_none.mpr (le_refl _)
    rw [ht]
    cases hY0 : Y.get? 0 with
    | none => rfl
    | some c => exact hY c hY0

theorem wbBoundary_out (t : Str) (j : Nat) (hj : t.length < j) : wbBoundary t j = false := by
  rw [wbBoundary]
  have h1 : wordAtB t j = false := by
    rw [wordAtB, List.get?_eq_none.mpr (by omega)]
  have h2 : j ≠ 0 := by omega
  rw [if_neg h2, h1]
  have h3 : wordAtB t (j - 1) = false := by
    rw [wordAtB, List.get?_eq_none.mpr (by omega)]
  rw [h3]
  rfl

theorem wbBoundary_append_eq (t Y : Str) (j : Nat) (hj : j ≤ t.length)
    (hY : ∀ c, Y.get? 0 = some c → isWordChar c = false) :
    wbBoundary (t ++ Y) j = wbBoundary t j := by
  rw [wbBoundary, wbBoundary, wordAtB_append_eq t Y j hj hY]
  by_cases h0 : j = 0
  · rw [if_pos h0, if_pos h0]
  · rw [if_neg h0, if_neg h0, wordAtB_append_eq t Y (j - 1) (by omega) hY]

theorem wbAt_append (p t Y : Str) (i : Nat)
    (hY : ∀ c, Y.get? 0 = some c → isWordChar c = false)
    (h : wbAt p t i = true) : wbAt p (t ++ Y) i = true := by
  rw [wbAt, Bool.and_eq_true, Bool.and_eq_true] at h
  obtain ⟨⟨h1, h2⟩, h3⟩ := h
  have hi : i ≤ t.length := by
    by_contra hgt
    rw [wbBoundary_out t i (by omega)] at h2
    cases h2
  have hip : i + p.length ≤ t.length := by
    have := hasPfx_length_le p (t.drop i) h1
    rw [List.length_drop] at this
    omega
  rw [wbAt, Bool.and_eq_true, Bool.and_eq_true]
  refine ⟨⟨?_, ?_⟩, ?_⟩
  · rw [List.drop_append_eq_append_drop, Nat.sub_eq_zero_of_le hi, List.drop_zero]
    exact hasPfx_append_right p (t.drop i) Y h1
  · rw [wbBoundary_append_eq t Y i hi hY]
    exact h2
  · rw [wbBoundary_append_eq t Y (i + p.length) hip hY]
    exact h3

theorem wbContains_append (p t Y : Str)
    (hY : ∀ c, Y.get? 0 = some c → isWordChar c = false)
    (h : wbContains p t = true) : wbContains p (t ++ Y) = true := by
  rw [wbContains, List.any_eq_true] at h
  obtain ⟨i, hi, hAt⟩ := h
  rw [wbContains, List.any_eq_true]
  rw [List.mem_range] at hi
  refine ⟨i, List.mem_range.mpr ?_, wbAt_append p t Y i hY hAt⟩
  rw [List.length_append]
  omega

theorem length_filter_mono {α : Type} (p q : α → Bool) : ∀ (l : List α),
    (∀ a ∈ l, p a = true → q a = true) → (l.filter p).length ≤ (l.filter q).length
  | [], _ => le_refl _
  | a :: l, h => by
    have hrec := length_filter_mono p q l (fun b hb => h b (List.mem_cons_of_mem _ hb))
    rw [List.filter_cons, List.filter_cons]
    by_cases hp : p a = true
    · rw [if_pos hp, if_pos (h a (List.mem_cons_self _ _) hp)]
      simp only [List.length_cons]
      omega
    · rw [if_neg hp]
      split
      · simp only [List.length_cons]
        omega
      · exact hrec

theorem detectImpactVerbs_append_mono (t Y : Str)
    (hY : ∀ c, (lowerS Y).get? 0 = some c → isWordChar c = false) :
    (detectImpactVerbs t).length ≤ (detectImpactVerbs (t ++ Y)).length := by
  rw [detectImpactVerbs, detectImpactVerbs]
  apply length_filter_mono
  intro v _ hv
  rw [lowerS, List.map_append]
  exact wbContains_append v (lowerS t) (lowerS Y) hY hv

theorem clamp_mono_of_le {A B : ℚ} (h0 : 0 ≤ A) (h100 : A ≤ 100) (hAB : A ≤ B) :
    max 0 (min 100 A) ≤ max 0 (min 100 B) := by
  have hL : max 0 (min 100 A) = A := by
    rw [min_eq_right h100, max_eq_right h0]
  rw [hL]
  exact le_trans (le_min h100 hAB) (le_max_right _ _)

theorem jsRound_mono {a b : ℚ} (h : a ≤ b) : jsRound a ≤ jsRound b := by
  rw [jsRound_eq, jsRound_eq]
  exact Int.floor_mono (by linarith)

theorem replCRLF_append_nl : ∀ (X Y : Str),
    replCRLF (X ++ '\n' :: Y) = replCRLF (X ++ ['\n']) ++ replCRLF Y
  | [], Y => by
    rw [List.nil_append, List.nil_append,
      replCRLF_cons_ne (show ('\n' : Char) ≠ '\r' from by decide) Y,
      show replCRLF ['\n'] = ['\n'] from rfl]
    rfl
  | [c], Y => by
    by_cases hc : c = '\r'
    · subst hc
      rfl
    · rw [show [c] ++ '\n' :: Y = c :: '\n' :: Y from rfl,
        replCRLF_cons_cons_ne c '\n' Y (fun h => hc h.1),
        replCRLF_cons_ne (show ('\n' : Char) ≠ '\r' from by decide) Y,
        show [c] ++ ['\n'] = c :: '\n' :: ([] : Str) from rfl,
        replCRLF_cons_cons_ne c '\n' [] (fun h => hc h.1)]
      rfl
  | c :: d :: r, Y => by
    by_cases hp : c = '\r' ∧ d = '\n'
    · obtain ⟨rfl, rfl⟩ := hp
      rw [show ('\r' :: '\n' :: r) ++ '\n' :: Y = '\r' :: '\n' :: (r ++ '\n' :: Y) from rfl,
        show replCRLF ('\r' :: '\n' :: (r ++ '\n' :: Y)) = '\n' :: replCRLF (r ++ '\n' :: Y)
          from rfl,
        replCRLF_append_nl r Y,
        show ('\r' :: '\n' :: r) ++ ['\n'] = '\r' :: '\n' :: (r ++ ['\n']) from rfl,
        show replCRLF ('\r' :: '\n' :: (r ++ ['\n'])) = '\n' :: replCRLF (r ++ ['\n'])
          from rfl,
        List.cons_append]
    · rw [show (c :: d :: r) ++ '\n' :: Y = c :: d :: (r ++ '\n' :: Y) from rfl,
        replCRLF_cons_cons_ne c d (r ++ '\n' :: Y) hp,
        show d :: (r ++ '\n' :: Y) = (d :: r) ++ '\n' :: Y from rfl,
        replCRLF_append_nl (d :: r) Y,
        show (c :: d :: r) ++ ['\n'] = c :: d :: (r ++ ['\n']) from rfl,
        replCRLF_cons_cons_ne c d (r ++ ['\n']) hp,
        show d :: (r ++ ['\n']) = (d :: r) ++ ['\n'] from rfl,
        List.cons_append]
      rfl

theorem replCRLF_snoc_nl_cases : ∀ X : Str, ∃ Z T, (T = [] ∨ T = ['\r']) ∧
    replCRLF X = Z ++ T ∧ replCRLF (X ++ ['\n']) = Z ++ ['\n']
  | [] => ⟨[], [], Or.inl rfl, rfl, rfl⟩
  | [c] => by
    by_cases hc : c = '\r'
    · subst hc
      exact ⟨[], ['\r'], Or.inr rfl, rfl, rfl⟩
    · refine ⟨[c], [], Or.inl rfl, by rw [List.append_nil, replCRLF_singleton], ?_⟩
      rw [show [c] ++ ['\n'] = c :: '\n' :: ([] : Str) from rfl,
        replCRLF_cons_cons_ne c '\n' [] (fun h => hc h.1)]
      rfl
  | c :: d :: r => by
    by_cases hp : c = '\r' ∧ d = '\n'
    · obtain ⟨rfl, rfl⟩ := hp
      obtain ⟨Z, T, hT, h1, h2⟩ := replCRLF_snoc_nl_cases r
      refine ⟨'\n' :: Z, T, hT, ?_, ?_⟩
      · rw [show replCRLF ('\r' :: '\n' :: r) = '\n' :: replCRLF r from rfl, h1,
          List.cons_append]
      · rw [show ('\r' :: '\n' :: r) ++ ['\n'] = '\r' :: '\n' :: (r ++ ['\n']) from rfl,
          show replCRLF ('\r' :: '\n' :: (r ++ ['\n'])) = '\n' :: replCRLF (r ++ ['\n'])
            from rfl, h2, List.cons_append]
    · obtain ⟨Z, T, hT, h1, h2⟩ := replCRLF_snoc_nl_cases (d :: r)
      refine ⟨c :: Z, T, hT, ?_, ?_⟩
      · rw [replCRLF_cons_cons_ne c d r hp, h1, List.cons_append]
      · rw [show (c :: d :: r) ++ ['\n'] = c :: d :: (r ++ ['\n']) from rfl,
          replCRLF_cons_cons_ne c d (r ++ ['\n']) hp,
          show d :: (r ++ ['\n']) = (d :: r) ++ ['\n'] from rfl, h2, List.cons_append]

theorem cNLAux_snoc_nl : ∀ (U : Str) (n : Nat), ∃ C j,
    collapseNLAux n U = C ++ emitNL j ∧
    collapseNLAux n (U ++ ['\n']) = C ++ emitNL (j + 1)
  | [], n => by
    refine ⟨[], n, by rw [List.nil_append]; rfl, ?_⟩
    rw [List.nil_append]
    rfl
  | '\n' :: U', n => by
    obtain ⟨C, j, h1, h2⟩ := cNLAux_snoc_nl U' (n + 1)
    refine ⟨C, j, ?_, ?_⟩
    · rw [show collapseNLAux n ('\n' :: U') = collapseNLAux (n + 1) U' from rfl]
      exact h1
    · rw [List.cons_append,
        show collapseNLAux n ('\n' :: (U' ++ ['\n'])) = collapseNLAux (n + 1) (U' ++ ['\n'])
          from rfl]
      exact h2
  | c :: U', n => by
    by_cases hc : c = '\n'
    · subst hc
      obtain ⟨C, j, h1, h2⟩ := cNLAux_snoc_nl U' (n + 1)
      refine ⟨C, j, ?_, ?_⟩
      · rw [show collapseNLAux n ('\n' :: U') = collapseNLAux (n + 1) U' from rfl]
        exact h1
      · rw [List.cons_append,
          show collapseNLAux n ('\n' :: (U' ++ ['\n'])) =
            collapseNLAux (n + 1) (U' ++ ['\n']) from rfl]
        exact h2
    · obtain ⟨C, j, h1, h2⟩ := cNLAux_snoc_nl U' 0
      refine ⟨emitNL n ++ c :: C, j, ?_, ?_⟩
      · rw [collapseNLAux_cons_ne hc U' n, h1, List.append_assoc, List.cons_append]
      · rw [List.cons_append, collapseNLAux_cons_ne hc _ n, h2, List.append_assoc,
          List.cons_append]

theorem trimR_all_ws : ∀ w : Str, w.all isWSChar = true → trimR w = []
  | [], _ => rfl
  | c :: r, h => by
    rw [List.all_cons, Bool.and_eq_true] at h
    rw [trimR_cons_eq, trimR_all_ws r h.2, if_pos (by simp [h.1])]

theorem trimR_append_ws : ∀ (Y w : Str), w.all isWSChar = true → trimR (Y ++ w) = trimR Y
  | [], w, hw => by
    rw [List.nil_append, trimR_all_ws w hw]
    rfl
  | y :: Y', w, hw => by
    rw [List.cons_append, trimR_cons_eq, trimR_cons_eq, trimR_append_ws Y' w hw]

theorem trimL_append_cases : ∀ (A Bt : Str),
    trimL (A ++ Bt) = if trimL A = [] then trimL Bt else trimL A ++ Bt
  | [], Bt => by
    rw [List.nil_append, show trimL ([] : Str) = [] from rfl, if_pos rfl]
  | a :: A', Bt => by
    by_cases ha : isWSChar a = true
    · rw [List.cons_append, show trimL (a :: (A' ++ Bt)) = trimL (A' ++ Bt) from
        (by rw [trimL, List.dropWhile_cons, if_pos ha]; rfl),
        trimL_append_cases A' Bt,
        show trimL (a :: A') = trimL A' from
        (by rw [trimL, List.dropWhile_cons, if_pos ha]; rfl)]
    · rw [List.cons_append, show trimL (a :: (A' ++ Bt)) = a :: (A' ++ Bt) from
        (by rw [trimL, List.dropWhile_cons, if_neg ha]),
        show trimL (a :: A') = a :: A' from
        (by rw [trimL, List.dropWhile_cons, if_neg ha]),
        if_neg (List.cons_ne_nil a A')]
      rfl

theorem trimL_all_ws (w : Str) (hw : w.all isWSChar = true) : trimL w = [] := by
  rw [trimL, List.dropWhile_eq_nil_iff]
  intro x hx
  exact List.all_eq_true.mp hw x hx

theorem jsTrim_append_ws (Y w : Str) (hw : w.all isWSChar = true) :
    jsTrim (Y ++ w) = jsTrim Y := by
  rw [jsTrim, jsTrim, trimL_append_cases Y w]
  by_cases hY : trimL Y = []
  · rw [if_pos hY, hY, trimL_all_ws w hw]
  · rw [if_neg hY, trimR_append_ws (trimL Y) w hw]

theorem ws_not_word (c : Char) (h : isWSChar c = true) :
    isWordChar (asciiLowerChar c) = false := by
  simp only [isWSChar, Bool.or_eq_true, decide_eq_true_eq] at h
  rcases h with ((rfl | rfl) | rfl) | rfl <;> decide

theorem emitNL_all_ws (k : Nat) : (emitNL k).all isWSChar = true := by
  obtain ⟨m, _, hm⟩ := emitNL_eq_replicate k
  rw [hm]
  exact all_replicate m '\n' (by decide)

theorem jsTrim_mid (C t : Str) (j : Nat) (ht1 : trimR t = t) (ht2 : trimL t = t)
    (htne : t ≠ []) :
    ∃ W, W.all isWSChar = true ∧
      jsTrim ((C ++ emitNL (j + 1)) ++ t) = jsTrim (C ++ emitNL j) ++ (W ++ t) := by
  by_cases hC : trimL C = []
  · refine ⟨[], rfl, ?_⟩
    have hCe : ∀ k, trimL (C ++ emitNL k) = [] := by
      intro k
      rw [trimL_append_cases, if_pos hC, trimL_all_ws _ (emitNL_all_ws k)]
    rw [jsTrim, trimL_append_cases, if_pos (hCe (j + 1)), ht2, ht1, jsTrim, hCe j,
      show trimR ([] : Str) = [] from rfl, List.nil_append, List.nil_append]
  · have hCe : ∀ k, trimL (C ++ emitNL k) = trimL C ++ emitNL k := by
      intro k
      rw [trimL_append_cases, if_neg hC]
    have hL : trimL ((C ++ emitNL (j + 1)) ++ t) = (trimL C ++ emitNL (j + 1)) ++ t := by
      rw [trimL_append_cases,
        if_neg (by rw [hCe (j + 1)]; intro hh; exact hC (List.append_eq_nil.mp hh).1),
        hCe (j + 1)]
    rw [jsTrim, hL, trimR_append_ne _ t (by rw [ht1]; exact htne), ht1, jsTrim, hCe j,
      trimR_append_ws _ _ (emitNL_all_ws j)]
    obtain ⟨w₀, hw₀, hw₀ws⟩ := trimR_decomp (trimL C)
    refine ⟨w₀ ++ emitNL (j + 1), by rw [List.all_append, hw₀ws, emitNL_all_ws (j + 1)]; rfl, ?_⟩
    conv_lhs => rw [hw₀]
    simp only [List.append_assoc]

theorem cleanText_append_bullet (R : Str) :
    ∃ W, W.all isWSChar = true ∧
      cleanText (R ++ str "\n- increased revenue by 20%") =
        cleanText R ++ (W ++ str "- increased revenue by 20%") := by
  obtain ⟨Z, T, hT, hZ1, hZ2⟩ := replCRLF_snoc_nl_cases R
  have hR0 : cleanText R =
      jsTrim (collapseNLAux 0 (collapseSpAux 0 (replTab Z))) := by
    rw [cleanText, hZ1]
    cases hT with
    | inl h =>
      subst h
      rw [List.append_nil, collapseNewlines, collapseSpaces]
    | inr h =>
      subst h
      rw [replTab, List.map_append,
        show List.map (fun c => if c = '\t' then ' ' else c) ['\r'] = ['\r'] from
          (by decide),
        collapseSpaces,
        collapseSpAux_flush (show ('\r' : Char) ≠ ' ' from by decide) _ 0 [],
        show collapseSpAux 0 ([] : Str) = [] from rfl,
        collapseNewlines,
        collapseNLAux_flush (show ('\r' : Char) ≠ '\n' from by decide) _ 0 [],
        show collapseNLAux 0 ([] : Str) = [] from rfl,
        jsTrim_append_ws _ _ (show (['\r'] : Str).all isWSChar = true from by decide)]
      rfl
  have hB0 : cleanText (R ++ str "\n- increased revenue by 20%") =
      jsTrim ((collapseNLAux 0 (collapseSpAux 0 (replTab Z) ++ ['\n'])) ++
        '-' :: str " increased revenue by 20%") := by
    rw [cleanText,
      show str "\n- increased revenue by 20%" = '\n' :: str "- increased revenue by 20%"
        from rfl,
      replCRLF_append_nl R _, hZ2,
      show replCRLF (str "- increased revenue by 20%") = str "- increased revenue by 20%"
        from (by decide),
      replTab, List.map_append, List.map_append,
      show List.map (fun c => if c = '\t' then ' ' else c) ['\n'] = ['\n'] from (by decide),
      show List.map (fun c => if c = '\t' then ' ' else c)
          (str "- increased revenue by 20%") = str "- increased revenue by 20%" from
        (by decide),
      List.append_assoc, List.singleton_append, collapseSpaces,
      collapseSpAux_flush (show ('\n' : Char) ≠ ' ' from by decide) _ 0 _,
      show collapseSpAux 0 (str "- increased revenue by 20%") =
        str "- increased revenue by 20%" from (by decide),
      show str "- increased revenue by 20%" = '-' :: str " increased revenue by 20%"
        from rfl,
      show collapseSpAux 0 (List.map (fun c => if c = '\t' then ' ' else c) Z) ++
          '\n' :: '-' :: str " increased revenue by 20%" =
          (collapseSpAux 0 (List.map (fun c => if c = '\t' then ' ' else c) Z) ++ ['\n']) ++
          '-' :: str " increased revenue by 20%" from
        (by rw [List.append_assoc, List.singleton_append]),
      collapseNewlines,
      collapseNLAux_flush (show ('-' : Char) ≠ '\n' from by decide) _ 0 _,
      show collapseNLAux 0 (str " increased revenue by 20%") =
        str " increased revenue by 20%" from (by decide)]
    rfl
  obtain ⟨C, j, hC1, hC2⟩ := cNLAux_snoc_nl (collapseSpAux 0 (replTab Z)) 0
  obtain ⟨W, hWws, hW⟩ := jsTrim_mid C ('-' :: str " increased revenue by 20%") j
    (by decide) (by decide) (by decide)
  refine ⟨W, hWws, ?_⟩
  rw [hB0, hC2, hR0, hC1,
    show str "- increased revenue by 20%" = '-' :: str " increased revenue by 20%" from rfl]
  exact hW

theorem bullet_head_nonword (W : Str) (hW : W.all isWSChar = true) :
    ∀ c, (lowerS (W ++ str "- increased revenue by 20%")).get? 0 = some c →
      isWordChar c = false := by
  intro c hc
  cases W with
  | nil =>
    rw [show (lowerS (([] : Str) ++ str "- increased revenue by 20%")).get? 0 = some '-'
      from (by decide)] at hc
    injection hc with hc
    subst hc
    decide
  | cons w W' =>
    rw [List.cons_append, lowerS, List.map_cons,
      show (asciiLowerChar w ::
        List.map asciiLowerChar (W' ++ str "- increased revenue by 20%")).get? 0 =
        some (asciiLowerChar w) from rfl] at hc
    injection hc with hc
    subst hc
    rw [List.all_cons, Bool.and_eq_true] at hW
    exact ws_not_word w hW.1

/-- C5 (amended): for every resume text `R` whose metric count (as
`analyzeResume` computes it, on the cleaned text) is zero, appending the
bullet `"\n- increased revenue by 20%"` does not decrease the *internal*
Proof of Impact category score: the cleaned appended text is the cleaned
original plus whitespace plus the bullet, word-boundary impact-verb matches
persist, and the extra metric bonuses are nonnegative. The score
*reported* by `analyzeResume` for this category is `round(100 - internal)`,
so it does not *increase* — the original claim read the reported value as
health-like and is refuted by the counterexample (reported drops from 80
to 40). -/
theorem claimC5_poi_monotone (R : Str)
    (hm0 : countMetrics (cleanText R) = 0) :
    proofOfImpactScore (cleanText R) ≤
      proofOfImpactScore (cleanText (R ++ str "\n- increased revenue by 20%")) ∧
    ((analyzeResume (R ++ str "\n- increased revenue by 20%")).breakdown.getD 1
        ⟨[], 0, []⟩).score ≤
      ((analyzeResume R).breakdown.getD 1 ⟨[], 0, []⟩).score := by
  obtain ⟨W, hWws, hstruct⟩ := cleanText_append_bullet R
  have hiv : (detectImpactVerbs (cleanText R)).length ≤
      (detectImpactVerbs (cleanText (R ++ str "\n- increased revenue by 20%"))).length := by
    rw [hstruct]
    exact detectImpactVerbs_append_mono (cleanText R) _ (bullet_head_nonword W hWws)
  have hbb_nonneg : ∀ (m n : ℕ),
      (0:ℚ) ≤ (if 0 < n then min 40 (((m:ℚ) / (n:ℚ)) * 50) else 0) := by
    intro m n
    split
    · exact le_min (by norm_num) (by positivity)
    · exact le_refl 0
  have hi3_mono : ∀ k k' : ℕ, k ≤ k' →
      (if 3 < k then (15:ℚ) else 0) ≤ (if 3 < k' then (15:ℚ) else 0) := by
    intro k k' hk
    by_cases h : 3 < k
    · rw [if_pos h, if_pos (by omega)]
    · rw [if_neg h]
      split <;> norm_num
  have hi7_mono : ∀ k k' : ℕ, k ≤ k' →
      (if 7 < k then (10:ℚ) else 0) ≤ (if 7 < k' then (10:ℚ) else 0) := by
    intro k k' hk
    by_cases h : 7 < k
    · rw [if_pos h, if_pos (by omega)]
    · rw [if_neg h]
      split <;> norm_num
  have hi3_bnd : ∀ k : ℕ, (0:ℚ) ≤ (if 3 < k then (15:ℚ) else 0) ∧
      (if 3 < k then (15:ℚ) else 0) ≤ 15 := by
    intro k
    split <;> norm_num
  have hi7_bnd : ∀ k : ℕ, (0:ℚ) ≤ (if 7 < k then (10:ℚ) else 0) ∧
      (if 7 < k then (10:ℚ) else 0) ≤ 10 := by
    intro k
    split <;> norm_num
  have hm10_nonneg : ∀ k : ℕ, (0:ℚ) ≤ (if 5 < k then (10:ℚ) else 0) := by
    intro k
    split <;> norm_num
  have hbbz : ∀ n : ℕ,
      (if 0 < n then min 40 ((((0:ℕ):ℚ) / (n:ℚ)) * 50) else 0) = 0 := by
    intro n
    split
    · norm_num
    · rfl
  have hmain : proofOfImpactScore (cleanText R) ≤
      proofOfImpactScore (cleanText (R ++ str "\n- increased revenue by 20%")) := by
    simp only [proofOfImpactScore, clampQ_eq, qadd_eq, qmin_eq, qmul_eq, qdiv_eq,
      qOfNat_eq]
    rw [hm0]
    rw [hbbz ((extractBullets (cleanText R)).length)]
    rw [show (if 5 < (0:ℕ) then (10:ℚ) else 0) = 0 from (by norm_num)]
    apply clamp_mono_of_le
    · have h1 := hi3_bnd (detectImpactVerbs (cleanText R)).length
      have h2 := hi7_bnd (detectImpactVerbs (cleanText R)).length
      linarith
    · have h1 := hi3_bnd (detectImpactVerbs (cleanText R)).length
      have h2 := hi7_bnd (detectImpactVerbs (cleanText R)).length
      linarith
    · have h1 := hi3_mono (detectImpactVerbs (cleanText R)).length
        (detectImpactVerbs (cleanText (R ++ str "\n- increased revenue by 20%"))).length hiv
      have h2 := hi7_mono (detectImpactVerbs (cleanText R)).length
        (detectImpactVerbs (cleanText (R ++ str "\n- increased revenue by 20%"))).length hiv
      have h3 := hbb_nonneg
        (countMetrics (cleanText (R ++ str "\n- increased revenue by 20%")))
        ((extractBullets (cleanText (R ++ str "\n- increased revenue by 20%"))).length)
      have h4 := hm10_nonneg
        (countMetrics (cleanText (R ++ str "\n- increased revenue by 20%")))
      linarith
  refine ⟨hmain, ?_⟩
  unfold analyzeResume
  dsimp only
  simp only [List.map_cons, List.getD_cons_succ, List.getD_cons_zero]
  rw [qOfInt_eq, qOfInt_eq]
  have h1 : qsub 100 (proofOfImpactScore
      (cleanText (R ++ str "\n- increased revenue by 20%"))) ≤
      qsub 100 (proofOfImpactScore (cleanText R)) := by
    rw [qsub_eq, qsub_eq]
    linarith
  have h2 := jsRound_mono h1
  exact_mod_cast h2

/-- Witness for C5 at the metrics-free resume `"hello"`. -/
theorem claimC5_witness :
    countMetrics (cleanText (str "hello")) = 0 ∧
    proofOfImpactScore (cleanText (str "hello")) ≤
      proofOfImpactScore (cleanText (str "hello" ++ str "\n- increased revenue by 20%")) ∧
    ((analyzeResume (str "hello" ++ str "\n- increased revenue by 20%")).breakdown.getD 1
        ⟨[], 0, []⟩).score ≤
      ((analyzeResume (str "hello")).breakdown.getD 1 ⟨[], 0, []⟩).score :=
  ⟨by decide,
   (claimC5_poi_monotone (str "hello") (by decide)).1,
   (claimC5_poi_monotone (str "hello") (by decide)).2⟩

/-- Witness for C3 at a concrete input exercising every clause. -/
theorem claimC3_witness :
    crOnlyBeforeLF (str "a\r\n\tb    c\n\n\n\n\nd  ") = true ∧
    noTabs (cleanText (str "a\r\n\tb    c\n\n\n\n\nd  ")) = true ∧
    noCR (cleanText (str "a\r\n\tb    c\n\n\n\n\nd  ")) = true :=
  ⟨by decide, (claimC3_normalizer_amended _).1,
   (claimC3_normalizer_amended _).2.2.2.2 (by decide)⟩

end Roaster
